import Mathlib

/-!
# asyncfs: a shallow embedding of the Linux build and its checked properties

The development follows the Linux sources of the package (`file.go`, `file_unix.go`,
`async_unix_notbsd.go`, `async_unix_notbsd_aio.go`, `async_unix_notbsd_io_uring.go`,
`ctx.go`, `ctx_unix_notbsd.go`).  The context of the BSD build (`ctx_unix_bsd.go`) and the
synchronous path of the Windows build (`ctx_windows.go`, `file_windows.go`,
`async_windows.go`) are embedded in the namespaces `Bsd` and `Win`.

Conventions of the embedding.

* The process-wide context `c`, every `File` reachable through a pointer, the `aiocb` and
  `cqUserData` records living on the Go heap and the part of the kernel that the library talks
  to are gathered in one record, `World`.  Every method of the package becomes a function from a
  `World` to a new `World` together with the values the method returns.
* Pointers (`unsafe.Pointer`, `*File`, `uintptr`) are natural numbers; `0` is `nil`.
* Go `int` and `int64` are `Int` (the values stay far from the 64-bit bounds); `uint32` ring
  indices and `uint64` addresses are `Nat` with the wrap-around written out (`add32`, `sub32`,
  `uint64`).
* A run-time panic of the Go code (index out of range, nil dereference, division by zero,
  `makeslice`) is the result `none`.
* What the operating system answers to a call is not computed by the package; it is an input of
  the call, collected in `Env`.  Mutexes are not modelled: calls are executed one after another.
* The kernel part of `World` also records what the package asked of it (the seeks, the
  synchronous transfers with the offset they started at, the system calls of opening a file and
  of context set-up) and `World.mem` holds the bytes of the Go heap, so that "issues no system
  call", "reads from offset n" and "zeroes the buffer" are statements about the state.
-/

namespace Asyncfs

/-! ## Constants -/

abbrev ModeSync : Nat := 1
abbrev ModeAsync : Nat := 2

abbrev OpUnknown : Int := 0
abbrev OpRead : Int := 1
abbrev OpWrite : Int := 2

abbrev asyncAio : Int := 1
abbrev asyncIoUring : Int := 2

abbrev iocbCmdPread : Nat := 0
abbrev iocbCmdPwrite : Nat := 1

abbrev ioringOpNop : Nat := 0
abbrev ioringOpReadv : Nat := 1
abbrev ioringOpWritev : Nat := 2

/-! ## Machine arithmetic -/

/-- Conversion to `uint32`. -/
def uint32 (x : Int) : Nat := (x % 4294967296).toNat

/-- Conversion to `uint64` (also `uintptr` on the 64-bit targets of `iovec_64.go`). -/
def uint64 (x : Int) : Nat := (x % 18446744073709551616).toNat

/-- Conversion to `int32`. -/
def int32 (x : Int) : Int := (x + 2147483648) % 4294967296 - 2147483648

/-- Addition of two `uint32` values. -/
def add32 (a b : Nat) : Nat := (a + b) % 4294967296

/-- Subtraction of two `uint32` values. -/
def sub32 (a b : Nat) : Nat := (a % 4294967296 + 4294967296 - b % 4294967296) % 4294967296

/-- Bitwise complement of a `uint64` value (Go's unary `^`). -/
def not64 (x : Nat) : Nat := 18446744073709551615 - x % 18446744073709551616

/-! ## Errors -/

/-- The error values the package returns.  The exported sentinels keep their names;
`Errno e` is a `syscall.Errno`, `asyncError r` is `fmt.Errorf("async error: %d", r)`,
`unknownAsyncMode m` is `fmt.Errorf("unknown async mode '%v'", m)`, `unknownType t` is
`fmt.Errorf("unknown type '%v'", t)` and `osError k` is an error of package `os`. -/
inductive Error where
  | ErrNotCompleted
  | ErrCtxBusy
  | ErrUnknownOperation
  | ErrNotSubmittedAio
  | ErrAioError
  | ErrNotSubmittedIoUring
  | ErrNotSupported
  | ErrNotImplemented
  | ErrEOF
  | ErrUnalignedData
  | ErrShortWrite
  | errFailedSq
  | errBadSize
  | Errno (e : Nat)
  | asyncError (result : Int)
  | unknownAsyncMode (mode : Int)
  | unknownType (t : Nat)
  | osError (code : Nat)
  deriving DecidableEq, Repr

/-! ## Go maps keyed by a pointer -/

/-- Lookup `m[k]`, the second result of Go's two-valued index expression being `isSome`. -/
def mapLookup {α : Type} (m : List (Nat × α)) (k : Nat) : Option α :=
  match m with
  | [] => none
  | (k1, v) :: rest => if k1 = k then some v else mapLookup rest k

/-- Removal `delete(m, k)`. -/
def mapDelete {α : Type} (m : List (Nat × α)) (k : Nat) : List (Nat × α) :=
  m.filter (fun kv => decide (kv.1 ≠ k))

/-- Assignment `m[k] = v`. -/
def mapInsert {α : Type} (m : List (Nat × α)) (k : Nat) (v : α) : List (Nat × α) :=
  (k, v) :: mapDelete m k

/-! ## Data model -/

/-- A Go byte slice seen through `reflect.SliceHeader`. -/
structure Buf where
  Data : Nat := 0
  Len : Int := 0
  Cap : Int := 0
  deriving DecidableEq, Repr

/-- The `slice` record of `ctx.go`: an allocation as it was before the start was shifted. -/
structure slice where
  b : Nat := 0
  len : Int := 0
  cap : Int := 0
  deriving DecidableEq, Repr

/-- The `asyncOpState` record of `ctx.go`. -/
structure asyncOpState where
  data : Buf := {}
  result : Int := 0
  lastCap : Int := 0
  lastOp : Int := 0
  complete : Bool := false
  eof : Bool := false
  deriving DecidableEq, Repr

/-- The `File` record of `file.go` (`fd` is the descriptor of the `*os.File`; the mutex and the
path play no part in the results). -/
structure File where
  fd : Int := 0
  lastSyncSeek : Bool := false
  mode : Nat := 0
  pos : Int := 0
  lastAsyncOpState : asyncOpState := {}
  deriving DecidableEq, Repr

/-- The `aiocb` record of `async_unix_notbsd_aio.go`. -/
structure aiocb where
  aioData : Nat := 0
  aioKey : Nat := 0
  aioOpcode : Nat := 0
  aioReqPrio : Int := 0
  aioFields : Nat := 0
  aioBuf : Nat := 0
  aioNbytes : Nat := 0
  aioOffset : Int := 0
  aioReserved2 : Nat := 0
  aioFlags : Int := 0
  aioResfd : Nat := 0
  deriving DecidableEq, Repr

/-- The `aioEvent` record of `async_unix_notbsd_aio.go`. -/
structure aioEvent where
  data : Nat := 0
  obj : Nat := 0
  res : Int := 0
  res2 : Int := 0
  deriving DecidableEq, Repr

/-- The `sqe` record of `async_unix_notbsd_io_uring.go`. -/
structure sqe where
  opcode : Nat := 0
  flags : Nat := 0
  ioprio : Nat := 0
  fd : Int := 0
  off : Nat := 0
  addr : Nat := 0
  len : Nat := 0
  sqeFlags : Nat := 0
  userData : Nat := 0
  pad : List Nat := [0, 0, 0]
  deriving DecidableEq, Repr

/-- The `cqe` record of `async_unix_notbsd_io_uring.go`. -/
structure cqe where
  userData : Nat := 0
  res : Int := 0
  flags : Nat := 0
  deriving DecidableEq, Repr

/-- The `sQueue` record: the words shared with the kernel are stored by value. -/
structure sQueue where
  khead : Nat := 0
  ktail : Nat := 0
  kringMask : Nat := 0
  kringEntries : Nat := 0
  kflags : Nat := 0
  kdropped : Nat := 0
  array : List Nat := []
  sqes : List sqe := []
  sqeHead : Nat := 0
  sqeTail : Nat := 0
  ringSz : Nat := 0
  sqRingFd : Nat := 0
  deriving DecidableEq, Repr

/-- The `cQueue` record: the words shared with the kernel are stored by value. -/
structure cQueue where
  khead : Nat := 0
  ktail : Nat := 0
  kringMask : Nat := 0
  kringEntries : Nat := 0
  koverflow : Nat := 0
  cqes : List cqe := []
  ringSz : Nat := 0
  cqRingFd : Nat := 0
  deriving DecidableEq, Repr

/-- The `ring` record. -/
structure ring where
  sq : sQueue := {}
  cq : cQueue := {}
  flags : Nat := 0
  ringFd : Int := 0
  features : Nat := 0
  deriving DecidableEq, Repr

/-- The `syscall.Iovec` record. -/
structure Iovec where
  Base : Nat := 0
  Len : Nat := 0
  deriving DecidableEq, Repr

/-- The `cqUserData` record. -/
structure cqUserData where
  buf : Iovec := {}
  cap : Int := 0
  deriving DecidableEq, Repr

/-- The `ctx` record of `ctx_unix_notbsd.go` with the embedded `baseCtx` of `ctx.go`.
`operationsFd` maps a completion key to the file (a pointer) that owns the operation;
`alignedBuffers` is `none` while the Go map is nil; `r` is `none` while the pointer is nil. -/
structure ctx where
  bufPoller : Option (Int → Buf) := none
  bufReleaser : Bool := false
  newThread : Int → Bool := fun _ => false
  asyncMode : Int := 0
  align : Int := 0
  sz : Int := 0
  currentCnt : Int := 0
  operationsFd : List (Nat × Nat) := []
  alignedBuffers : Option (List (Nat × slice)) := none
  aio : Nat := 0
  r : Option ring := none

/-- A system call of context set-up or of opening a file, as the kernel sees it. -/
inductive Syscall where
  | openFile (flag : Nat)
  | ioUringSetup (entries : Nat)
  | mmap (length : Nat) (offset : Nat)
  | munmap (addr : Nat) (length : Nat)
  | ioSetup (nr : Int)
  deriving DecidableEq, Repr

/-- The part of the kernel the package relies on.  `aioInflight` lists the control blocks that
`io_submit` accepted and that no `io_getevents` call has reported yet; `uringInflight` lists the
`user_data` of the submission entries the kernel took from the submission ring and has not
completed yet.  `cursor` is the file offset the kernel keeps for each descriptor; `seeks` lists
the `lseek` calls received, latest first, as (descriptor, offset, whence); `syncIO` lists the
synchronous transfers done, latest first, as (descriptor, offset where the transfer started,
bytes moved); `trace` lists the system calls of context set-up and of opening files, latest
first. -/
structure Kernel where
  aioInflight : List Nat := []
  uringInflight : List Nat := []
  cursor : Int → Int := fun _ => 0
  seeks : List (Int × Int × Int) := []
  syncIO : List (Int × Int × Int) := []
  trace : List Syscall := []

/-- The state a call runs in: the context, the heap and the kernel.  `mem` is the byte stored
at each address; `released` lists the slices handed to the hook `bufReleaser`, latest first;
`ioUringSetupSys`, `ioUringEnterSys` and `nSig` are the package variables of the same names,
filled in by `init` from the C headers (`-1` when the header has no io_uring). -/
structure World where
  c : ctx := {}
  files : Nat → File := fun _ => {}
  aiocbs : Nat → aiocb := fun _ => {}
  userDatas : Nat → cqUserData := fun _ => {}
  k : Kernel := {}
  mem : Nat → Nat := fun _ => 0
  released : List Buf := []
  ioUringSetupSys : Int := 425
  ioUringEnterSys : Int := 426
  nSig : Int := 65

/-- The answer of one `io_getevents` call: the errno and the events that are ready. -/
structure GetEvents where
  e1 : Nat := 0
  events : List aioEvent := []
  deriving DecidableEq, Repr

/-- The answers of the operating system during one call of the package.
`getevents` holds the answers of the successive `io_getevents` calls (none left: no event);
`ptr` is the address of the record the call allocates (`aiocb`, or the `cqUserData` it takes
from the pool); `submitN`, `submitErr` answer `io_submit`; `enterErr` answers `io_uring_enter`;
`seekN`, `seekErr` answer `(*os.File).Seek`; `rawN`, `rawErr` answer the raw `read`/`write`
system call; `osN`, `osErr` answer `(*os.File).Read`/`Write`; `statErr` answers
`(*os.File).Stat`; `openFd`, `openErr` answer `os.OpenFile`. -/
structure Env where
  getevents : List GetEvents := []
  ptr : Nat := 0
  submitN : Nat := 1
  submitErr : Nat := 0
  enterErr : Nat := 0
  seekN : Int := 0
  seekErr : Option Error := none
  rawN : Int := 0
  rawErr : Nat := 0
  osN : Int := 0
  osErr : Option Error := none
  statErr : Option Error := none
  openFd : Int := 3
  openErr : Option Error := none
  deriving DecidableEq, Repr

/-- Replace the record of file `f`. -/
def setFile (W : World) (f : Nat) (x : File) : World :=
  { W with files := Function.update W.files f x }

/-- The kernel side of `lseek(fd, off, whence)` as `(*os.File).Seek` issues it: the call is
received; when it succeeds the offset kept for the descriptor becomes `off` for whence 0, the
old offset plus `off` for whence 1, and the value the call returns (`env.seekN`) otherwise. -/
def sysSeek (W : World) (fd : Int) (off : Int) (whence : Int) (env : Env) : World :=
  { W with k := { W.k with
      seeks := (fd, off, whence) :: W.k.seeks
      cursor :=
        match env.seekErr with
        | some _ => W.k.cursor
        | none =>
          Function.update W.k.cursor fd
            (if whence = 0 then off else if whence = 1 then W.k.cursor fd + off else env.seekN) } }

/-- The kernel side of a synchronous `read` or `write` on `fd` that moved `n` bytes: the
transfer starts at the offset kept for the descriptor, which then advances by `n`. -/
def sysRW (W : World) (fd : Int) (n : Int) : World :=
  { W with k := { W.k with
      syncIO := (fd, W.k.cursor fd, n) :: W.k.syncIO
      cursor := Function.update W.k.cursor fd (W.k.cursor fd + n) } }

/-! ## Linux AIO backend (`async_unix_notbsd_aio.go`) -/

/-- The `io_submit(c.aio, 1, &cb)` call: the kernel accepts the control block exactly when it
answers `1` without an errno. -/
def sysIoSubmit (W : World) (cb : Nat) (env : Env) : World :=
  if env.submitErr = 0 ∧ env.submitN = 1 then
    { W with k := { W.k with aioInflight := cb :: W.k.aioInflight } }
  else W

/-- Method `(*File).asyncRWAio`. -/
def asyncRWAio (W : World) (f : Nat) (op : Nat) (data : Buf) (env : Env) :
    Option (World × Int × Option Error) :=
  let sz := data.Len
  if sz = 0 then some (W, 0, none)
  else if W.c.align = 0 then none
  else if Int.tmod data.Len W.c.align ≠ 0 then some (W, 0, some Error.ErrUnalignedData)
  else if uint64 W.c.align = 0 then none
  else if data.Data % uint64 W.c.align ≠ 0 then some (W, 0, some Error.ErrUnalignedData)
  else
    let cb : aiocb :=
      { aioFields := uint32 (W.files f).fd
        aioOpcode := op
        aioBuf := data.Data
        aioNbytes := uint64 sz
        aioOffset := (W.files f).pos
        aioData := uint64 data.Cap }
    let W1 : World :=
      { W with
        aiocbs := Function.update W.aiocbs env.ptr cb
        c := { W.c with operationsFd := mapInsert W.c.operationsFd env.ptr f } }
    let W2 := sysIoSubmit W1 env.ptr env
    if env.submitErr ≠ 0 then some (W2, 0, some (Error.Errno env.submitErr))
    else if env.submitN ≠ 1 then some (W2, 0, some Error.ErrNotSubmittedAio)
    else some (W2, 0, none)

/-- Method `(*File).asyncWriteAio`. -/
def asyncWriteAio (W : World) (f : Nat) (data : Buf) (env : Env) :
    Option (World × Int × Option Error) :=
  asyncRWAio W f iocbCmdPwrite data env

/-- Method `(*File).asyncReadAio`. -/
def asyncReadAio (W : World) (f : Nat) (data : Buf) (env : Env) :
    Option (World × Int × Option Error) :=
  asyncRWAio W f iocbCmdPread data env

/-- The body of the `for i := 0; i < int(n); i++` loop of `fillStatesAio` for one event. -/
def applyAioEvent (W : World) (e : aioEvent) : World :=
  match mapLookup W.c.operationsFd e.obj with
  | none => W
  | some fd =>
    let aioCb := W.aiocbs e.obj
    let f := W.files fd
    let st := f.lastAsyncOpState
    let st1 : asyncOpState :=
      if st.lastOp = OpRead then
        { st with
          data := { Data := aioCb.aioBuf, Len := aioCb.aioNbytes, Cap := e.data }
          eof := decide (aioCb.aioNbytes > 0) && decide (e.res = 0) }
      else st
    let st2 : asyncOpState := { st1 with result := e.res, complete := true }
    let f2 : File := { f with pos := aioCb.aioOffset + e.res, lastAsyncOpState := st2 }
    { W with
      files := Function.update W.files fd f2
      c := { W.c with operationsFd := mapDelete W.c.operationsFd e.obj } }

/-- The number of events one `io_getevents` call asks for in `fillStatesAio`. -/
def aioBatch (c : ctx) : Int := if c.sz > 64 then 64 else c.sz

/-- The kernel side of an `io_getevents` call that reports `evs`. -/
def sysIoGetevents (W : World) (evs : List aioEvent) : World :=
  { W with k := { W.k with
      aioInflight := W.k.aioInflight.filter (fun p => decide (p ∉ evs.map aioEvent.obj)) } }

/-- Function `fillStatesAio`.  One element of the list answers one `io_getevents` call, the
kernel handing over at most the number of events asked for; when the list is used up the kernel
has no event. -/
def fillStatesAio (W : World) : List GetEvents → Option (World × Option Error)
  | [] => if aioBatch W.c ≤ 0 then none else some (W, none)
  | g :: gs =>
    if aioBatch W.c ≤ 0 then none
    else if g.e1 ≠ 0 then some (W, some (Error.Errno g.e1))
    else
      let evs := g.events.take (aioBatch W.c).toNat
      let W1 := sysIoGetevents W evs
      if 0 < evs.length then
        let W2 := evs.foldl applyAioEvent W1
        if (aioBatch W.c).toNat ≤ evs.length then fillStatesAio W2 gs else some (W2, none)
      else some (W1, none)

/-! ## io_uring backend (`async_unix_notbsd_io_uring.go`) -/

/-- Function `getSqe`: the ring after the call and the index in `sq.sqes` of the entry handed
out (`none` for a nil result). -/
def getSqe (r : ring) : Option (ring × Option Nat) :=
  let head := r.sq.khead
  let next := add32 r.sq.sqeTail 1
  if sub32 next head ≤ r.sq.kringEntries then
    let i := r.sq.sqeTail &&& r.sq.kringMask
    if i < r.sq.sqes.length then
      some ({ r with sq := { r.sq with sqeTail := next } }, some i)
    else none
  else some (r, none)

/-- Function `rw`: `ioSqe` is the entry the pointer refers to (`none` for nil); the result is
the returned flag and the entry after the call. -/
def rw (op : Nat) (ioSqe : Option sqe) (fd : Int) (addr : Nat) (userData : Nat) (len : Nat)
    (offset : Int) : Bool × Option sqe :=
  if op ≠ ioringOpReadv ∧ op ≠ ioringOpWritev then (false, ioSqe)
  else
    match ioSqe with
    | none => (false, none)
    | some s =>
      if addr = 0 ∨ userData = 0 then (false, some s)
      else
        (true, some
          { s with
            opcode := op
            flags := 0
            ioprio := 0
            fd := int32 fd
            off := uint64 offset
            addr := addr
            len := len
            sqeFlags := 0
            userData := userData
            pad := [0, 0, 0] })

/-- The loop of `flushSq`: `n` is `toSubmit`, the result is the queue and the local `ktail`. -/
def flushLoop (mask : Nat) : Nat → sQueue → Nat → Option (sQueue × Nat)
  | 0, sq, ktail => some (sq, ktail)
  | n + 1, sq, ktail =>
    if ktail &&& mask < sq.array.length then
      flushLoop mask n
        { sq with
          array := sq.array.set (ktail &&& mask) (sq.sqeHead &&& mask)
          sqeHead := add32 sq.sqeHead 1 }
        (add32 ktail 1)
    else none

/-- Function `flushSq`. -/
def flushSq (r : ring) : Option (ring × Int) :=
  match flushLoop r.sq.kringMask (sub32 r.sq.sqeTail r.sq.sqeHead) r.sq r.sq.ktail with
  | none => none
  | some (sq1, ktail) =>
    some ({ r with sq := { sq1 with ktail := ktail } }, (sub32 ktail sq1.khead : Int))

/-- Method `(*File).asyncRWIoUring`.  The record taken from the pool (or allocated) is
`env.ptr`. -/
def asyncRWIoUring (W : World) (f : Nat) (op : Nat) (data : Buf) (env : Env) :
    Option (World × Int × Option Error) :=
  if data.Len ≤ 0 then none
  else
    let ud : cqUserData := { buf := { Base := data.Data, Len := uint64 data.Len }, cap := data.Cap }
    let uds := Function.update W.userDatas env.ptr ud
    match W.c.r with
    | none => none
    | some r =>
      match getSqe r with
      | none => none
      | some (r1, s) =>
        let res := rw op (s.bind fun i => r1.sq.sqes[i]?) (W.files f).fd env.ptr env.ptr 1
          (W.files f).pos
        if !res.1 then
          some ({ W with userDatas := uds,
                         c := { W.c with currentCnt := W.c.currentCnt + 1 - 1, r := some r1 } },
                0, some Error.ErrNotSubmittedIoUring)
        else
          let r2 : ring :=
            match s, res.2 with
            | some i, some x => { r1 with sq := { r1.sq with sqes := r1.sq.sqes.set i x } }
            | _, _ => r1
          match flushSq r2 with
          | none => none
          | some (r3, submit) =>
            let W3 : World :=
              { W with
                userDatas := uds
                c := { W.c with
                  currentCnt := W.c.currentCnt + 1
                  operationsFd := mapInsert W.c.operationsFd env.ptr f
                  r := some r3 } }
            if submit = 0 then some (W3, 0, some Error.errFailedSq)
            else if env.enterErr ≠ 0 then some (W3, 0, some (Error.Errno env.enterErr))
            else some (W3, 0, none)

/-- Method `(*File).asyncWriteIoUring`. -/
def asyncWriteIoUring (W : World) (f : Nat) (data : Buf) (env : Env) :
    Option (World × Int × Option Error) :=
  asyncRWIoUring W f ioringOpWritev data env

/-- Method `(*File).asyncReadIoUring`. -/
def asyncReadIoUring (W : World) (f : Nat) (data : Buf) (env : Env) :
    Option (World × Int × Option Error) :=
  asyncRWIoUring W f ioringOpReadv data env

/-- The body of the loop of `fillStatesIoUring` for one completion entry. -/
def applyCqe (W : World) (q : cqe) : World :=
  match mapLookup W.c.operationsFd q.userData with
  | none => W
  | some fd =>
    let userData := W.userDatas q.userData
    let f := W.files fd
    let st := f.lastAsyncOpState
    let st1 : asyncOpState :=
      if st.lastOp = OpRead then
        { st with
          data := { Data := userData.buf.Base, Len := userData.buf.Len, Cap := userData.cap }
          eof := decide (userData.buf.Len > 0) && decide (q.res = 0) }
      else st
    let st2 : asyncOpState := { st1 with result := q.res, complete := true }
    let f2 : File := { f with pos := f.pos + q.res, lastAsyncOpState := st2 }
    { W with
      files := Function.update W.files fd f2
      userDatas := Function.update W.userDatas q.userData { buf := { Base := 0, Len := 0 }, cap := 0 }
      c := { W.c with operationsFd := mapDelete W.c.operationsFd q.userData } }

/-- The loop `for ; ; head++` of `fillStatesIoUring`.  The first argument bounds the number
of rounds; called with `available` it is never the reason the loop stops, because `head`
reaches `ktail` after exactly `available` rounds. -/
def cqLoop (cq : cQueue) : Nat → World → Nat → Option World
  | 0, W, _ => some W
  | n + 1, W, head =>
    if sub32 cq.ktail head = 0 then some W
    else
      match cq.cqes[head &&& cq.kringMask]? with
      | none => none
      | some q => cqLoop cq n (applyCqe W q) (add32 head 1)

/-- Function `fillStatesIoUring`. -/
def fillStatesIoUring (W : World) : Option World :=
  match W.c.r with
  | none => none
  | some r =>
    let head := r.cq.khead
    let available := sub32 r.cq.ktail head
    match cqLoop r.cq available W head with
    | none => none
    | some W1 =>
      some { W1 with c := { W1.c with
        r := some { r with cq := { r.cq with khead := add32 r.cq.khead available } }
        currentCnt := W1.c.currentCnt - available } }

/-- The kernel takes the oldest entry of the submission ring (as `io_uring_enter` makes it
do): it reads the entry through `array[khead & mask]` and advances the shared `khead`. -/
def kernelTake (W : World) : Option World :=
  match W.c.r with
  | none => none
  | some r =>
    if sub32 r.sq.ktail r.sq.khead = 0 then none
    else
      match r.sq.array[r.sq.khead &&& r.sq.kringMask]? with
      | none => none
      | some i =>
        match r.sq.sqes[i]? with
        | none => none
        | some s =>
          some { W with
            c := { W.c with r := some { r with sq := { r.sq with khead := add32 r.sq.khead 1 } } }
            k := { W.k with uringInflight := W.k.uringInflight ++ [s.userData] } }

/-- The kernel completes the operation at place `i` of those it holds with result `res`: it
writes a completion entry at `cqes[ktail & mask]` and advances the shared completion `ktail`. -/
def kernelPost (W : World) (i : Nat) (res : Int) : Option World :=
  match W.c.r with
  | none => none
  | some r =>
    match W.k.uringInflight[i]? with
    | none => none
    | some ud =>
      some { W with
        c := { W.c with r := some { r with cq := { r.cq with
          cqes := r.cq.cqes.set (r.cq.ktail &&& r.cq.kringMask) { userData := ud, res := res }
          ktail := add32 r.cq.ktail 1 } } }
        k := { W.k with uringInflight := W.k.uringInflight.eraseIdx i } }

/-! ## Dispatch on the backend (`async_unix_notbsd.go`, `ctx_unix_notbsd.go`) -/

/-- Method `(*ctx).busy`. -/
def busy (c : ctx) : Bool :=
  if c.asyncMode = asyncIoUring then decide (c.currentCnt ≥ c.sz) else false

/-- Method `(*File).writeAsync`. -/
def writeAsync (W : World) (f : Nat) (data : Buf) (env : Env) :
    Option (World × Int × Option Error) :=
  if busy W.c then some (W, 0, some Error.ErrCtxBusy)
  else
    let W1 := setFile W f { W.files f with lastSyncSeek := true }
    if W1.c.asyncMode = asyncIoUring ∨ W1.c.asyncMode = asyncAio then
      match (if W1.c.asyncMode = asyncIoUring then asyncWriteIoUring W1 f data env
             else asyncWriteAio W1 f data env) with
      | none => none
      | some (W2, _, some err) => some (W2, 0, some err)
      | some (W2, _, none) =>
        let x := W2.files f
        some (setFile W2 f
          { x with lastAsyncOpState := { x.lastAsyncOpState with complete := false, lastOp := OpWrite } },
          0, none)
    else some (W1, 0, some (Error.unknownAsyncMode W1.c.asyncMode))

/-- Method `(*File).readAsync`. -/
def readAsync (W : World) (f : Nat) (data : Buf) (env : Env) :
    Option (World × Int × Option Error) :=
  if busy W.c then some (W, 0, some Error.ErrCtxBusy)
  else
    let W1 := setFile W f { W.files f with lastSyncSeek := true }
    if W1.c.asyncMode = asyncIoUring ∨ W1.c.asyncMode = asyncAio then
      match (if W1.c.asyncMode = asyncIoUring then asyncReadIoUring W1 f data env
             else asyncReadAio W1 f data env) with
      | none => none
      | some (W2, _, some err) => some (W2, 0, some err)
      | some (W2, _, none) =>
        let x := W2.files f
        some (setFile W2 f
          { x with lastAsyncOpState := { x.lastAsyncOpState with complete := false, lastOp := OpRead } },
          0, none)
    else some (W1, 0, some (Error.unknownAsyncMode W1.c.asyncMode))

/-- Method `(*File).fillOpState`. -/
def fillOpState (W : World) (env : Env) : Option (World × Option Error) :=
  if W.c.asyncMode = asyncIoUring then
    match fillStatesIoUring W with
    | none => none
    | some W1 => some (W1, none)
  else if W.c.asyncMode = asyncAio then fillStatesAio W env.getevents
  else some (W, some (Error.unknownAsyncMode W.c.asyncMode))

/-! ## The file handle (`file.go`, `file_unix.go`) -/

/-- Method `(*File).checkAsyncResult`. -/
def checkAsyncResult (W : World) (f : Nat) (env : Env) : Option (World × Option Error) :=
  if (W.files f).mode = ModeSync then some (W, none)
  else if (W.files f).lastAsyncOpState.lastOp = OpUnknown then some (W, none)
  else if !(W.files f).lastAsyncOpState.complete then
    match fillOpState W env with
    | none => none
    | some (W1, some err) => some (W1, some err)
    | some (W1, none) =>
      if !(W1.files f).lastAsyncOpState.complete then some (W1, some Error.ErrNotCompleted)
      else if (W1.files f).lastAsyncOpState.result < 0 then
        some (W1, some (Error.asyncError (W1.files f).lastAsyncOpState.result))
      else some (W1, none)
  else if (W.files f).lastAsyncOpState.result < 0 then
    some (W, some (Error.asyncError (W.files f).lastAsyncOpState.result))
  else some (W, none)

/-- Method `(*File).checkAsyncSeek`. -/
def checkAsyncSeek (W : World) (f : Nat) (env : Env) : Option (World × Int × Option Error) :=
  match checkAsyncResult W f env with
  | none => none
  | some (W1, err) =>
    if err = some Error.ErrNotCompleted then some (W1, 0, err)
    else if (W1.files f).lastSyncSeek then
      let W2 := sysSeek W1 (W1.files f).fd (W1.files f).pos 0 env
      match env.seekErr with
      | some e => some (W2, 0, some e)
      | none => some (setFile W2 f { W1.files f with lastSyncSeek := false }, 0, none)
    else some (W1, 0, none)

/-- Method `(*File).writeSync` of `file_unix.go`. -/
def writeSync (W : World) (f : Nat) (data : Buf) (env : Env) :
    Option (World × Int × Option Error) :=
  match (if (W.files f).mode = ModeAsync then checkAsyncSeek W f env else some (W, 0, none)) with
  | none => none
  | some (W1, n, some err) => some (W1, n, some err)
  | some (W1, _, none) =>
    if !W1.c.newThread data.Len then
      if data.Len ≤ 0 then none
      else if env.rawErr ≠ 0 then some (W1, env.rawN, some (Error.Errno env.rawErr))
      else
        let W2 := sysRW W1 (W1.files f).fd env.rawN
        if env.rawN ≠ data.Len then some (W2, env.rawN, some Error.ErrShortWrite)
        else
          some (setFile W2 f { W1.files f with pos := (W1.files f).pos + env.rawN }, env.rawN,
            none)
    else
      let W2 := sysRW W1 (W1.files f).fd env.osN
      match env.osErr with
      | some err => some (W2, env.osN, some err)
      | none =>
        let x := W1.files f
        some (setFile W2 f
          { x with pos := x.pos + env.osN
                   lastAsyncOpState := { x.lastAsyncOpState with lastOp := OpUnknown } },
          env.osN, none)

/-- Method `(*File).readSync` of `file_unix.go`. -/
def readSync (W : World) (f : Nat) (data : Buf) (env : Env) :
    Option (World × Int × Option Error) :=
  match (if (W.files f).mode = ModeAsync then checkAsyncSeek W f env else some (W, 0, none)) with
  | none => none
  | some (W1, n, some err) => some (W1, n, some err)
  | some (W1, _, none) =>
    if !W1.c.newThread data.Len then
      if data.Len ≤ 0 then none
      else if env.rawErr ≠ 0 then some (W1, env.rawN, some (Error.Errno env.rawErr))
      else
        let W2 := sysRW W1 (W1.files f).fd env.rawN
        if env.rawN = 0 ∧ data.Len > 0 then some (W2, 0, some Error.ErrEOF)
        else
          some (setFile W2 f { W1.files f with pos := (W1.files f).pos + env.rawN }, env.rawN,
            none)
    else
      let W2 := sysRW W1 (W1.files f).fd env.osN
      match env.osErr with
      | some err => some (W2, env.osN, some err)
      | none =>
        let x := W1.files f
        some (setFile W2 f
          { x with pos := x.pos + env.osN
                   lastAsyncOpState := { x.lastAsyncOpState with lastOp := OpUnknown } },
          env.osN, none)

/-- Method `(*File).Write`. -/
def Write (W : World) (f : Nat) (data : Buf) (env : Env) : Option (World × Int × Option Error) :=
  if (W.files f).mode = ModeAsync then
    match checkAsyncResult W f env with
    | none => none
    | some (W1, some err) => some (W1, 0, some err)
    | some (W1, none) => writeAsync W1 f data env
  else if (W.files f).mode = ModeSync then writeSync W f data env
  else some (W, 0, none)

/-- Method `(*File).WriteSync`. -/
def WriteSync (W : World) (f : Nat) (data : Buf) (env : Env) :
    Option (World × Int × Option Error) :=
  writeSync W f data env

/-- Method `(*File).Read`. -/
def Read (W : World) (f : Nat) (data : Buf) (env : Env) : Option (World × Int × Option Error) :=
  if (W.files f).mode = ModeAsync then
    match checkAsyncResult W f env with
    | none => none
    | some (W1, some err) => some (W1, 0, some err)
    | some (W1, none) => readAsync W1 f data env
  else if (W.files f).mode = ModeSync then readSync W f data env
  else some (W, 0, none)

/-- Method `(*File).ReadSync`. -/
def ReadSync (W : World) (f : Nat) (data : Buf) (env : Env) :
    Option (World × Int × Option Error) :=
  readSync W f data env

/-- Method `(*File).LastOp`: the results are `(n, complete, err)`. -/
def LastOp (W : World) (f : Nat) (env : Env) : Option (World × Int × Bool × Option Error) :=
  if (W.files f).mode = ModeSync then some (W, 0, true, none)
  else
    match checkAsyncResult W f env with
    | none => none
    | some (W1, some err) =>
      if err = Error.ErrNotCompleted then some (W1, 0, false, none)
      else some (W1, 0, false, some err)
    | some (W1, none) =>
      let complete := (W1.files f).lastAsyncOpState.complete
      let res := (W1.files f).lastAsyncOpState.result
      let eof := (W1.files f).lastAsyncOpState.eof
      if res < 0 then some (W1, 0, complete, some (Error.Errno (uint64 res)))
      else if eof then some (W1, 0, complete, some Error.ErrEOF)
      else some (W1, res, complete, none)

/-- Method `(*File).Pos`. -/
def Pos (W : World) (f : Nat) (env : Env) : Option (World × Int) :=
  if (W.files f).mode = ModeSync then some (W, (W.files f).pos)
  else
    match checkAsyncResult W f env with
    | none => none
    | some (W1, _) => some (W1, (W1.files f).pos)

/-- Method `(*File).Stat`: only the error of the result is kept. -/
def Stat (W : World) (f : Nat) (env : Env) : Option (World × Option Error) :=
  match checkAsyncResult W f env with
  | none => none
  | some (W1, some err) => some (W1, some err)
  | some (W1, none) =>
    if !(W1.files f).lastAsyncOpState.complete then some (W1, some Error.ErrNotCompleted)
    else some (W1, env.statErr)

/-- The assignment to `f.pos` that `Seek` makes for `whence` 0, 1 and 2. -/
def seekPos (x : File) (pos : Int) (whence : Int) (n : Int) : File :=
  if whence = 0 then { x with pos := pos }
  else if whence = 1 then { x with pos := x.pos + pos }
  else if whence = 2 then { x with pos := n }
  else x

/-- Method `(*File).Seek`. -/
def Seek (W : World) (f : Nat) (pos : Int) (whence : Int) (env : Env) :
    Option (World × Int × Option Error) :=
  if (W.files f).mode = ModeSync then
    let W2 := sysSeek W (W.files f).fd pos whence env
    match env.seekErr with
    | some err => some (W2, env.seekN, some err)
    | none =>
      let x := seekPos (W.files f) pos whence env.seekN
      some (setFile W2 f x, x.pos, none)
  else
    match checkAsyncResult W f env with
    | none => none
    | some (W1, some err) => some (W1, 0, some err)
    | some (W1, none) =>
      if !(W1.files f).lastAsyncOpState.complete then some (W1, (W1.files f).pos, none)
      else
        let W2 := sysSeek W1 (W1.files f).fd pos whence env
        match env.seekErr with
        | some err => some (W2, (W1.files f).pos, some err)
        | none =>
          if whence = 0 ∨ whence = 1 ∨ whence = 2 then
            let x := seekPos (W1.files f) pos whence env.seekN
            some (setFile W2 f
              { x with lastAsyncOpState := { x.lastAsyncOpState with lastOp := OpUnknown } },
              x.pos, none)
          else some (W2, 0, some Error.ErrNotImplemented)

/-! ## The buffer allocator (`ctx_unix_notbsd.go`) -/

/-- What the Go allocator hands out during one `allocBuf` call: `base` is the address of the
array behind `make([]uint8, n)`; when `append` has to move the slice, `growBase` and `growCap`
are the address and the capacity of the new array. -/
structure Alloc where
  base : Nat := 0
  growBase : Nat := 0
  growCap : Int := 0
  deriving DecidableEq, Repr

/-- The closure `alloc` of `(*ctx).allocBuf`; `sz` is the variable it captures. -/
def alloc (c : ctx) (sz : Int) (fullSz : Int) (a : Alloc) : Option Buf :=
  match c.bufPoller with
  | some poll =>
    let buf := poll fullSz
    if buf.Len ≠ sz then
      if sz - buf.Len < 0 then none
      else if sz ≤ buf.Cap then some { buf with Len := sz }
      else some { Data := a.growBase, Len := sz, Cap := a.growCap }
    else some buf
  | none => if fullSz < 0 then none else some { Data := a.base, Len := fullSz, Cap := fullSz }

/-- Method `(*ctx).allocBuf`. -/
def allocBuf (W : World) (sz : Int) (a : Alloc) : Option (World × Buf) :=
  if W.c.asyncMode = asyncIoUring then
    match alloc W.c sz sz a with
    | none => none
    | some buf => some (W, buf)
  else
    match alloc W.c sz (sz + W.c.align - 1) a with
    | none => none
    | some buf =>
      if buf.Len ≤ 0 then none
      else
        let bufLen := buf.Len
        let bufCap := buf.Cap
        let rawBuf := buf.Data
        let hdr : Buf :=
          { Data := ((buf.Data + uint64 (W.c.align - 1)) % 18446744073709551616) &&&
              not64 ((uint64 W.c.align + 18446744073709551615) % 18446744073709551616)
            Cap := buf.Cap - (W.c.align - 1)
            Len := buf.Len - (W.c.align - 1) }
        if hdr.Len ≤ 0 then none
        else
          match W.c.alignedBuffers with
          | none => none
          | some m =>
            some ({ W with c := { W.c with
                      alignedBuffers := some (mapInsert m hdr.Data
                        { b := rawBuf, len := bufLen, cap := bufCap }) } },
                  hdr)

/-- Function `AllocBuf`. -/
def AllocBuf (W : World) (sz : Int) (a : Alloc) : Option (World × Buf) :=
  allocBuf W sz a

/-- Function `Align`. -/
def Align (W : World) : Int := W.c.align

/-! ## Releasing a buffer (`ctx_unix_notbsd.go`) -/

/-- The loop `for i := range buf { buf[i] = 0x0 }` over a slice of `n` bytes that starts at
address `data`. -/
def zeroLoop (data : Nat) : Nat → (Nat → Nat) → (Nat → Nat)
  | 0, mem => mem
  | n + 1, mem => Function.update (zeroLoop data n mem) (data + n) 0

/-- Method `(*ctx).releaseBuf`. -/
def releaseBuf (W : World) (b : Buf) : Option World :=
  match (match W.c.alignedBuffers with
         | none => some (b, W.c.alignedBuffers)
         | some m =>
           if b.Len ≤ 0 then none
           else
             match mapLookup m b.Data with
             | some toRelease =>
               some ({ Data := toRelease.b, Len := toRelease.len, Cap := toRelease.cap },
                     some (mapDelete m b.Data))
             | none => some (b, some m)) with
  | none => none
  | some (buf, table) =>
    if buf.Cap < 0 then none
    else
      let W1 : World :=
        { W with
          c := { W.c with alignedBuffers := table }
          mem := zeroLoop buf.Data buf.Len.toNat W.mem }
      if W.c.bufReleaser then
        some { W1 with released := { buf with Len := 0 } :: W1.released }
      else some W1

/-- Function `ReleaseBuf`. -/
def ReleaseBuf (W : World) (b : Buf) : Option World :=
  releaseBuf W b

/-! ## Opening a file (`file_unix.go`, `async_unix_notbsd.go`, `file.go`) -/

abbrev O_DIRECT : Nat := 0x4000

/-- The call `os.OpenFile(path, flag, perm)`: the kernel receives the call and, when it
succeeds, the new descriptor `env.openFd` starts at offset 0. -/
def osOpenFile (W : World) (flag : Nat) (env : Env) : World :=
  { W with k := { W.k with
      trace := Syscall.openFile flag :: W.k.trace
      cursor :=
        match env.openErr with
        | some _ => W.k.cursor
        | none => Function.update W.k.cursor env.openFd 0 } }

/-- Function `openAsync` of `async_unix_notbsd.go`. -/
def openAsync (W : World) (flag : Nat) (env : Env) : World :=
  osOpenFile W (if W.c.asyncMode = asyncAio then flag ||| O_DIRECT else flag) env

/-- Function `open` of `file_unix.go` (the name `open` is taken in Lean).  The path and the
permission bits are left out; the new `File` is placed at address `env.ptr`, and the second
result is the pointer returned (`none` for nil). -/
def fileOpen (W : World) (flag : Nat) (fType : Nat) (env : Env) :
    World × Option Nat × Option Error :=
  if fType = ModeAsync then
    let W1 := openAsync W flag env
    match env.openErr with
    | some err => (W1, none, some err)
    | none =>
      (setFile W1 env.ptr
        { fd := env.openFd, mode := ModeAsync, lastAsyncOpState := { complete := true } },
       some env.ptr, none)
  else if fType = ModeSync then
    let W1 := osOpenFile W flag env
    match env.openErr with
    | some err => (W1, none, some err)
    | none => (setFile W1 env.ptr { fd := env.openFd, mode := ModeSync }, some env.ptr, none)
  else (W, none, some (Error.unknownType fType))

/-- Function `Open`. -/
def Open (W : World) (mode : Nat) (openMode : Nat) (env : Env) :
    World × Option Nat × Option Error :=
  fileOpen W mode openMode env

/-! ## Context set-up (`async_unix_notbsd_io_uring.go`, `ctx_unix_notbsd.go`, `ctx.go`) -/

/-- The `ioSqOffsets` record. -/
structure ioSqOffsets where
  head : Nat := 0
  tail : Nat := 0
  ringMask : Nat := 0
  ringEntries : Nat := 0
  flags : Nat := 0
  dropped : Nat := 0
  array : Nat := 0
  deriving DecidableEq, Repr

/-- The `ioCqOffsets` record. -/
structure ioCqOffsets where
  head : Nat := 0
  tail : Nat := 0
  ringMask : Nat := 0
  ringEntries : Nat := 0
  overflow : Nat := 0
  cqes : Nat := 0
  deriving DecidableEq, Repr

/-- The `ioParams` record. -/
structure ioParams where
  sqEntries : Nat := 0
  cqEntries : Nat := 0
  flags : Nat := 0
  sqThreadCpu : Nat := 0
  sqThreadIdle : Nat := 0
  features : Nat := 0
  sqOff : ioSqOffsets := {}
  cqOff : ioCqOffsets := {}
  deriving DecidableEq, Repr

abbrev ioringFeatSingleMmap : Nat := 0x1
abbrev ioringOffSqRing : Nat := 0x0
abbrev ioringOffCqRing : Nat := 0x8000000
abbrev ioringOffSqes : Nat := 0x10000000
abbrev ENOSYS : Nat := 38

/-- The answers of the kernel while a context is set up.  `setupR1`, `setupErr` and `p`
answer `io_uring_setup` (`p` is the parameter block as the kernel fills it); `sqPtr`/`sqErr`,
`cqPtr`/`cqErr` and `sqesPtr`/`sqesErr` answer the three `mmap` calls; `sq` and `cq` hold the
words found in the mapped rings, `arrayMem`, `sqesMem` and `cqesMem` the cells of the mapped
arrays; `aioCtx`, `aioErr` answer `io_setup`. -/
structure SetupEnv where
  setupR1 : Int := 4
  setupErr : Nat := 0
  p : ioParams := {}
  sqPtr : Nat := 0
  sqErr : Nat := 0
  cqPtr : Nat := 0
  cqErr : Nat := 0
  sqesPtr : Nat := 0
  sqesErr : Nat := 0
  sq : sQueue := {}
  cq : cQueue := {}
  arrayMem : Nat → Nat := fun _ => 0
  sqesMem : Nat → sqe := fun _ => {}
  cqesMem : Nat → cqe := fun _ => {}
  aioCtx : Nat := 1
  aioErr : Nat := 0

/-- The kernel receives a system call of context set-up. -/
def sysCall (W : World) (call : Syscall) : World :=
  { W with k := { W.k with trace := call :: W.k.trace } }

/-- Function `unmap`. -/
def unmap (W : World) (sq : sQueue) (cq : cQueue) : World :=
  let W1 := sysCall W (Syscall.munmap sq.sqRingFd sq.ringSz)
  if cq.cqRingFd ≠ 0 ∧ cq.cqRingFd ≠ sq.sqRingFd then
    sysCall W1 (Syscall.munmap cq.cqRingFd cq.ringSz)
  else W1

/-- Function `setup`: the results are the ring behind the pointer `r` after the call and the
error returned. -/
def setup (W : World) (entries : Nat) (r : ring) (_flags : Nat) (se : SetupEnv) :
    World × ring × Option Error :=
  if entries ≠ 0 ∧ entries &&& sub32 entries 1 ≠ 0 then (W, r, some Error.errBadSize)
  else if W.ioUringSetupSys ≤ 0 ∨ W.ioUringEnterSys ≤ 0 then (W, r, some Error.ErrNotSupported)
  else
    let W1 := sysCall W (Syscall.ioUringSetup entries)
    if se.setupErr ≠ 0 then
      if se.setupErr = ENOSYS then (W1, r, some Error.ErrNotSupported)
      else (W1, r, some (Error.Errno se.setupErr))
    else
      let p := se.p
      let r1 : ring :=
        { r with
          ringFd := se.setupR1
          sq := { r.sq with ringSz := add32 p.sqOff.array (p.sqEntries * 4) }
          cq := { r.cq with ringSz := add32 p.cqOff.cqes (p.cqEntries * 16) } }
      let W2 := sysCall W1 (Syscall.mmap r1.sq.ringSz ioringOffSqRing)
      if se.sqErr ≠ 0 then (W2, r1, some (Error.Errno se.sqErr))
      else
        let r2 : ring := { r1 with sq := { r1.sq with sqRingFd := se.sqPtr } }
        let W3 :=
          if p.features &&& ioringFeatSingleMmap ≠ 0 then W2
          else sysCall W2 (Syscall.mmap r2.cq.ringSz ioringOffCqRing)
        if p.features &&& ioringFeatSingleMmap = 0 ∧ se.cqErr ≠ 0 then
          (unmap W3 r2.sq r2.cq, r2, some (Error.Errno se.cqErr))
        else
          let r3 : ring :=
            { r2 with cq := { r2.cq with
                cqRingFd := if p.features &&& ioringFeatSingleMmap ≠ 0 then r2.sq.sqRingFd
                            else se.cqPtr } }
          let r4 : ring :=
            { r3 with sq := { r3.sq with
                khead := se.sq.khead
                ktail := se.sq.ktail
                kringMask := se.sq.kringMask
                kringEntries := se.sq.kringEntries
                kflags := se.sq.kflags
                kdropped := se.sq.kdropped
                array := (List.range entries).map se.arrayMem } }
          let W4 := sysCall W3 (Syscall.mmap (uint32 (p.sqEntries * 64)) ioringOffSqes)
          if se.sqesErr ≠ 0 then (unmap W4 r4.sq r4.cq, r4, some (Error.Errno se.sqesErr))
          else
            let r5 : ring :=
              { r4 with
                sq := { r4.sq with sqes := (List.range p.sqEntries).map se.sqesMem }
                cq := { r4.cq with
                  khead := se.cq.khead
                  ktail := se.cq.ktail
                  kringMask := se.cq.kringMask
                  kringEntries := se.cq.kringEntries
                  koverflow := se.cq.koverflow
                  cqes := (List.range p.cqEntries).map se.cqesMem }
                features := p.features }
            (W4, r5, none)

/-- Method `(*ctx).initIoUring`. -/
def initIoUring (W : World) (sz : Int) (se : SetupEnv) : World × Option Error :=
  if W.ioUringSetupSys = -1 ∨ W.ioUringEnterSys = -1 then (W, some Error.ErrNotSupported)
  else
    let res := setup W (uint32 sz) {} 0 se
    match res.2.2 with
    | some err => (res.1, some err)
    | none =>
      ({ res.1 with c := { res.1.c with r := some res.2.1, asyncMode := asyncIoUring } }, none)

/-- Method `(*ctx).initAio`. -/
def initAio (W : World) (sz : Int) (se : SetupEnv) : World × Option Error :=
  let W1 := sysCall W (Syscall.ioSetup sz)
  if se.aioErr ≠ 0 then (W1, some (Error.Errno se.aioErr))
  else
    ({ W1 with c := { W1.c with
        aio := se.aioCtx
        asyncMode := asyncAio
        align := 512
        alignedBuffers := some [] } }, none)

/-- Method `(*ctx).initCtx`. -/
def initCtx (W : World) (sz : Int) (se : SetupEnv) : World × Option Error :=
  let W0 : World := { W with c := { W.c with operationsFd := [] } }
  let res := initIoUring W0 sz se
  match res.2 with
  | none => (res.1, none)
  | some _ => initAio res.1 sz se

/-- Function `NewCtx`: the package variable `c` becomes a new context. -/
def NewCtx (W : World) (sz : Int) (sameThreadLim : Int) (bufPoller : Option (Int → Buf))
    (bufReleaser : Bool) (se : SetupEnv) : World × Option Error :=
  let res := initCtx { W with c := {} } sz se
  match res.2 with
  | some err => (res.1, some err)
  | none =>
    ({ res.1 with c := { res.1.c with
        sz := sz
        newThread := fun n => decide (n > sameThreadLim)
        bufPoller := bufPoller
        bufReleaser := bufReleaser } }, none)

/-! ## The BSD and Darwin build (`ctx_unix_bsd.go`): the context only -/

namespace Bsd

/-- The `ctx` record of `ctx_unix_bsd.go`: the fields of `baseCtx` and the operations table
(each entry a file and the capacity kept with it). -/
structure ctx where
  bufPoller : Option (Int → Buf) := none
  bufReleaser : Bool := false
  newThread : Int → Bool := fun _ => false
  asyncMode : Int := 0
  align : Int := 0
  sz : Int := 0
  currentCnt : Int := 0
  operationsFd : List (Nat × Nat × Int) := []

/-- Method `(*ctx).initCtx` of `ctx_unix_bsd.go`. -/
def initCtx (c : ctx) (_sz : Int) : ctx × Option Error :=
  ({ c with asyncMode := asyncAio, operationsFd := [] }, none)

/-- Function `NewCtx` of `ctx.go` in the BSD build: the new value of the package variable `c`
and the error returned. -/
def NewCtx (sz : Int) (sameThreadLim : Int) (bufPoller : Option (Int → Buf))
    (bufReleaser : Bool) : ctx × Option Error :=
  let res := initCtx {} sz
  match res.2 with
  | some err => (res.1, some err)
  | none =>
    ({ res.1 with
        sz := sz
        newThread := fun n => decide (n > sameThreadLim)
        bufPoller := bufPoller
        bufReleaser := bufReleaser }, none)

/-- Function `Align` of `ctx.go`. -/
def Align (c : ctx) : Int := c.align

end Bsd

/-! ## The Windows build (`ctx_windows.go`, `file_windows.go`, `async_windows.go`, `file.go`) -/

namespace Win

abbrev ERROR_IO_PENDING : Nat := 997
abbrev WSA_IO_INCOMPLETE : Nat := 996
abbrev ERROR_HANDLE_EOF : Nat := 38

/-- The errors of the Windows build.  `Errno e` is a `syscall.Errno`, `asyncError e` is
`fmt.Errorf("async error: '%s'", e.Error())`, `loadLibrary` is the error of
`syscall.LoadLibrary`, `procAddr k` is the error wrapped for the `k`-th procedure looked up in
`initCtx`, and `osError k` is an error of package `os`. -/
inductive Error where
  | ErrNotCompleted
  | ErrUnknownOperation
  | ErrEOF
  | Errno (e : Nat)
  | asyncError (e : Nat)
  | loadLibrary
  | procAddr (k : Nat)
  | osError (k : Nat)
  deriving DecidableEq, Repr

/-- The `syscall.Overlapped` record. -/
structure Overlapped where
  Internal : Nat := 0
  InternalHigh : Nat := 0
  Offset : Nat := 0
  OffsetHigh : Nat := 0
  HEvent : Nat := 0
  deriving DecidableEq, Repr

/-- The `File` record of `file.go` with the fields of the Windows `fileCtx` (`ro` and `wo` are
the addresses of the two `Overlapped` records, 0 for nil). -/
structure File where
  fd : Int := 0
  lastSyncSeek : Bool := false
  mode : Nat := 0
  pos : Int := 0
  lastAsyncOpState : asyncOpState := {}
  ro : Nat := 0
  wo : Nat := 0
  processedBytes : Nat := 0
  toRwBytes : Nat := 0
  wait : Bool := false
  deriving DecidableEq, Repr

/-- The `ctx` record of `ctx_windows.go`. -/
structure ctx where
  bufPoller : Option (Int → Buf) := none
  bufReleaser : Bool := false
  newThread : Int → Bool := fun _ => false
  asyncMode : Int := 0
  align : Int := 0
  sz : Int := 0
  currentCnt : Int := 0
  nCreateEvent : Nat := 0
  nWriteFile : Nat := 0
  nReadFile : Nat := 0
  nGetOverlappedResult : Nat := 0
  operationsFd : List (Nat × Nat) := []

/-- The state a call of the Windows build runs in: the context, the files and the
`Overlapped` records on the heap. -/
structure World where
  c : ctx := {}
  files : Nat → File := fun _ => {}
  ovs : Nat → Overlapped := fun _ => {}

/-- The answer of one `GetOverlappedResult` call: the return value, the byte count and the
error code. -/
structure GorAnswer where
  r1 : Nat := 0
  n : Nat := 0
  e : Nat := 0
  deriving DecidableEq, Repr

/-- The answers of the operating system during one call: `seekErr` answers
`(*os.File).Seek`; `rwR1`, `rwN`, `rwErr` answer the `WriteFile` or `ReadFile` call; `gor`
holds the answers of the successive `GetOverlappedResult` calls (none left: the operation is
still pending); `osN`, `osErr` answer `(*os.File).Write` and `Read`. -/
structure Env where
  seekErr : Option Error := none
  rwR1 : Nat := 1
  rwN : Nat := 0
  rwErr : Nat := 0
  gor : List GorAnswer := []
  osN : Int := 0
  osErr : Option Error := none
  deriving DecidableEq, Repr

/-- What `LoadLibrary` and the four `GetProcAddress` calls of `initCtx` answer (`none`: the
call fails). -/
structure ProcEnv where
  k32 : Option Nat := some 1
  ce : Option Nat := some 1
  wf : Option Nat := some 2
  rf : Option Nat := some 3
  gor : Option Nat := some 4
  deriving DecidableEq, Repr

/-- Assignment through a `*File`. -/
def setFile (W : World) (f : Nat) (x : File) : World :=
  { W with files := Function.update W.files f x }

/-- Method `(*ctx).initCtx` of `ctx_windows.go`. -/
def initCtx (c : ctx) (_sz : Int) (pe : ProcEnv) : ctx × Option Error :=
  match pe.k32 with
  | none => (c, some Error.loadLibrary)
  | some _ =>
    match pe.ce with
    | none => (c, some (Error.procAddr 0))
    | some ce =>
      let c1 := { c with nCreateEvent := ce }
      match pe.wf with
      | none => (c1, some (Error.procAddr 1))
      | some wf =>
        let c2 := { c1 with nWriteFile := wf }
        match pe.rf with
        | none => (c2, some (Error.procAddr 2))
        | some rf =>
          let c3 := { c2 with nReadFile := rf }
          match pe.gor with
          | none => (c3, some (Error.procAddr 3))
          | some gor => ({ c3 with nGetOverlappedResult := gor, operationsFd := [] }, none)

/-- Function `NewCtx` of `ctx.go` in the Windows build: the new value of the package variable
`c` and the error returned. -/
def NewCtx (sz : Int) (sameThreadLim : Int) (bufPoller : Option (Int → Buf))
    (bufReleaser : Bool) (pe : ProcEnv) : ctx × Option Error :=
  let res := initCtx {} sz pe
  match res.2 with
  | some err => (res.1, some err)
  | none =>
    ({ res.1 with
        sz := sz
        newThread := fun n => decide (n > sameThreadLim)
        bufPoller := bufPoller
        bufReleaser := bufReleaser }, none)

/-- Function `Align` of `ctx.go`. -/
def Align (c : ctx) : Int := c.align

/-- Method `(*File).checkAsyncResult` of `file_windows.go`: the world, the error and the
answers of `GetOverlappedResult` that are left. -/
def checkAsyncResult (W : World) (f : Nat) (gs : List GorAnswer) :
    World × Option Error × List GorAnswer :=
  let x := W.files f
  if x.mode = ModeSync then (W, none, gs)
  else if x.lastAsyncOpState.complete then (setFile W f { x with processedBytes := 0 }, none, gs)
  else if x.lastAsyncOpState.lastOp ≠ OpRead ∧ x.lastAsyncOpState.lastOp ≠ OpWrite then
    (W, none, gs)
  else
    let g := gs.headD { r1 := 0, n := 0, e := ERROR_IO_PENDING }
    let x1 : File := { x with processedBytes := (x.processedBytes + g.n) % 18446744073709551616 }
    if g.r1 = 0 then
      if g.e = ERROR_IO_PENDING ∨ g.e = WSA_IO_INCOMPLETE then
        (setFile W f x1, some (if x.wait then Error.Errno g.e else Error.ErrNotCompleted), gs.tail)
      else
        let x2 : File :=
          { x1 with lastAsyncOpState := { x1.lastAsyncOpState with complete := true } }
        if g.e = ERROR_HANDLE_EOF then
          (setFile W f { x2 with lastAsyncOpState := { x2.lastAsyncOpState with eof := true } },
            some Error.ErrEOF, gs.tail)
        else (setFile W f x2, some (Error.Errno g.e), gs.tail)
    else
      let x2 : File :=
        { x1 with
          pos := x1.pos + x1.processedBytes
          lastAsyncOpState :=
            { x1.lastAsyncOpState with
              complete := true
              result := g.n
              eof := decide (x1.lastAsyncOpState.lastOp = OpRead) && decide (g.n = 0) &&
                decide (x1.toRwBytes > 0) } }
      (setFile W f x2, none, gs.tail)

/-- Method `(*File).LastOp` of `file.go`: the world, the results `(n, complete, err)` and the
answers that are left. -/
def LastOp (W : World) (f : Nat) (gs : List GorAnswer) :
    World × (Int × Bool × Option Error) × List GorAnswer :=
  if (W.files f).mode = ModeSync then (W, (0, true, none), gs)
  else
    let r := checkAsyncResult W f gs
    match r.2.1 with
    | some err =>
      if err = Error.ErrNotCompleted then (r.1, (0, false, none), r.2.2)
      else (r.1, (0, false, some err), r.2.2)
    | none =>
      let st := (r.1.files f).lastAsyncOpState
      if st.result < 0 then (r.1, (0, st.complete, some (Error.Errno (uint64 st.result))), r.2.2)
      else if st.eof then (r.1, (0, st.complete, some Error.ErrEOF), r.2.2)
      else (r.1, (st.result, st.complete, none), r.2.2)

/-- Method `(*File).checkAsyncSeek` of `file.go`. -/
def checkAsyncSeek (W : World) (f : Nat) (env : Env) :
    World × Int × Option Error × List GorAnswer :=
  let r := checkAsyncResult W f env.gor
  if r.2.1 = some Error.ErrNotCompleted then (r.1, 0, some Error.ErrNotCompleted, r.2.2)
  else if (r.1.files f).lastSyncSeek then
    match env.seekErr with
    | some e => (r.1, 0, some e, r.2.2)
    | none => (setFile r.1 f { r.1.files f with lastSyncSeek := false }, 0, none, r.2.2)
  else (r.1, 0, none, r.2.2)

/-- Method `(*File).rwAsync` of `async_windows.go`. -/
def rwAsync (W : World) (f : Nat) (op : Nat) (data : Buf) (env : Env) :
    Option (World × Int × Option Error) :=
  if op ≠ W.c.nWriteFile ∧ op ≠ W.c.nReadFile then some (W, 0, some Error.ErrUnknownOperation)
  else
    let x := W.files f
    let lastOp : Int := if op = W.c.nWriteFile then OpWrite else OpRead
    let ov : Nat := if op = W.c.nWriteFile then x.wo else x.ro
    let x1 : File :=
      { x with
        wait := false
        processedBytes := 0
        lastSyncSeek := true
        toRwBytes := uint64 data.Len
        lastAsyncOpState := { x.lastAsyncOpState with complete := false, lastOp := lastOp } }
    if ov = 0 then none
    else if data.Len ≤ 0 then none
    else
      let W1 : World :=
        { W with
          ovs := Function.update W.ovs ov
            { Internal := 0, InternalHigh := 0, HEvent := 0
              Offset := uint32 x.pos, OffsetHigh := uint32 (x.pos / 4294967296) } }
      if env.rwR1 = 0 then
        if env.rwErr = ERROR_IO_PENDING then
          some (setFile W1 f { x1 with processedBytes := env.rwN }, (env.rwN : Int), none)
        else if env.rwErr = ERROR_HANDLE_EOF then
          some (setFile W1 f
            { x1 with lastAsyncOpState := { x1.lastAsyncOpState with eof := true } },
            0, some Error.ErrEOF)
        else some (setFile W1 f x1, 0, some (Error.asyncError env.rwErr))
      else
        some (setFile W1 f
          { x1 with
            processedBytes := env.rwN
            lastAsyncOpState :=
              { x1.lastAsyncOpState with
                complete := true
                result := data.Len
                eof := decide (lastOp = OpRead) && decide (env.rwN = 0) &&
                  decide (x1.toRwBytes > 0) } },
          (env.rwN : Int), none)

/-- The loop `for { _, ok, err := f.LastOp(); ... runtime.Gosched() }` of `rwSync`.  The
first argument bounds the number of rounds (`none`: the loop is still spinning). -/
def waitLoop : Nat → World → Nat → List GorAnswer → Option (World × Option Error)
  | 0, _, _, _ => none
  | fuel + 1, W, f, gs =>
    match LastOp W f gs with
    | (W1, (_, _, some err), _) => some (W1, some err)
    | (W1, (_, true, none), _) => some (W1, none)
    | (W1, (_, false, none), rest) => waitLoop fuel W1 f rest

/-- Method `(*File).rwSync` of `file_windows.go`; `gs` holds the answers of
`GetOverlappedResult` that are left, and the wait loop may make one round more than there are
answers. -/
def rwSync (W : World) (f : Nat) (nOp : Nat) (data : Buf) (env : Env) (gs : List GorAnswer) :
    Option (World × Int × Option Error) :=
  match checkAsyncResult W f gs with
  | (W0, some err, _) => some (W0, 0, some err)
  | (W0, none, gs0) =>
    match rwAsync W0 f nOp data env with
    | none => none
    | some (W1, _, some err) => some (W1, 0, some err)
    | some (W1, n, none) =>
      let W2 := setFile W1 f { W1.files f with wait := true }
      match waitLoop (gs0.length + 1) W2 f gs0 with
      | none => none
      | some (W3, some err) => some (W3, 0, some err)
      | some (W3, none) =>
        let x := W3.files f
        some (setFile W3 f
          { x with pos := x.pos + n
                   lastAsyncOpState := { x.lastAsyncOpState with lastOp := OpUnknown } },
          (x.processedBytes : Int), none)

/-- Method `(*File).writeSync` of `file_windows.go`. -/
def writeSync (W : World) (f : Nat) (data : Buf) (env : Env) :
    Option (World × Int × Option Error) :=
  if (W.files f).mode = ModeAsync then
    match checkAsyncSeek W f env with
    | (W1, n, some err, _) => some (W1, n, some err)
    | (W1, _, none, gs) => rwSync W1 f W1.c.nWriteFile data env gs
  else
    match env.osErr with
    | some err => some (W, env.osN, some err)
    | none =>
      let x := W.files f
      some (setFile W f
        { x with pos := x.pos + env.osN
                 lastAsyncOpState := { x.lastAsyncOpState with lastOp := OpUnknown } },
        env.osN, none)

/-- Method `(*File).readSync` of `file_windows.go`. -/
def readSync (W : World) (f : Nat) (data : Buf) (env : Env) :
    Option (World × Int × Option Error) :=
  if (W.files f).mode = ModeAsync then
    match checkAsyncSeek W f env with
    | (W1, n, some err, _) => some (W1, n, some err)
    | (W1, _, none, gs) => rwSync W1 f W1.c.nReadFile data env gs
  else
    match env.osErr with
    | some err => some (W, env.osN, some err)
    | none =>
      let x := W.files f
      some (setFile W f
        { x with pos := x.pos + env.osN
                 lastAsyncOpState := { x.lastAsyncOpState with lastOp := OpUnknown } },
        env.osN, none)

/-- Method `(*File).WriteSync` of `file.go`. -/
def WriteSync (W : World) (f : Nat) (data : Buf) (env : Env) :
    Option (World × Int × Option Error) :=
  writeSync W f data env

/-- Method `(*File).ReadSync` of `file.go`. -/
def ReadSync (W : World) (f : Nat) (data : Buf) (env : Env) :
    Option (World × Int × Option Error) :=
  readSync W f data env

end Win

/-! ## Vocabulary of the statements and the concrete runs they are tried on -/

/-- The effect a harvest pass may have: a file that is not complete afterwards is untouched,
keys are only removed from the operations table, nothing is handed to the kernel, and the
ring and the in-flight counter are as before. -/
structure Harvested (W W1 : World) : Prop where
  files : ∀ g, (W1.files g).lastAsyncOpState.complete = false → W1.files g = W.files g
  table : W1.c.operationsFd.Sublist W.c.operationsFd
  ring : W1.c.r = W.c.r
  cnt : W1.c.currentCnt = W.c.currentCnt
  aio : W1.k.aioInflight.Sublist W.k.aioInflight
  uring : W1.k.uringInflight = W.k.uringInflight
  mode : W1.c.asyncMode = W.c.asyncMode
  sz : W1.c.sz = W.c.sz

/-- An AIO context with alignment 512 and one idle file opened in asynchronous mode. -/
def aioWorld : World :=
  { c := { asyncMode := asyncAio, align := 512, sz := 8, alignedBuffers := some [] }
    files := fun _ => { fd := 3, mode := ModeAsync, lastAsyncOpState := { complete := true } } }

/-- A 512-byte buffer that starts on a 512-byte boundary. -/
def alignedBuf : Buf := { Data := 4096, Len := 512, Cap := 512 }

/-- The state of `aioWorld` after file 0 has submitted an aligned write that the kernel has
accepted (control block at address 1000). -/
def aioPending : Option World :=
  (Write aioWorld 0 alignedBuf { ptr := 1000 }).map Prod.fst

/-- An io_uring context of depth 2 (completion ring of 4 entries) with idle async files. -/
def uringWorld : World :=
  { c := { asyncMode := asyncIoUring, sz := 2
           r := some
            { sq := { kringMask := 1, kringEntries := 2, array := [0, 0], sqes := [{}, {}] }
              cq := { kringMask := 3, kringEntries := 4, cqes := [{}, {}, {}, {}] } } }
    files := fun _ => { fd := 3, mode := ModeAsync, lastAsyncOpState := { complete := true } } }

/-- Files 0 and 1 of `uringWorld` each submit a write (records at 1000 and 2000), the kernel
takes both entries and completes the one of file 1 with 512 bytes. -/
def uringTwoFiles : Option World := do
  let r1 ← Write uringWorld 0 alignedBuf { ptr := 1000 }
  let r2 ← Write r1.1 1 alignedBuf { ptr := 2000 }
  let W3 ← kernelTake r2.1
  let W4 ← kernelTake W3
  kernelPost W4 1 512

/-- The world of `aioPending`. -/
def aioPendingW : World := aioPending.getD aioWorld

/-- The context `aioWorld` with `newThread(len)` true for `len > 1024`, as `NewCtx` sets it
for `sameThreadLim = 1024`. -/
def aioWorldNT : World :=
  { aioWorld with c := { aioWorld.c with newThread := fun n => decide (n > 1024) } }

/-- A 4096-byte buffer that starts on a 512-byte boundary. -/
def bigBuf : Buf := { Data := 8192, Len := 4096, Cap := 4096 }

/-- Three public calls on file 0 of `aioWorldNT`: `Write` of an aligned buffer (accepted by
`io_submit`, control block 1000); `WriteSync` of 4096 bytes during which `io_getevents` fails
with errno 4 and the operating system writes all 4096 bytes; `Write` of an aligned buffer
(control block 2000).  The result keeps the world before the third call, the world after it and
the values the three calls return. -/
def syncBetweenWrites :
    Option (World × World × (Int × Option Error) × (Int × Option Error) × (Int × Option Error)) := do
  let r1 ← Write aioWorldNT 0 alignedBuf { ptr := 1000 }
  let r2 ← WriteSync r1.1 0 bigBuf { getevents := [{ e1 := 4 }], osN := 4096 }
  let r3 ← Write r2.1 0 alignedBuf { ptr := 2000 }
  pure (r2.1, r3.1, r1.2, r2.2, r3.2)

/-- On io_uring: file 0 seeks to 1024, submits a write (record 1000), the kernel takes the
entry and completes it with result -5, and `LastOp` harvests.  The result keeps the position
before and after the harvest and the recorded result. -/
def uringFailedWrite : Option (Int × Int × Int) := do
  let r0 ← Seek uringWorld 0 1024 0 { seekN := 1024 }
  let r1 ← Write r0.1 0 alignedBuf { ptr := 1000 }
  let W2 ← kernelTake r1.1
  let W3 ← kernelPost W2 0 (-5)
  let r4 ← LastOp W3 0 {}
  pure ((W3.files 0).pos, (r4.1.files 0).pos, (r4.1.files 0).lastAsyncOpState.result)

/-- On Linux AIO: file 0 seeks to 1024, submits a write (control block 1000), and `LastOp`
harvests the event of that block with result -5. -/
def aioFailedWrite : Option (Int × Int × Int) := do
  let r0 ← Seek aioWorld 0 1024 0 { seekN := 1024 }
  let r1 ← Write r0.1 0 alignedBuf { ptr := 1000 }
  let r2 ← LastOp r1.1 0 { getevents := [{ events := [{ data := 512, obj := 1000, res := -5 }] }] }
  pure ((r1.1.files 0).pos, (r2.1.files 0).pos, (r2.1.files 0).lastAsyncOpState.result)

/-- On Linux AIO: file 0 submits a read that completes with 0 bytes, polls with `LastOp`,
submits a write that completes with 512 bytes and polls again.  The result keeps what the two
`LastOp` calls return and the operation, result and flag recorded at the end. -/
def writeAfterEofRead :
    Option ((Int × Bool × Option Error) × (Int × Bool × Option Error) × Int × Int × Bool) := do
  let r1 ← Read aioWorld 0 alignedBuf { ptr := 1000 }
  let r2 ← LastOp r1.1 0 { getevents := [{ events := [{ data := 512, obj := 1000, res := 0 }] }] }
  let r3 ← Write r2.1 0 alignedBuf { ptr := 2000 }
  let r4 ← LastOp r3.1 0 { getevents := [{ events := [{ data := 512, obj := 2000, res := 512 }] }] }
  pure (r2.2, r4.2, (r4.1.files 0).lastAsyncOpState.lastOp, (r4.1.files 0).lastAsyncOpState.result,
    (r4.1.files 0).lastAsyncOpState.eof)

/-- The same run on io_uring. -/
def uringWriteAfterEofRead :
    Option ((Int × Bool × Option Error) × (Int × Bool × Option Error) × Int × Int × Bool) := do
  let r1 ← Read uringWorld 0 alignedBuf { ptr := 1000 }
  let W1 ← kernelTake r1.1
  let W2 ← kernelPost W1 0 0
  let r2 ← LastOp W2 0 {}
  let r3 ← Write r2.1 0 alignedBuf { ptr := 2000 }
  let W3 ← kernelTake r3.1
  let W4 ← kernelPost W3 0 512
  let r4 ← LastOp W4 0 {}
  pure (r2.2, r4.2, (r4.1.files 0).lastAsyncOpState.lastOp, (r4.1.files 0).lastAsyncOpState.result,
    (r4.1.files 0).lastAsyncOpState.eof)

/-- The answer of `io_getevents` that reports the write of control block 1000 complete with
512 bytes. -/
def doneEnv : Env := { getevents := [{ events := [{ data := 512, obj := 1000, res := 512 }] }] }

/-- The world after the harvest of `doneEnv` in `aioPendingW`. -/
def aioDoneW : World := ((fillOpState aioPendingW doneEnv).map Prod.fst).getD aioPendingW

/-- On Linux AIO: file 0 submits a write whose completion carries the result -5; `LastOp` is
called twice (harvesting the first time). -/
def lastOpAfterFailure : Option ((Int × Bool × Option Error) × (Int × Bool × Option Error) × Bool) := do
  let r1 ← Write aioWorld 0 alignedBuf { ptr := 1000 }
  let r2 ← LastOp r1.1 0 { getevents := [{ events := [{ data := 512, obj := 1000, res := -5 }] }] }
  let r3 ← LastOp r2.1 0 {}
  pure (r2.2, r3.2, (r3.1.files 0).lastAsyncOpState.complete)

/-- The context `uringWorld` with `newThread(len)` true for `len > 1024`, as `NewCtx` sets it
for `sameThreadLim = 1024`. -/
def uringWorldNT : World :=
  { uringWorld with c := { uringWorld.c with newThread := fun n => decide (n > 1024) } }

/-- On io_uring (`uringWorldNT`): file 0 seeks to 1024 and submits a write of 512 bytes
(record 1000); the kernel takes the entry and completes it with the result -5; `LastOp`
harvests it, which leaves the position at 1019; a `WriteSync` of 4096 bytes follows on the
blocking path (it seeks to 1019, writes, and resets `lastOp`), and then `LastOp` is called
again.  The result keeps what the last `LastOp` returns, the result, the complete flag and the
position recorded before the `WriteSync`, and the seeks the kernel has received (latest
first). -/
def lastOpAfterFailureAndSync :
    Option ((Int × Bool × Option Error) × Int × Bool × Int × List (Int × Int × Int)) := do
  let r0 ← Seek uringWorldNT 0 1024 0 { seekN := 1024 }
  let r1 ← Write r0.1 0 alignedBuf { ptr := 1000 }
  let W2 ← kernelTake r1.1
  let W3 ← kernelPost W2 0 (-5)
  let r4 ← LastOp W3 0 {}
  let r5 ← WriteSync r4.1 0 bigBuf { seekN := 1019, osN := 4096 }
  let r6 ← LastOp r5.1 0 {}
  pure (r6.2, (r4.1.files 0).lastAsyncOpState.result, (r4.1.files 0).lastAsyncOpState.complete,
    (r4.1.files 0).pos, r5.1.k.seeks)

/-- One step of a run on the io_uring backend: a public call (`Write`, `Read`, `WriteSync`,
`ReadSync`, `Seek`, `LastOp`, `Pos`, `Stat`), a submission `writeAsync` or `readAsync` alone,
a harvest `fillStatesIoUring`, or a move of the kernel (taking a submission entry, completing
an operation it holds). -/
inductive Action where
  | write (f : Nat) (data : Buf) (env : Env)
  | read (f : Nat) (data : Buf) (env : Env)
  | writeSync (f : Nat) (data : Buf) (env : Env)
  | readSync (f : Nat) (data : Buf) (env : Env)
  | seek (f : Nat) (pos : Int) (whence : Int) (env : Env)
  | lastOp (f : Nat) (env : Env)
  | pos (f : Nat) (env : Env)
  | stat (f : Nat) (env : Env)
  | submitWrite (f : Nat) (data : Buf) (env : Env)
  | submitRead (f : Nat) (data : Buf) (env : Env)
  | harvest
  | take
  | post (i : Nat) (res : Int)

/-- The record a submitting step allocates (or takes from the pool) is not at address nil. -/
def Action.allocOk : Action → Prop
  | .write _ _ env => env.ptr ≠ 0
  | .read _ _ env => env.ptr ≠ 0
  | .submitWrite _ _ env => env.ptr ≠ 0
  | .submitRead _ _ env => env.ptr ≠ 0
  | _ => True

/-- The world after one step (`none` when the step panics or the kernel move is impossible). -/
def step (W : World) : Action → Option World
  | .write f data env => (Write W f data env).map Prod.fst
  | .read f data env => (Read W f data env).map Prod.fst
  | .writeSync f data env => (WriteSync W f data env).map Prod.fst
  | .readSync f data env => (ReadSync W f data env).map Prod.fst
  | .seek f pos whence env => (Seek W f pos whence env).map Prod.fst
  | .lastOp f env => (LastOp W f env).map Prod.fst
  | .pos f env => (Pos W f env).map Prod.fst
  | .stat f env => (Stat W f env).map Prod.fst
  | .submitWrite f data env => (writeAsync W f data env).map Prod.fst
  | .submitRead f data env => (readAsync W f data env).map Prod.fst
  | .harvest => fillStatesIoUring W
  | .take => kernelTake W
  | .post i res => kernelPost W i res

/-- The world after a sequence of steps. -/
def run : World → List Action → Option World
  | W, [] => some W
  | W, a :: rest =>
    match step W a with
    | none => none
    | some W1 => run W1 rest

/-- A freshly set up io_uring context: no operation counted, both rings empty, nothing held
by the kernel, and a queue depth that fits the `uint32` passed to `io_uring_setup`. -/
def UringInit (W : World) : Prop :=
  W.c.asyncMode = asyncIoUring ∧ W.c.currentCnt = 0 ∧ 0 ≤ W.c.sz ∧ W.c.sz < 4294967296 ∧
  W.k.uringInflight = [] ∧
  ∃ r, W.c.r = some r ∧ r.sq.khead = r.sq.ktail ∧ r.sq.sqeHead = r.sq.sqeTail ∧
    r.cq.khead = r.cq.ktail

/-- The invariant of a run: the in-flight counter counts the entries published in the
submission ring and not yet taken, the operations the kernel holds and the completion
entries not yet harvested, and it does not exceed the queue depth. -/
structure UringInv (W : World) : Prop where
  mode : W.c.asyncMode = asyncIoUring
  szlo : 0 ≤ W.c.sz
  szhi : W.c.sz < 4294967296
  le : W.c.currentCnt ≤ W.c.sz
  ring : ∃ r, W.c.r = some r ∧ sub32 r.sq.sqeTail r.sq.sqeHead = 0 ∧
    W.c.currentCnt = (sub32 r.sq.ktail r.sq.khead : Int) + (W.k.uringInflight.length : Int) +
      (sub32 r.cq.ktail r.cq.khead : Int)

/-- Files 0 and 1 of `uringWorld` (queue depth 2) each submit a write. -/
def fullQueueRun : List Action :=
  [.write 0 alignedBuf { ptr := 1000 }, .write 1 alignedBuf { ptr := 2000 }]

/-- The world after `fullQueueRun`. -/
def fullQueueW : World := (run uringWorld fullQueueRun).getD uringWorld

/-- A 4095-byte buffer that starts on a 512-byte boundary. -/
def oddBuf : Buf := { Data := 4096, Len := 4095, Cap := 4095 }

/-- A pool hook that returns a buffer of exactly the length it is asked for, at address 4096. -/
def exactHook : Int → Buf := fun n => { Data := 4096, Len := n, Cap := n }

/-- The context `aioWorld` with the pool hook `exactHook`. -/
def aioHooked : World := { aioWorld with c := { aioWorld.c with bufPoller := some exactHook } }

/-- A pool hook that returns 512 bytes (capacity 2048) whatever it is asked for. -/
def fixedHook : Int → Buf := fun _ => { Data := 4096, Len := 512, Cap := 2048 }

/-- The context `aioWorld` with the pool hook `fixedHook`. -/
def aioFixedHooked : World := { aioWorld with c := { aioWorld.c with bufPoller := some fixedHook } }

/-- A pool hook that returns 1024 bytes whatever it is asked for. -/
def longHook : Int → Buf := fun _ => { Data := 4096, Len := 1024, Cap := 1024 }

/-- The context `uringWorld` with the pool hook `longHook`. -/
def uringLongHooked : World :=
  { uringWorld with c := { uringWorld.c with bufPoller := some longHook } }

/-- The world and the buffer after `AllocBuf(512)` in `aioWorld`, the Go allocator handing out
an array at address 4097. -/
def allocRun : World × Buf := (AllocBuf aioWorld 512 { base := 4097 }).getD (aioWorld, {})

/-- On Linux AIO: file 0 submits a write whose completion carries the result -5, `LastOp`
harvests it, and `Seek(100, 0)` is called while the operating system would seek without
error.  The result keeps the file record before and after the seek, what `Seek` returns and
the seeks the kernel has received. -/
def seekAfterFailure : Option (File × File × (Int × Option Error) × List (Int × Int × Int)) := do
  let r1 ← Write aioWorld 0 alignedBuf { ptr := 1000 }
  let r2 ← LastOp r1.1 0 { getevents := [{ events := [{ data := 512, obj := 1000, res := -5 }] }] }
  let r3 ← Seek r2.1 0 100 0 { seekN := 100 }
  pure (r2.1.files 0, r3.1.files 0, r3.2, r3.1.k.seeks)

/-- The same failed write, harvested by `LastOp` and followed by `Stat` while the operating
system would answer the stat call without error.  The result keeps the complete flag before
`Stat` and the error `Stat` returns. -/
def statAfterFailure : Option (Bool × Option Error) := do
  let r1 ← Write aioWorld 0 alignedBuf { ptr := 1000 }
  let r2 ← LastOp r1.1 0 { getevents := [{ events := [{ data := 512, obj := 1000, res := -5 }] }] }
  let r3 ← Stat r2.1 0 {}
  pure ((r2.1.files 0).lastAsyncOpState.complete, r3.2)

/-- The world after `Open(path, O_RDWR|O_CREAT|O_TRUNC, perm, ModeSync)` succeeds in `aioWorld`
(descriptor 5, the new `File` at address 7). -/
def openedSync : World := (Open aioWorld 578 ModeSync { ptr := 7, openFd := 5 }).1

/-- The world after the same call with `ModeAsync`. -/
def openedAsync : World := (Open aioWorld 578 ModeAsync { ptr := 7, openFd := 5 }).1

/-- The events `io_getevents` hands over during one `fillStatesAio` call that asks for `n`
events at a time: the answers are consumed until one fails, is empty or is shorter than `n`. -/
def aioDelivered (n : Nat) : List GetEvents → List aioEvent
  | [] => []
  | g :: gs =>
    if g.e1 ≠ 0 then []
    else if 0 < (g.events.take n).length ∧ n ≤ (g.events.take n).length then
      g.events.take n ++ aioDelivered n gs
    else g.events.take n

/-- The world `W` with the kernel part replaced. -/
def withKernel (W : World) (k : Kernel) : World := { W with k := k }

/-- The completion entries the loop of `fillStatesIoUring` reads when it starts at `head` and
makes `n` rounds: the entries at `head & mask`, `(head + 1) & mask`, ... (the list stops early
at an index outside `cqes`). -/
def cqEntries (cq : cQueue) : Nat → Nat → List cqe
  | 0, _ => []
  | n + 1, head =>
    match cq.cqes[head &&& cq.kringMask]? with
    | none => []
    | some q => q :: cqEntries cq n (add32 head 1)

/-- The completion entries available in a completion ring: those from `khead` up to `ktail`. -/
def availableCqes (cq : cQueue) : List cqe :=
  cqEntries cq (sub32 cq.ktail cq.khead) cq.khead

/-- The world of `uringTwoFiles`. -/
def uringTwoFilesW : World := uringTwoFiles.getD uringWorld

/-- The world before `NewCtx`: an empty context, on a kernel that has the io_uring system
calls. -/
def bootWorld : World := { c := {}, files := fun _ => {} }

/-- The same on a kernel without io_uring: both system-call numbers are -1. -/
def noUringWorld : World := { bootWorld with ioUringSetupSys := -1, ioUringEnterSys := -1 }

/-- On Linux AIO with `newThread(len)` true above 1024: file 0 has submitted a read of 512
bytes at offset 0 (control block 1000) and `LastOp` has harvested its completion with 512
bytes. -/
def asyncReadDoneW : World :=
  ((do
    let r1 ← Read aioWorldNT 0 alignedBuf { ptr := 1000 }
    let r2 ← LastOp r1.1 0
      { getevents := [{ events := [{ data := 512, obj := 1000, res := 512 }] }] }
    pure r2.1).getD aioWorldNT)

/-- On Linux AIO with `newThread(len)` true above 1024: file 0 submits a write (control block
1000), `LastOp` harvests its completion with 512 bytes, and `WriteSync(data)` follows.  The
result keeps what `WriteSync` returns, the position before and after it and `lastOp` after
it. -/
def writeSyncAfterWrite (data : Buf) (env : Env) :
    Option ((Int × Option Error) × Int × Int × Int) := do
  let r1 ← Write aioWorldNT 0 alignedBuf { ptr := 1000 }
  let r2 ← LastOp r1.1 0 doneEnv
  let r3 ← WriteSync r2.1 0 data env
  pure (r3.2, (r2.1.files 0).pos, (r3.1.files 0).pos, (r3.1.files 0).lastAsyncOpState.lastOp)

/-- The world after `WriteSync` of a 512-byte buffer on the idle file 0 of `aioWorld` of which
the operating system writes 100 bytes without an error. -/
def shortWriteW : World :=
  ((WriteSync aioWorld 0 alignedBuf { rawN := 100 }).map Prod.fst).getD aioWorld

/-- An empty buffer. -/
def emptyBuf : Buf := { Data := 4096, Len := 0, Cap := 0 }

/-- The world after `Write` of the empty buffer on the idle file 0 of `aioWorld`. -/
def emptyWriteW : World := ((Write aioWorld 0 emptyBuf { ptr := 1000 }).map Prod.fst).getD aioWorld

/-- On io_uring: `asyncRWIoUring` is called on file 0 of `uringWorld` with the opcode
`ioringOpNop` (record 1000), and then with `ioringOpWritev` (record 2000).  The result keeps
what the two calls return, the local SQE tail before the first call and after it, the in-flight
counter and the operations table after the first call, and the shared submission tail after
the second call. -/
def nopThenWrite :
    Option ((Int × Option Error) × (Int × Option Error) × Nat × Option Nat × Int ×
      List (Nat × Nat) × Option Nat) := do
  let r1 ← asyncRWIoUring uringWorld 0 ioringOpNop alignedBuf { ptr := 1000 }
  let r2 ← asyncRWIoUring r1.1 0 ioringOpWritev alignedBuf { ptr := 2000 }
  pure (r1.2, r2.2, 0, r1.1.c.r.map (fun r => r.sq.sqeTail), r1.1.c.currentCnt,
    r1.1.c.operationsFd, r2.1.c.r.map (fun r => r.sq.ktail))

/-- The submission ring of `uringWorld` with both entries handed out. -/
def fullSqWorld : World :=
  { uringWorld with c := { uringWorld.c with
      r := uringWorld.c.r.map fun r => { r with sq := { r.sq with sqeTail := 2, sqeHead := 2, ktail := 2 } } } }

/-- The ring of `uringWorld` with two entries handed out by `getSqe` and not yet published
(local tail 3, local head 1, shared tail 1). -/
def twoPendingRing : ring :=
  { sq := { kringMask := 1, kringEntries := 2, array := [7, 7], sqes := [{}, {}],
            khead := 1, ktail := 1, sqeHead := 1, sqeTail := 3 } }

/-- A Windows context as `NewCtx` leaves it and async-mode files as `open` returns them
(complete, both `Overlapped` records allocated). -/
def Win.idleWorld : Win.World :=
  { c := (Win.NewCtx 8 1024 none false {}).1
    files := fun _ =>
      { fd := 3, mode := ModeAsync, ro := 100, wo := 200,
        lastAsyncOpState := { complete := true } } }

/-- What `WriteSync` of `alignedBuf` (512 bytes) does on file 0 of `idleWorld`: the values
returned and the position afterwards. -/
def Win.writeSyncRun (env : Win.Env) : Option ((Int × Option Error) × Int) :=
  (Win.WriteSync Win.idleWorld 0 alignedBuf env).map fun r => (r.2, (r.1.files 0).pos)

/-- What `ReadSync` of `alignedBuf` (512 bytes) does on file 0 of `idleWorld`. -/
def Win.readSyncRun (env : Win.Env) : Option ((Int × Option Error) × Int) :=
  (Win.ReadSync Win.idleWorld 0 alignedBuf env).map fun r => (r.2, (r.1.files 0).pos)

/-- The world after the write of file 0 of `aioWorld` (control block 1000) has completed with
the result -5 and `LastOp` has harvested it. -/
def aioFailedW : World :=
  ((do
    let r1 ← Write aioWorld 0 alignedBuf { ptr := 1000 }
    let r2 ← LastOp r1.1 0
      { getevents := [{ events := [{ data := 512, obj := 1000, res := -5 }] }] }
    pure r2.1).getD aioWorld)

/-- Two runs in which file 0 has a write of 512 bytes outstanding when `WriteSync` of 512
bytes is called, and the operating system writes 100 of them without an error.  On Linux AIO
(`aioPendingW`) `io_getevents` reports the outstanding write complete with 512 bytes during
the call; on io_uring the kernel has taken the entry and posted its completion with 512 bytes
before the call.  Each result keeps the position before the call, what the call returns and
the position after it. -/
def shortWriteAfterHarvest :
    Option ((Int × (Int × Option Error) × Int) × (Int × (Int × Option Error) × Int)) := do
  let a ← WriteSync aioPendingW 0 alignedBuf { doneEnv with rawN := 100 }
  let r1 ← Write uringWorld 0 alignedBuf { ptr := 1000 }
  let W2 ← kernelTake r1.1
  let W3 ← kernelPost W2 0 512
  let u ← WriteSync W3 0 alignedBuf { rawN := 100 }
  pure (((aioPendingW.files 0).pos, a.2, (a.1.files 0).pos),
    ((W3.files 0).pos, u.2, (u.1.files 0).pos))

/-- The completions of `xs` that one harvest applies to file `fd`, in order.  The harvest
looks the key of each completion up in the operations table `t` at its turn and deletes the
key once applied, so a completion counts when its key is in the table then, with owner `fd`
(a key named twice counts the first time only). -/
def harvestedBy {α : Type} (key : α → Nat) (fd : Nat) : List (Nat × Nat) → List α → List α
  | _, [] => []
  | t, x :: xs =>
    match mapLookup t (key x) with
    | none => harvestedBy key fd t xs
    | some g =>
      if g = fd then x :: harvestedBy key fd (mapDelete t (key x)) xs
      else harvestedBy key fd (mapDelete t (key x)) xs

/-- As in `TestFile_fullQueue`: file 0 of `uringWorld` (queue depth 2) submits two writes with
`writeAsync`, of 512 bytes (record 1000) and of 4096 bytes (record 2000); the kernel takes both
entries and completes them in that order with 512 and 4096 bytes. -/
def uringOneFileTwice : Option World := do
  let r1 ← writeAsync uringWorld 0 alignedBuf { ptr := 1000 }
  let r2 ← writeAsync r1.1 0 bigBuf { ptr := 2000 }
  let W3 ← kernelTake r2.1
  let W4 ← kernelTake W3
  let W5 ← kernelPost W4 0 512
  kernelPost W5 0 4096

/-- The world of `uringOneFileTwice`. -/
def uringOneFileTwiceW : World := uringOneFileTwice.getD uringWorld

/-- The world of the public run of `syncBetweenWrites` before the harvest: file 0 of
`aioWorldNT` has two writes outstanding, control blocks 1000 (offset 0) and 2000 (offset
4096). -/
def aioTwoPendingW : World :=
  ((do
    let r1 ← Write aioWorldNT 0 alignedBuf { ptr := 1000 }
    let r2 ← WriteSync r1.1 0 bigBuf { getevents := [{ e1 := 4 }], osN := 4096 }
    let r3 ← Write r2.1 0 alignedBuf { ptr := 2000 }
    pure r3.1).getD aioWorldNT)

/-! ## Frame lemmas -/

theorem sysIoSubmit_files (W : World) (cb : Nat) (env : Env) :
    (sysIoSubmit W cb env).files = W.files := by
  unfold sysIoSubmit; split <;> rfl

theorem asyncRWAio_files {W : World} {f op : Nat} {data : Buf} {env : Env} {W2 : World} {n : Int}
    {e : Option Error} (h : asyncRWAio W f op data env = some (W2, n, e)) :
    W2.files = W.files ∧ n = 0 := by
  unfold asyncRWAio at h
  simp only at h
  split_ifs at h <;> simp only [Option.some.injEq, Prod.mk.injEq] at h <;>
    obtain ⟨rfl, rfl, -⟩ := h <;> simp [sysIoSubmit_files]

theorem asyncRWIoUring_files {W : World} {f op : Nat} {data : Buf} {env : Env} {W2 : World}
    {n : Int} {e : Option Error} (h : asyncRWIoUring W f op data env = some (W2, n, e)) :
    W2.files = W.files ∧ n = 0 := by
  unfold asyncRWIoUring at h
  simp only at h
  split at h
  · exact absurd h (by simp)
  · split at h
    · exact absurd h (by simp)
    · split at h
      · exact absurd h (by simp)
      · split at h
        · simp only [Option.some.injEq, Prod.mk.injEq] at h
          obtain ⟨rfl, rfl, -⟩ := h
          simp
        · split at h
          · exact absurd h (by simp)
          · split_ifs at h <;> simp only [Option.some.injEq, Prod.mk.injEq] at h <;>
              obtain ⟨rfl, rfl, -⟩ := h <;> simp

theorem checkAsyncResult_idle {W : World} {f : Nat} {env : Env} {W1 : World} {e : Option Error}
    (hidle : (W.files f).lastAsyncOpState.lastOp = OpUnknown ∨
      (W.files f).lastAsyncOpState.complete = true)
    (h : checkAsyncResult W f env = some (W1, e)) : W1 = W := by
  unfold checkAsyncResult at h
  rcases hidle with h0 | h1
  · simp only [h0, if_true] at h
    split_ifs at h <;> simp only [Option.some.injEq, Prod.mk.injEq] at h <;> exact h.1.symm
  · simp only [h1, Bool.not_true] at h
    split_ifs at h <;> simp_all

theorem checkAsyncResult_idle_ok {W : World} {f : Nat} (env : Env)
    (hidle : (W.files f).lastAsyncOpState.lastOp = OpUnknown ∨
      ((W.files f).lastAsyncOpState.complete = true ∧ 0 ≤ (W.files f).lastAsyncOpState.result)) :
    checkAsyncResult W f env = some (W, none) := by
  unfold checkAsyncResult
  rcases hidle with h0 | ⟨h1, h2⟩
  · simp only [h0, if_true]
    split_ifs <;> rfl
  · simp only [h1, Bool.not_true, Bool.false_eq_true, if_false, not_lt.mpr h2]
    split_ifs <;> rfl

theorem checkAsyncResult_failed {W : World} {f : Nat} (env : Env)
    (hmode : (W.files f).mode = ModeAsync)
    (hop : (W.files f).lastAsyncOpState.lastOp ≠ OpUnknown)
    (hcomplete : (W.files f).lastAsyncOpState.complete = true)
    (hneg : (W.files f).lastAsyncOpState.result < 0) :
    checkAsyncResult W f env =
      some (W, some (Error.asyncError (W.files f).lastAsyncOpState.result)) := by
  unfold checkAsyncResult
  simp [hmode, hop, hcomplete, hneg]

theorem writeAsync_ok {W : World} {f : Nat} {data : Buf} {env : Env} {W2 : World} {n : Int}
    (h : writeAsync W f data env = some (W2, n, none)) :
    n = 0 ∧ (W2.files f).lastAsyncOpState.lastOp = OpWrite ∧
      (W2.files f).lastAsyncOpState.complete = false ∧ (W2.files f).lastSyncSeek = true ∧
      (W2.files f).pos = (W.files f).pos := by
  unfold writeAsync at h
  by_cases hb : busy W.c = true
  · simp [hb] at h
  · simp only [hb, Bool.false_eq_true, if_false] at h
    split_ifs at h with hm hu
    · split at h
      · exact absurd h (by simp)
      · simp at h
      · rename_i Wb nb hbk
        simp only [Option.some.injEq, Prod.mk.injEq] at h
        obtain ⟨rfl, rfl, -⟩ := h
        have hf := (asyncRWIoUring_files hbk).1
        simp [setFile, hf]
    · split at h
      · exact absurd h (by simp)
      · simp at h
      · rename_i Wb nb hbk
        simp only [Option.some.injEq, Prod.mk.injEq] at h
        obtain ⟨rfl, rfl, -⟩ := h
        have hf := (asyncRWAio_files hbk).1
        simp [setFile, hf]
    · simp at h

theorem readAsync_ok {W : World} {f : Nat} {data : Buf} {env : Env} {W2 : World} {n : Int}
    (h : readAsync W f data env = some (W2, n, none)) :
    n = 0 ∧ (W2.files f).lastAsyncOpState.lastOp = OpRead ∧
      (W2.files f).lastAsyncOpState.complete = false ∧ (W2.files f).lastSyncSeek = true ∧
      (W2.files f).pos = (W.files f).pos := by
  unfold readAsync at h
  by_cases hb : busy W.c = true
  · simp [hb] at h
  · simp only [hb, Bool.false_eq_true, if_false] at h
    split_ifs at h with hm hu
    · split at h
      · exact absurd h (by simp)
      · simp at h
      · rename_i Wb nb hbk
        simp only [Option.some.injEq, Prod.mk.injEq] at h
        obtain ⟨rfl, rfl, -⟩ := h
        have hf := (asyncRWIoUring_files hbk).1
        simp [setFile, hf]
    · split at h
      · exact absurd h (by simp)
      · simp at h
      · rename_i Wb nb hbk
        simp only [Option.some.injEq, Prod.mk.injEq] at h
        obtain ⟨rfl, rfl, -⟩ := h
        have hf := (asyncRWAio_files hbk).1
        simp [setFile, hf]
    · simp at h

/-! ## What a harvest may change -/

theorem Harvested.refl (W : World) : Harvested W W :=
  ⟨fun _ _ => rfl, List.Sublist.refl _, rfl, rfl, List.Sublist.refl _, rfl, rfl, rfl⟩

theorem Harvested.trans {W W1 W2 : World} (h1 : Harvested W W1) (h2 : Harvested W1 W2) :
    Harvested W W2 := by
  refine ⟨fun g hg => ?_, h2.table.trans h1.table, h2.ring.trans h1.ring, h2.cnt.trans h1.cnt,
    h2.aio.trans h1.aio, h2.uring.trans h1.uring, h2.mode.trans h1.mode, h2.sz.trans h1.sz⟩
  have e2 := h2.files g hg
  rw [e2] at hg
  rw [e2, h1.files g hg]

theorem mapDelete_sublist {α : Type} (m : List (Nat × α)) (k : Nat) :
    (mapDelete m k).Sublist m := by
  unfold mapDelete; exact List.filter_sublist m

theorem applyAioEvent_harvested (W : World) (e : aioEvent) : Harvested W (applyAioEvent W e) := by
  unfold applyAioEvent
  split
  · exact Harvested.refl W
  · rename_i fd hfd
    refine ⟨fun g hg => ?_, mapDelete_sublist _ _, rfl, rfl, List.Sublist.refl _, rfl, rfl, rfl⟩
    by_cases hgf : g = fd
    · subst hgf; simp at hg
    · simp [Function.update_noteq hgf]

theorem applyCqe_harvested (W : World) (q : cqe) : Harvested W (applyCqe W q) := by
  unfold applyCqe
  split
  · exact Harvested.refl W
  · rename_i fd hfd
    refine ⟨fun g hg => ?_, mapDelete_sublist _ _, rfl, rfl, List.Sublist.refl _, rfl, rfl, rfl⟩
    by_cases hgf : g = fd
    · subst hgf; simp at hg
    · simp [Function.update_noteq hgf]

theorem foldl_applyAioEvent_harvested (evs : List aioEvent) (W : World) :
    Harvested W (evs.foldl applyAioEvent W) := by
  induction evs generalizing W with
  | nil => exact Harvested.refl W
  | cons e es ih => exact (applyAioEvent_harvested W e).trans (ih _)

theorem sysIoGetevents_harvested (W : World) (evs : List aioEvent) :
    Harvested W (sysIoGetevents W evs) :=
  ⟨fun _ _ => rfl, List.Sublist.refl _, rfl, rfl, List.filter_sublist _, rfl, rfl, rfl⟩

theorem fillStatesAio_harvested (gs : List GetEvents) (W W1 : World) (e : Option Error)
    (h : fillStatesAio W gs = some (W1, e)) : Harvested W W1 := by
  induction gs generalizing W with
  | nil =>
    unfold fillStatesAio at h
    split_ifs at h
    simp only [Option.some.injEq, Prod.mk.injEq] at h
    rw [← h.1]; exact Harvested.refl W
  | cons g gs ih =>
    unfold fillStatesAio at h
    simp only at h
    split_ifs at h
    · simp only [Option.some.injEq, Prod.mk.injEq] at h
      rw [← h.1]; exact Harvested.refl W
    · exact ((sysIoGetevents_harvested W _).trans (foldl_applyAioEvent_harvested _ _)).trans
        (ih _ h)
    · simp only [Option.some.injEq, Prod.mk.injEq] at h
      rw [← h.1]
      exact (sysIoGetevents_harvested W _).trans (foldl_applyAioEvent_harvested _ _)
    · simp only [Option.some.injEq, Prod.mk.injEq] at h
      rw [← h.1]; exact sysIoGetevents_harvested W _

theorem cqLoop_harvested (cq : cQueue) (n : Nat) (W W1 : World) (head : Nat)
    (h : cqLoop cq n W head = some W1) : Harvested W W1 := by
  induction n generalizing W head with
  | zero =>
    unfold cqLoop at h
    simp only [Option.some.injEq] at h
    rw [← h]; exact Harvested.refl W
  | succ n ih =>
    unfold cqLoop at h
    split_ifs at h
    · simp only [Option.some.injEq] at h
      rw [← h]; exact Harvested.refl W
    · split at h
      · exact absurd h (by simp)
      · exact (applyCqe_harvested W _).trans (ih _ _ h)

/-! ## C1: a successful asynchronous submission -/

theorem writeAsync_of_backend {W Wb : World} {f : Nat} {data : Buf} {env : Env} {n : Int}
    (hroom : busy W.c = false)
    (hsub :
      (W.c.asyncMode = asyncIoUring ∧
        asyncWriteIoUring (setFile W f { W.files f with lastSyncSeek := true }) f data env =
          some (Wb, n, none)) ∨
      (W.c.asyncMode = asyncAio ∧
        asyncWriteAio (setFile W f { W.files f with lastSyncSeek := true }) f data env =
          some (Wb, n, none))) :
    writeAsync W f data env =
      some (setFile Wb f
        { Wb.files f with
          lastAsyncOpState :=
            { (Wb.files f).lastAsyncOpState with complete := false, lastOp := OpWrite } },
        0, none) := by
  unfold writeAsync
  rw [hroom]
  simp only [Bool.false_eq_true, if_false]
  have hc : (setFile W f { W.files f with lastSyncSeek := true }).c.asyncMode = W.c.asyncMode := rfl
  rcases hsub with ⟨hm, hb⟩ | ⟨hm, hb⟩
  · simp only [hc, hm, true_or, if_true, hb]
  · have hne : ¬ asyncAio = asyncIoUring := by decide
    simp only [hc, hm, or_true, if_true, hne, if_false, hb]

theorem readAsync_of_backend {W Wb : World} {f : Nat} {data : Buf} {env : Env} {n : Int}
    (hroom : busy W.c = false)
    (hsub :
      (W.c.asyncMode = asyncIoUring ∧
        asyncReadIoUring (setFile W f { W.files f with lastSyncSeek := true }) f data env =
          some (Wb, n, none)) ∨
      (W.c.asyncMode = asyncAio ∧
        asyncReadAio (setFile W f { W.files f with lastSyncSeek := true }) f data env =
          some (Wb, n, none))) :
    readAsync W f data env =
      some (setFile Wb f
        { Wb.files f with
          lastAsyncOpState :=
            { (Wb.files f).lastAsyncOpState with complete := false, lastOp := OpRead } },
        0, none) := by
  unfold readAsync
  rw [hroom]
  simp only [Bool.false_eq_true, if_false]
  have hc : (setFile W f { W.files f with lastSyncSeek := true }).c.asyncMode = W.c.asyncMode := rfl
  rcases hsub with ⟨hm, hb⟩ | ⟨hm, hb⟩
  · simp only [hc, hm, true_or, if_true, hb]
  · have hne : ¬ asyncAio = asyncIoUring := by decide
    simp only [hc, hm, or_true, if_true, hne, if_false, hb]

/-- C1. For an async-mode file with no outstanding operation (`lastOp` is `OpUnknown` or the
last operation is complete) and a non-empty buffer.  (1) When the backend submission succeeds,
`Write` returns `(0, nil)`, `lastOp` is `OpWrite`, `complete` is false, `lastSyncSeek` is true
and the logical position is the one before the call; the state after the call is the one the
backend left with `complete` and `lastOp` assigned.  The submission is the call of the backend
function of the context's mode (`asyncWriteIoUring` or `asyncWriteAio`) on the file with
`lastSyncSeek` set; it is made when the last completed operation, if any, left a non-negative
result and the context is not busy, and it succeeds when it returns a nil error.  (2) The same
for `Read` with `OpRead`, `asyncReadIoUring` and `asyncReadAio`.  (3) No submission is made in
the two other cases: when the last operation completed with a negative result, `Write` and
`Read` return `(0, async error)`, and when the context is busy they return `(0, ErrCtxBusy)`,
the state being the one before the call. -/
theorem C1_async_submit_sets_state (W : World) (f : Nat) (data : Buf) (env : Env)
    (Wb : World) (n : Int)
    (hmode : (W.files f).mode = ModeAsync)
    (hidle : (W.files f).lastAsyncOpState.lastOp = OpUnknown ∨
      (W.files f).lastAsyncOpState.complete = true)
    (_hne : 0 < data.Len) :
    (((W.files f).lastAsyncOpState.lastOp = OpUnknown ∨
        0 ≤ (W.files f).lastAsyncOpState.result) →
      busy W.c = false →
      ((W.c.asyncMode = asyncIoUring ∧
        asyncWriteIoUring (setFile W f { W.files f with lastSyncSeek := true }) f data env =
          some (Wb, n, none)) ∨
      (W.c.asyncMode = asyncAio ∧
        asyncWriteAio (setFile W f { W.files f with lastSyncSeek := true }) f data env =
          some (Wb, n, none))) →
      ∃ W2, Write W f data env = some (W2, 0, none) ∧
        (W2.files f).lastAsyncOpState.lastOp = OpWrite ∧
        (W2.files f).lastAsyncOpState.complete = false ∧
        (W2.files f).lastSyncSeek = true ∧
        (W2.files f).pos = (W.files f).pos ∧
        W2 = setFile Wb f
          { Wb.files f with
            lastAsyncOpState :=
              { (Wb.files f).lastAsyncOpState with complete := false, lastOp := OpWrite } }) ∧
    (((W.files f).lastAsyncOpState.lastOp = OpUnknown ∨
        0 ≤ (W.files f).lastAsyncOpState.result) →
      busy W.c = false →
      ((W.c.asyncMode = asyncIoUring ∧
        asyncReadIoUring (setFile W f { W.files f with lastSyncSeek := true }) f data env =
          some (Wb, n, none)) ∨
      (W.c.asyncMode = asyncAio ∧
        asyncReadAio (setFile W f { W.files f with lastSyncSeek := true }) f data env =
          some (Wb, n, none))) →
      ∃ W2, Read W f data env = some (W2, 0, none) ∧
        (W2.files f).lastAsyncOpState.lastOp = OpRead ∧
        (W2.files f).lastAsyncOpState.complete = false ∧
        (W2.files f).lastSyncSeek = true ∧
        (W2.files f).pos = (W.files f).pos ∧
        W2 = setFile Wb f
          { Wb.files f with
            lastAsyncOpState :=
              { (Wb.files f).lastAsyncOpState with complete := false, lastOp := OpRead } }) ∧
    ((W.files f).lastAsyncOpState.lastOp ≠ OpUnknown →
      (W.files f).lastAsyncOpState.result < 0 →
      Write W f data env =
        some (W, 0, some (Error.asyncError (W.files f).lastAsyncOpState.result)) ∧
      Read W f data env =
        some (W, 0, some (Error.asyncError (W.files f).lastAsyncOpState.result))) ∧
    (((W.files f).lastAsyncOpState.lastOp = OpUnknown ∨
        0 ≤ (W.files f).lastAsyncOpState.result) →
      busy W.c = true →
      Write W f data env = some (W, 0, some Error.ErrCtxBusy) ∧
      Read W f data env = some (W, 0, some Error.ErrCtxBusy)) := by
  have hgate : ((W.files f).lastAsyncOpState.lastOp = OpUnknown ∨
      0 ≤ (W.files f).lastAsyncOpState.result) → checkAsyncResult W f env = some (W, none) := by
    intro hres
    apply checkAsyncResult_idle_ok env
    rcases hres with h | h
    · exact Or.inl h
    · rcases hidle with h0 | h1
      · exact Or.inl h0
      · exact Or.inr ⟨h1, h⟩
  refine ⟨?_, ?_, ?_, ?_⟩
  · intro hres hroom hsub
    have hw := writeAsync_of_backend hroom hsub
    obtain ⟨-, h1, h2, h3, h4⟩ := writeAsync_ok hw
    refine ⟨_, ?_, h1, h2, h3, h4, rfl⟩
    simp only [Write, hmode, hgate hres, if_true, hw]
  · intro hres hroom hsub
    have hw := readAsync_of_backend hroom hsub
    obtain ⟨-, h1, h2, h3, h4⟩ := readAsync_ok hw
    refine ⟨_, ?_, h1, h2, h3, h4, rfl⟩
    simp only [Read, hmode, hgate hres, if_true, hw]
  · intro hop hneg
    have hc : (W.files f).lastAsyncOpState.complete = true := hidle.resolve_left hop
    have hcr := checkAsyncResult_failed env hmode hop hc hneg
    constructor
    · simp only [Write, hmode, hcr, if_true]
    · simp only [Read, hmode, hcr, if_true]
  · intro hres hbusy
    constructor
    · simp only [Write, hmode, hgate hres, if_true]
      unfold writeAsync
      rw [hbusy]
      rfl
    · simp only [Read, hmode, hgate hres, if_true]
      unfold readAsync
      rw [hbusy]
      rfl

/-- Witness for C1: an aligned 512-byte write and read on the idle file 0 of `aioWorld`
(accepted by `io_submit`) and of `uringWorld` (entry published and `io_uring_enter`
succeeding). -/
theorem C1_async_submit_sets_state_witness :
    (∃ W2, Write aioWorld 0 alignedBuf { ptr := 1000 } = some (W2, 0, none) ∧
      (W2.files 0).lastAsyncOpState.lastOp = OpWrite ∧
      (W2.files 0).lastAsyncOpState.complete = false ∧
      (W2.files 0).lastSyncSeek = true ∧ (W2.files 0).pos = 0) ∧
    (∃ W2, Read aioWorld 0 alignedBuf { ptr := 1000 } = some (W2, 0, none) ∧
      (W2.files 0).lastAsyncOpState.lastOp = OpRead ∧
      (W2.files 0).lastAsyncOpState.complete = false ∧
      (W2.files 0).lastSyncSeek = true ∧ (W2.files 0).pos = 0) ∧
    (∃ W2, Write uringWorld 0 alignedBuf { ptr := 1000 } = some (W2, 0, none) ∧
      (W2.files 0).lastAsyncOpState.lastOp = OpWrite ∧
      (W2.files 0).lastAsyncOpState.complete = false ∧
      (W2.files 0).lastSyncSeek = true ∧ (W2.files 0).pos = 0) ∧
    (∃ W2, Read uringWorld 0 alignedBuf { ptr := 1000 } = some (W2, 0, none) ∧
      (W2.files 0).lastAsyncOpState.lastOp = OpRead ∧
      (W2.files 0).lastAsyncOpState.complete = false ∧
      (W2.files 0).lastSyncSeek = true ∧ (W2.files 0).pos = 0) := by
  obtain ⟨Wa, ha⟩ : ∃ Wb, asyncWriteAio
      (setFile aioWorld 0 { aioWorld.files 0 with lastSyncSeek := true }) 0 alignedBuf
      { ptr := 1000 } = some (Wb, 0, none) := ⟨_, rfl⟩
  obtain ⟨Wr, hr⟩ : ∃ Wb, asyncReadAio
      (setFile aioWorld 0 { aioWorld.files 0 with lastSyncSeek := true }) 0 alignedBuf
      { ptr := 1000 } = some (Wb, 0, none) := ⟨_, rfl⟩
  obtain ⟨Wu, hu⟩ : ∃ Wb, asyncWriteIoUring
      (setFile uringWorld 0 { uringWorld.files 0 with lastSyncSeek := true }) 0 alignedBuf
      { ptr := 1000 } = some (Wb, 0, none) := ⟨_, rfl⟩
  obtain ⟨Wv, hv⟩ : ∃ Wb, asyncReadIoUring
      (setFile uringWorld 0 { uringWorld.files 0 with lastSyncSeek := true }) 0 alignedBuf
      { ptr := 1000 } = some (Wb, 0, none) := ⟨_, rfl⟩
  refine ⟨?_, ?_, ?_, ?_⟩
  · obtain ⟨W2, h, h1, h2, h3, h4, -⟩ :=
      (C1_async_submit_sets_state aioWorld 0 alignedBuf { ptr := 1000 } Wa 0 rfl (Or.inl rfl)
        (by decide)).1 (Or.inl rfl) rfl (Or.inr ⟨rfl, ha⟩)
    exact ⟨W2, h, h1, h2, h3, h4⟩
  · obtain ⟨W2, h, h1, h2, h3, h4, -⟩ :=
      (C1_async_submit_sets_state aioWorld 0 alignedBuf { ptr := 1000 } Wr 0 rfl (Or.inl rfl)
        (by decide)).2.1 (Or.inl rfl) rfl (Or.inr ⟨rfl, hr⟩)
    exact ⟨W2, h, h1, h2, h3, h4⟩
  · obtain ⟨W2, h, h1, h2, h3, h4, -⟩ :=
      (C1_async_submit_sets_state uringWorld 0 alignedBuf { ptr := 1000 } Wu 0 rfl (Or.inl rfl)
        (by decide)).1 (Or.inl rfl) rfl (Or.inl ⟨rfl, hu⟩)
    exact ⟨W2, h, h1, h2, h3, h4⟩
  · obtain ⟨W2, h, h1, h2, h3, h4, -⟩ :=
      (C1_async_submit_sets_state uringWorld 0 alignedBuf { ptr := 1000 } Wv 0 rfl (Or.inl rfl)
        (by decide)).2.1 (Or.inl rfl) rfl (Or.inl ⟨rfl, hv⟩)
    exact ⟨W2, h, h1, h2, h3, h4⟩

/-! ## C2: a write or read while the last operation is not complete -/

theorem fillStatesIoUring_effect {W W1 : World} (h : fillStatesIoUring W = some W1) :
    (∀ g, (W1.files g).lastAsyncOpState.complete = false → W1.files g = W.files g) ∧
    W1.c.operationsFd.Sublist W.c.operationsFd ∧
    W1.c.r.map ring.sq = W.c.r.map ring.sq ∧
    W1.c.currentCnt ≤ W.c.currentCnt ∧
    W1.k.aioInflight.Sublist W.k.aioInflight ∧
    W1.k.uringInflight = W.k.uringInflight := by
  unfold fillStatesIoUring at h
  split at h
  · exact absurd h (by simp)
  · rename_i r hr
    dsimp only at h
    split at h
    · exact absurd h (by simp)
    · rename_i Wl hl
      simp only [Option.some.injEq] at h
      have hh := cqLoop_harvested _ _ _ _ _ hl
      subst h
      refine ⟨hh.files, hh.table, ?_, ?_, hh.aio, hh.uring⟩
      · rw [hr]; rfl
      · show Wl.c.currentCnt - _ ≤ _
        rw [hh.cnt]; omega

theorem fillOpState_effect {W W1 : World} {env : Env} {e : Option Error}
    (h : fillOpState W env = some (W1, e)) :
    (∀ g, (W1.files g).lastAsyncOpState.complete = false → W1.files g = W.files g) ∧
    W1.c.operationsFd.Sublist W.c.operationsFd ∧
    W1.c.r.map ring.sq = W.c.r.map ring.sq ∧
    W1.c.currentCnt ≤ W.c.currentCnt ∧
    W1.k.aioInflight.Sublist W.k.aioInflight ∧
    W1.k.uringInflight = W.k.uringInflight := by
  unfold fillOpState at h
  split_ifs at h with hu ha
  · split at h
    · exact absurd h (by simp)
    · rename_i Wr hr
      simp only [Option.some.injEq, Prod.mk.injEq] at h
      obtain ⟨rfl, -⟩ := h
      exact fillStatesIoUring_effect hr
  · have hh := fillStatesAio_harvested _ _ _ _ h
    exact ⟨hh.files, hh.table, by rw [hh.ring], le_of_eq hh.cnt, hh.aio, hh.uring⟩
  · simp only [Option.some.injEq, Prod.mk.injEq] at h
    obtain ⟨rfl, -⟩ := h
    exact ⟨fun _ _ => rfl, List.Sublist.refl _, rfl, le_refl _, List.Sublist.refl _, rfl⟩

theorem checkAsyncResult_pending {W W1 : World} {f : Nat} {env : Env}
    (hmode : (W.files f).mode = ModeAsync)
    (hop : (W.files f).lastAsyncOpState.lastOp ≠ OpUnknown)
    (hinc : (W.files f).lastAsyncOpState.complete = false)
    (hharvest : fillOpState W env = some (W1, none))
    (hstill : (W1.files f).lastAsyncOpState.complete = false) :
    checkAsyncResult W f env = some (W1, some Error.ErrNotCompleted) := by
  unfold checkAsyncResult
  simp [hmode, hop, hinc, hharvest, hstill]

theorem fillStatesAio_error (gs : List GetEvents) (W W1 : World) (err : Error)
    (h : fillStatesAio W gs = some (W1, some err)) : ∃ e, err = Error.Errno e := by
  induction gs generalizing W with
  | nil =>
    unfold fillStatesAio at h
    split_ifs at h
    simp at h
  | cons g gs ih =>
    unfold fillStatesAio at h
    simp only at h
    split_ifs at h
    · simp only [Option.some.injEq, Prod.mk.injEq] at h
      exact ⟨g.e1, h.2.symm⟩
    · exact ih _ h
    · simp at h
    · simp at h

theorem fillOpState_error {W W1 : World} {env : Env} {err : Error}
    (h : fillOpState W env = some (W1, some err)) : err ≠ Error.ErrNotCompleted := by
  unfold fillOpState at h
  split_ifs at h with hu ha
  · split at h
    · exact absurd h (by simp)
    · simp at h
  · obtain ⟨e, rfl⟩ := fillStatesAio_error _ _ _ _ h
    simp
  · simp only [Option.some.injEq, Prod.mk.injEq] at h
    rw [← h.2]; simp

theorem checkAsyncResult_harvest_error {W W1 : World} {f : Nat} {env : Env} {err : Error}
    (hmode : (W.files f).mode = ModeAsync)
    (hop : (W.files f).lastAsyncOpState.lastOp ≠ OpUnknown)
    (hinc : (W.files f).lastAsyncOpState.complete = false)
    (hharvest : fillOpState W env = some (W1, some err)) :
    checkAsyncResult W f env = some (W1, some err) := by
  unfold checkAsyncResult
  simp [hmode, hop, hinc, hharvest]

/-- C2 (amended). For an async-mode file with an outstanding operation, whatever the harvest
`checkAsyncResult` runs returns.  (1) When the harvest reports no error and the operation is
still not complete after it, `Write` and `Read` return `(0, ErrNotCompleted)` and leave the
state exactly as the harvest produced it, so nothing is submitted: the file record (`lastOp`,
`complete`, `lastSyncSeek`, position) and the submission ring are the ones before the call,
no control block or entry is handed to the kernel, the operations table only loses keys and
the in-flight counter does not grow (both change only by the completions the harvest applied
to other files).  (2) When the harvest fails with an error, `Write` and `Read` return
`(0, that error)`, which is never `ErrNotCompleted`, and again leave the state as the harvest
produced it: nothing is submitted, and a file still not complete keeps its record. -/
theorem C2_not_completed_submits_nothing (W : World) (f : Nat) (data : Buf) (env : Env)
    (hmode : (W.files f).mode = ModeAsync)
    (hop : (W.files f).lastAsyncOpState.lastOp ≠ OpUnknown)
    (hinc : (W.files f).lastAsyncOpState.complete = false) :
    (∀ W1, fillOpState W env = some (W1, none) →
      (W1.files f).lastAsyncOpState.complete = false →
      Write W f data env = some (W1, 0, some Error.ErrNotCompleted) ∧
      Read W f data env = some (W1, 0, some Error.ErrNotCompleted) ∧
      W1.files f = W.files f ∧
      W1.c.r.map ring.sq = W.c.r.map ring.sq ∧
      W1.c.operationsFd.Sublist W.c.operationsFd ∧
      W1.c.currentCnt ≤ W.c.currentCnt ∧
      W1.k.aioInflight.Sublist W.k.aioInflight ∧
      W1.k.uringInflight = W.k.uringInflight) ∧
    (∀ W1 err, fillOpState W env = some (W1, some err) →
      Write W f data env = some (W1, 0, some err) ∧
      Read W f data env = some (W1, 0, some err) ∧
      err ≠ Error.ErrNotCompleted ∧
      ((W1.files f).lastAsyncOpState.complete = false → W1.files f = W.files f) ∧
      W1.c.r.map ring.sq = W.c.r.map ring.sq ∧
      W1.c.operationsFd.Sublist W.c.operationsFd ∧
      W1.c.currentCnt ≤ W.c.currentCnt ∧
      W1.k.aioInflight.Sublist W.k.aioInflight ∧
      W1.k.uringInflight = W.k.uringInflight) := by
  constructor
  · intro W1 hharvest hstill
    have hc := checkAsyncResult_pending hmode hop hinc hharvest hstill
    obtain ⟨h1, h2, h3, h4, h5, h6⟩ := fillOpState_effect hharvest
    refine ⟨?_, ?_, h1 f hstill, h3, h2, h4, h5, h6⟩
    · simp only [Write, hmode, hc, if_true]
    · simp only [Read, hmode, hc, if_true]
  · intro W1 err hharvest
    have hc := checkAsyncResult_harvest_error hmode hop hinc hharvest
    obtain ⟨h1, h2, h3, h4, h5, h6⟩ := fillOpState_effect hharvest
    refine ⟨?_, ?_, fillOpState_error hharvest, h1 f, h3, h2, h4, h5, h6⟩
    · simp only [Write, hmode, hc, if_true]
    · simp only [Read, hmode, hc, if_true]

/-- Witness for C2 (amended): file 0 has an accepted write outstanding; in the first run the
kernel has no event yet, in the second `io_getevents` fails with errno 4. -/
theorem C2_not_completed_submits_nothing_witness :
    (Write aioPendingW 0 alignedBuf {} = some (aioPendingW, 0, some Error.ErrNotCompleted) ∧
      Read aioPendingW 0 alignedBuf {} = some (aioPendingW, 0, some Error.ErrNotCompleted)) ∧
    (Write aioPendingW 0 alignedBuf { getevents := [{ e1 := 4 }] } =
        some (aioPendingW, 0, some (Error.Errno 4)) ∧
      Read aioPendingW 0 alignedBuf { getevents := [{ e1 := 4 }] } =
        some (aioPendingW, 0, some (Error.Errno 4))) :=
  have h := (C2_not_completed_submits_nothing aioPendingW 0 alignedBuf {}
    rfl (by decide) rfl).1 aioPendingW rfl rfl
  have h2 := (C2_not_completed_submits_nothing aioPendingW 0 alignedBuf
    { getevents := [{ e1 := 4 }] } rfl (by decide) rfl).2 aioPendingW (Error.Errno 4) rfl
  ⟨⟨h.1, h.2.1⟩, ⟨h2.1, h2.2.1⟩⟩

/-- C2 as stated fails in two ways.  (a) Linux AIO: `io_getevents` fails with errno 4 while
the write of file 0 is outstanding; the operation is still not complete after the harvest,
yet `Write` returns that errno, not `ErrNotCompleted`.  (b) io_uring: the harvest run by
`Write` on file 0 applies the completion of file 1; file 0 is still not complete and the
call returns `ErrNotCompleted`, but the operations table went from two keys to one and the
in-flight counter from 2 to 1. -/
theorem C2_counterexample :
    (aioPending.bind fun W =>
      (Write W 0 alignedBuf { ptr := 3000, getevents := [{ e1 := 4 }] }).map fun r =>
        ((r.1.files 0).lastAsyncOpState.complete, r.2.1, r.2.2)) =
      some (false, 0, some (Error.Errno 4)) ∧
    (uringTwoFiles.bind fun W =>
      (Write W 0 alignedBuf { ptr := 3000 }).map fun r =>
        ((r.1.files 0).lastAsyncOpState.complete, r.2.1, r.2.2,
          W.c.operationsFd, r.1.c.operationsFd, W.c.currentCnt, r.1.c.currentCnt)) =
      some (false, 0, some Error.ErrNotCompleted, [(2000, 1), (1000, 0)], [(1000, 0)], 2, 1) := by
  exact ⟨by decide, rfl⟩

/-! ## C3: one outstanding operation per file -/

/-- C3 fails on the code.  In the run `syncBetweenWrites` all three calls succeed; before
the third call the control block 1000 of file 0 is still held by the kernel and registered in
the operations table, and the third call hands the kernel a second control block of the same
file: afterwards both 1000 and 2000 are in flight and both keys map to file 0. -/
theorem C3_second_submission_before_harvest :
    (syncBetweenWrites.map fun t =>
      (t.2.2, t.1.k.aioInflight, t.1.c.operationsFd, t.2.1.k.aioInflight, t.2.1.c.operationsFd)) =
    some (((0, none), (4096, none), (0, none)),
      [1000], [(1000, 0)], [2000, 1000], [(2000, 0), (1000, 0)]) := by
  rfl

/-! ## C4: the position after a failed completion -/

/-- C4 fails on the code.  When the harvest applies a completion with the negative result -5
to a file whose position is 1024, the position becomes 1019 on both backends
(`fd.pos += int64(cqe.res)`, `fd.pos = aioCb.aioOffset + e[i].res`) instead of staying 1024. -/
theorem C4_failed_completion_moves_position :
    uringFailedWrite = some (1024, 1019, -5) ∧ aioFailedWrite = some (1024, 1019, -5) := by
  decide

/-! ## C5: the end-of-file flag after a later write -/

/-- C5 fails on the code.  After a read that hit end of file (`LastOp` returns `ErrEOF`), a
write that completes with 512 bytes is the most recently completed operation, yet `LastOp`
returns `(0, true, ErrEOF)`: the harvest assigns `eof` only when `lastOp` is `OpRead`, so the
flag of the earlier read is still set. -/
theorem C5_stale_eof_after_write :
    writeAfterEofRead =
      some ((0, true, some Error.ErrEOF), (0, true, some Error.ErrEOF), OpWrite, 512, true) ∧
    uringWriteAfterEofRead =
      some ((0, true, some Error.ErrEOF), (0, true, some Error.ErrEOF), OpWrite, 512, true) :=
  ⟨rfl, rfl⟩

/-! ## C6: what `LastOp` returns for an outstanding operation -/

/-- C6 (amended). For an async-mode file with an outstanding operation (`lastOp` set,
`complete` false), `LastOp` runs one harvest and leaves the state the harvest produced.
When the harvest reports no error: if the file is still not complete, `LastOp` returns
`(0, false, nil)`; if the harvest applied a completion with result `n >= 0` and the EOF flag
is not set, `LastOp` returns `(n, true, nil)`.  When the harvest reports an error, `LastOp`
returns `(0, false, err)` with that error. -/
theorem C6_lastOp_after_harvest (W : World) (f : Nat) (env : Env) (W1 : World)
    (herr : Option Error)
    (hmode : (W.files f).mode = ModeAsync)
    (hop : (W.files f).lastAsyncOpState.lastOp ≠ OpUnknown)
    (hinc : (W.files f).lastAsyncOpState.complete = false)
    (hharvest : fillOpState W env = some (W1, herr)) :
    (herr = none → (W1.files f).lastAsyncOpState.complete = false →
      LastOp W f env = some (W1, 0, false, none)) ∧
    (herr = none → (W1.files f).lastAsyncOpState.complete = true →
      0 ≤ (W1.files f).lastAsyncOpState.result → (W1.files f).lastAsyncOpState.eof = false →
      LastOp W f env = some (W1, (W1.files f).lastAsyncOpState.result, true, none)) ∧
    (∀ err, herr = some err → LastOp W f env = some (W1, 0, false, some err)) := by
  have hm : ¬ (W.files f).mode = ModeSync := by rw [hmode]; decide
  refine ⟨?_, ?_, ?_⟩
  · intro he hstill
    subst he
    have hc := checkAsyncResult_pending hmode hop hinc hharvest hstill
    simp [LastOp, hm, hc]
  · intro he hdone hres heof
    subst he
    have hc : checkAsyncResult W f env = some (W1, none) := by
      unfold checkAsyncResult
      simp [hm, hop, hinc, hharvest, hdone, not_lt.mpr hres]
    simp [LastOp, hm, hc, not_lt.mpr hres, heof, hdone]
  · intro err he
    subst he
    have hne := fillOpState_error hharvest
    have hc : checkAsyncResult W f env = some (W1, some err) := by
      unfold checkAsyncResult
      simp [hm, hop, hinc, hharvest]
    simp [LastOp, hm, hc, hne]

/-- Witness for C6 (amended): the write of file 0 in `aioPendingW` completes with 512 bytes
during the harvest of `LastOp`. -/
theorem C6_lastOp_after_harvest_witness :
    LastOp aioPendingW 0 doneEnv = some (aioDoneW, 512, true, none) :=
  (C6_lastOp_after_harvest aioPendingW 0 doneEnv aioDoneW none rfl (by decide) rfl rfl).2.1
    rfl rfl (by decide) rfl

/-- C6 as stated fails when the harvest itself fails: on Linux AIO, with the write of file 0
outstanding and `io_getevents` failing with errno 4, the harvest finds no completion for the
file, and `LastOp` returns `(0, false, errno 4)`, not `(0, false, nil)`. -/
theorem C6_counterexample :
    LastOp aioPendingW 0 { getevents := [{ e1 := 4 }] } =
      some (aioPendingW, 0, false, some (Error.Errno 4)) := by
  rfl

/-! ## C7: a negative result on the next `LastOp` -/

/-- C7 fails on the code.  After an operation completed with result -5, `LastOp` returns
`(0, false, async error: -5)`: the error of `checkAsyncResult` is returned before the branch
`res < 0` is reached, with the flag `false` although the operation is complete, and it is not
a `syscall.Errno`.  When that branch is reached the result is converted without negation: in
the run `lastOpAfterFailureAndSync` the file is at position 1024 when the write fails with -5,
a blocking `WriteSync` (whose seek goes to the non-negative offset 1019) resets `lastOp`, and
the next `LastOp` returns the errno 2^64 - 5, not 5. -/
theorem C7_negative_result_not_an_errno :
    lastOpAfterFailure =
      some ((0, false, some (Error.asyncError (-5))), (0, false, some (Error.asyncError (-5))),
        true) ∧
    lastOpAfterFailureAndSync =
      some ((0, true, some (Error.Errno 18446744073709551611)), -5, true, 1019,
        [(3, 1019, 0), (3, 1024, 0)]) :=
  ⟨by decide, rfl⟩

/-! ## C8: the in-flight counter of the io_uring backend -/

theorem flushSq_one {r r3 : ring} {submit : Int}
    (h1 : sub32 r.sq.sqeTail r.sq.sqeHead = 1) (h : flushSq r = some (r3, submit)) :
    r3.cq = r.cq ∧ r3.sq.khead = r.sq.khead ∧ r3.sq.ktail = add32 r.sq.ktail 1 ∧
      r3.sq.sqeTail = r.sq.sqeTail ∧ r3.sq.sqeHead = add32 r.sq.sqeHead 1 := by
  unfold flushSq at h
  rw [h1] at h
  unfold flushLoop at h
  split_ifs at h with hi
  · unfold flushLoop at h
    simp only [Option.some.injEq, Prod.mk.injEq] at h
    obtain ⟨rfl, -⟩ := h
    simp

theorem getSqe_effect {r r1 : ring} {s : Option Nat} (h : getSqe r = some (r1, s)) :
    r1.cq = r.cq ∧ r1.sq.khead = r.sq.khead ∧ r1.sq.ktail = r.sq.ktail ∧
      r1.sq.sqeHead = r.sq.sqeHead ∧
      ((s = none ∧ r1 = r) ∨
       (∃ i x, s = some i ∧ r1.sq.sqes[i]? = some x ∧ r1.sq.sqeTail = add32 r.sq.sqeTail 1)) := by
  unfold getSqe at h
  simp only at h
  split_ifs at h with h1 h2
  · simp only [Option.some.injEq, Prod.mk.injEq] at h
    obtain ⟨rfl, rfl⟩ := h
    refine ⟨rfl, rfl, rfl, rfl, Or.inr ⟨_, (r.sq.sqes[r.sq.sqeTail &&& r.sq.kringMask]), rfl, ?_, rfl⟩⟩
    simp [h2]
  · simp only [Option.some.injEq, Prod.mk.injEq] at h
    obtain ⟨rfl, rfl⟩ := h
    exact ⟨rfl, rfl, rfl, rfl, Or.inl ⟨rfl, rfl⟩⟩

theorem rw_ok (op : Nat) (x : sqe) (fd : Int) (p : Nat) (len : Nat) (off : Int)
    (hop : op = ioringOpReadv ∨ op = ioringOpWritev) (hp : p ≠ 0) :
    (rw op (some x) fd p p len off).1 = true ∧ ∃ y, (rw op (some x) fd p p len off).2 = some y := by
  unfold rw
  rcases hop with h | h <;> simp [h, hp]

theorem rw_none (op : Nat) (fd : Int) (p : Nat) (len : Nat) (off : Int) :
    (rw op none fd p p len off).1 = false := by
  unfold rw
  split_ifs <;> rfl

/-- The effect of `asyncRWIoUring` on the counters of the context and of the ring. -/
theorem asyncRWIoUring_effect {W W2 : World} {f op : Nat} {data : Buf} {env : Env} {n : Int}
    {e : Option Error} {r : ring}
    (hptr : env.ptr ≠ 0) (hop : op = ioringOpReadv ∨ op = ioringOpWritev)
    (hsync : sub32 r.sq.sqeTail r.sq.sqeHead = 0) (hr : W.c.r = some r)
    (h : asyncRWIoUring W f op data env = some (W2, n, e)) :
    W2.k = W.k ∧ W2.c.asyncMode = W.c.asyncMode ∧ W2.c.sz = W.c.sz ∧
    ∃ r2, W2.c.r = some r2 ∧ r2.cq = r.cq ∧ r2.sq.khead = r.sq.khead ∧
      ((W2.c.currentCnt = W.c.currentCnt ∧ r2.sq.ktail = r.sq.ktail ∧
          r2.sq.sqeTail = r.sq.sqeTail ∧ r2.sq.sqeHead = r.sq.sqeHead) ∨
       (W2.c.currentCnt = W.c.currentCnt + 1 ∧ r2.sq.ktail = add32 r.sq.ktail 1 ∧
          r2.sq.sqeTail = add32 r.sq.sqeTail 1 ∧ r2.sq.sqeHead = add32 r.sq.sqeHead 1)) := by
  unfold asyncRWIoUring at h
  simp only [hr] at h
  by_cases hlen : data.Len ≤ 0
  · simp [hlen] at h
  · simp only [hlen, if_false] at h
    cases hg : getSqe r with
    | none => simp [hg] at h
    | some p =>
      obtain ⟨r1, s⟩ := p
      simp only [hg] at h
      obtain ⟨g1, g2, g3, g4, g5⟩ := getSqe_effect hg
      rcases g5 with ⟨hs, hr1⟩ | ⟨i, x, hs, hx, g5⟩
      · subst hs
        simp only [Option.none_bind, rw_none, Bool.not_false, if_true, Option.some.injEq,
          Prod.mk.injEq] at h
        obtain ⟨hW, -⟩ := h
        subst hW
        refine ⟨rfl, rfl, rfl, r1, rfl, g1, g2, Or.inl ⟨?_, g3, ?_, g4⟩⟩
        · show W.c.currentCnt + 1 - 1 = W.c.currentCnt
          omega
        · rw [hr1]
      · subst hs
        obtain ⟨ht, y, hy⟩ := rw_ok op x (W.files f).fd env.ptr 1 (W.files f).pos hop hptr
        simp only [Option.some_bind, hx, ht, hy, Bool.not_true, Bool.false_eq_true, if_false] at h
        cases hfl : flushSq { r1 with sq := { r1.sq with sqes := r1.sq.sqes.set i y } } with
        | none => simp [hfl] at h
        | some q =>
          obtain ⟨r3, submit⟩ := q
          simp only [hfl] at h
          have hone : sub32 ({ r1 with sq := { r1.sq with sqes := r1.sq.sqes.set i y } } : ring).sq.sqeTail
              ({ r1 with sq := { r1.sq with sqes := r1.sq.sqes.set i y } } : ring).sq.sqeHead = 1 := by
            simp only [g5, g4]
            unfold sub32 add32 at *
            omega
          obtain ⟨f1, f2, f3, f4, f5⟩ := flushSq_one hone hfl
          have hW : W2.k = W.k ∧ W2.c.asyncMode = W.c.asyncMode ∧ W2.c.sz = W.c.sz ∧
              W2.c.r = some r3 ∧ W2.c.currentCnt = W.c.currentCnt + 1 := by
            split_ifs at h <;> simp only [Option.some.injEq, Prod.mk.injEq] at h <;>
              obtain ⟨rfl, -⟩ := h <;> exact ⟨rfl, rfl, rfl, rfl, rfl⟩
          obtain ⟨w1, w2, w3, w4, w5⟩ := hW
          refine ⟨w1, w2, w3, r3, w4, ?_, ?_, Or.inr ⟨w5, ?_, ?_, ?_⟩⟩
          · rw [f1]; exact g1
          · rw [f2]; exact g2
          · rw [f3]; simp only [g3]
          · rw [f4]; exact g5
          · rw [f5]; simp only [g4]

theorem UringInit.inv {W : World} (h : UringInit W) : UringInv W := by
  obtain ⟨h1, h2, h3, h4, h5, r, h6, h7, h8, h9⟩ := h
  refine ⟨h1, h3, h4, by omega, r, h6, ?_, ?_⟩
  · rw [h8]; unfold sub32; omega
  · rw [h2, h5, h7, h9]; unfold sub32; simp

theorem UringInv.setFile {W : World} (h : UringInv W) (f : Nat) (x : File) :
    UringInv (setFile W f x) :=
  ⟨h.mode, h.szlo, h.szhi, h.le, h.ring⟩

theorem UringInv.fillStatesIoUring {W W1 : World} (h : UringInv W)
    (h1 : fillStatesIoUring W = some W1) : UringInv W1 := by
  obtain ⟨r, hr, hs, hc⟩ := h.ring
  unfold Asyncfs.fillStatesIoUring at h1
  simp only [hr] at h1
  split at h1
  · exact absurd h1 (by simp)
  · rename_i Wl hl
    simp only [Option.some.injEq] at h1
    have hh := cqLoop_harvested _ _ _ _ _ hl
    subst h1
    refine ⟨?_, ?_, ?_, ?_, _, rfl, hs, ?_⟩
    · exact hh.mode.trans h.mode
    · show 0 ≤ Wl.c.sz
      rw [hh.sz]; exact h.szlo
    · show Wl.c.sz < _
      rw [hh.sz]; exact h.szhi
    · show Wl.c.currentCnt - _ ≤ Wl.c.sz
      rw [hh.sz, hh.cnt]
      have := h.le
      omega
    · show Wl.c.currentCnt - _ = _ + (Wl.k.uringInflight.length : Int) + _
      rw [hh.cnt, hh.uring, hc]
      simp only [sub32, add32]
      omega

theorem checkAsyncResult_cases {W W1 : World} {f : Nat} {env : Env} {e : Option Error}
    (h : checkAsyncResult W f env = some (W1, e)) :
    W1 = W ∨ ∃ e1, fillOpState W env = some (W1, e1) := by
  unfold checkAsyncResult at h
  split_ifs at h
  · simp only [Option.some.injEq, Prod.mk.injEq] at h; exact Or.inl h.1.symm
  · simp only [Option.some.injEq, Prod.mk.injEq] at h; exact Or.inl h.1.symm
  · split at h
    · exact absurd h (by simp)
    · rename_i Wh err hf
      simp only [Option.some.injEq, Prod.mk.injEq] at h
      exact Or.inr ⟨_, h.1 ▸ hf⟩
    · rename_i Wh hf
      split_ifs at h <;> simp only [Option.some.injEq, Prod.mk.injEq] at h <;>
        exact Or.inr ⟨_, h.1 ▸ hf⟩
  · simp only [Option.some.injEq, Prod.mk.injEq] at h; exact Or.inl h.1.symm
  · simp only [Option.some.injEq, Prod.mk.injEq] at h; exact Or.inl h.1.symm

theorem UringInv.fillOpState {W W1 : World} {env : Env} {e : Option Error} (h : UringInv W)
    (h1 : fillOpState W env = some (W1, e)) : UringInv W1 := by
  unfold Asyncfs.fillOpState at h1
  simp only [h.mode, if_true] at h1
  split at h1
  · exact absurd h1 (by simp)
  · rename_i Wr hr
    simp only [Option.some.injEq, Prod.mk.injEq] at h1
    exact h1.1 ▸ h.fillStatesIoUring hr

theorem UringInv.checkAsyncResult {W W1 : World} {f : Nat} {env : Env} {e : Option Error}
    (h : UringInv W) (h1 : checkAsyncResult W f env = some (W1, e)) : UringInv W1 := by
  rcases checkAsyncResult_cases h1 with rfl | ⟨e1, h2⟩
  · exact h
  · exact h.fillOpState h2

theorem UringInv.asyncRWIoUring {W W2 : World} {f op : Nat} {data : Buf} {env : Env} {n : Int}
    {e : Option Error} (h : UringInv W) (hb : busy W.c = false)
    (hptr : env.ptr ≠ 0) (hop : op = ioringOpReadv ∨ op = ioringOpWritev)
    (h1 : asyncRWIoUring W f op data env = some (W2, n, e)) : UringInv W2 := by
  obtain ⟨r, hr, hs, hc⟩ := h.ring
  have hlt : W.c.currentCnt < W.c.sz := by
    unfold busy at hb
    simp only [h.mode, if_true, decide_eq_false_iff_not, not_le] at hb
    exact hb
  obtain ⟨e1, e2, e3, r2, e4, e5, e6, e7⟩ := asyncRWIoUring_effect hptr hop hs hr h1
  have hszhi := h.szhi
  rcases e7 with ⟨c1, c2, c3, c4⟩ | ⟨c1, c2, c3, c4⟩
  · refine ⟨e2.trans h.mode, e3 ▸ h.szlo, e3 ▸ h.szhi, ?_, r2, e4, ?_, ?_⟩
    · rw [c1, e3]; exact h.le
    · rw [c3, c4]; exact hs
    · rw [c1, e1, e5, e6, c2]; exact hc
  · refine ⟨e2.trans h.mode, e3 ▸ h.szlo, e3 ▸ h.szhi, ?_, r2, e4, ?_, ?_⟩
    · rw [c1, e3]; omega
    · rw [c3, c4]; simp only [sub32, add32] at hs ⊢; omega
    · rw [c1, e1, e5, e6, c2, hc]
      simp only [sub32, add32] at hc ⊢
      omega

theorem UringInv.writeAsync {W W2 : World} {f : Nat} {data : Buf} {env : Env} {n : Int}
    {e : Option Error} (h : UringInv W) (hptr : env.ptr ≠ 0)
    (h1 : writeAsync W f data env = some (W2, n, e)) : UringInv W2 := by
  unfold Asyncfs.writeAsync at h1
  cases hb : busy W.c with
  | true =>
    simp only [hb, if_true, Option.some.injEq, Prod.mk.injEq] at h1
    exact h1.1 ▸ h
  | false =>
    have hm : (Asyncfs.setFile W f { W.files f with lastSyncSeek := true }).c.asyncMode =
        asyncIoUring := h.mode
    simp only [hb, Bool.false_eq_true, if_false, hm, true_or, if_true] at h1
    split at h1
    · exact absurd h1 (by simp)
    · rename_i Wb nb err hbk
      simp only [Option.some.injEq, Prod.mk.injEq] at h1
      exact h1.1 ▸ (h.setFile f _).asyncRWIoUring hb hptr (Or.inr rfl) hbk
    · rename_i Wb nb hbk
      simp only [Option.some.injEq, Prod.mk.injEq] at h1
      exact h1.1 ▸ ((h.setFile f _).asyncRWIoUring hb hptr (Or.inr rfl) hbk).setFile f _

theorem UringInv.readAsync {W W2 : World} {f : Nat} {data : Buf} {env : Env} {n : Int}
    {e : Option Error} (h : UringInv W) (hptr : env.ptr ≠ 0)
    (h1 : readAsync W f data env = some (W2, n, e)) : UringInv W2 := by
  unfold Asyncfs.readAsync at h1
  cases hb : busy W.c with
  | true =>
    simp only [hb, if_true, Option.some.injEq, Prod.mk.injEq] at h1
    exact h1.1 ▸ h
  | false =>
    have hm : (Asyncfs.setFile W f { W.files f with lastSyncSeek := true }).c.asyncMode =
        asyncIoUring := h.mode
    simp only [hb, Bool.false_eq_true, if_false, hm, true_or, if_true] at h1
    split at h1
    · exact absurd h1 (by simp)
    · rename_i Wb nb err hbk
      simp only [Option.some.injEq, Prod.mk.injEq] at h1
      exact h1.1 ▸ (h.setFile f _).asyncRWIoUring hb hptr (Or.inl rfl) hbk
    · rename_i Wb nb hbk
      simp only [Option.some.injEq, Prod.mk.injEq] at h1
      exact h1.1 ▸ ((h.setFile f _).asyncRWIoUring hb hptr (Or.inl rfl) hbk).setFile f _

theorem UringInv.sysSeek {W : World} (h : UringInv W) (fd off whence : Int) (env : Env) :
    UringInv (sysSeek W fd off whence env) :=
  ⟨h.mode, h.szlo, h.szhi, h.le, h.ring⟩

theorem UringInv.sysRW {W : World} (h : UringInv W) (fd n : Int) :
    UringInv (sysRW W fd n) :=
  ⟨h.mode, h.szlo, h.szhi, h.le, h.ring⟩

theorem UringInv.checkAsyncSeek {W W1 : World} {f : Nat} {env : Env} {n : Int}
    {e : Option Error} (h : UringInv W) (h1 : checkAsyncSeek W f env = some (W1, n, e)) :
    UringInv W1 := by
  unfold Asyncfs.checkAsyncSeek at h1
  split at h1
  · exact absurd h1 (by simp)
  · rename_i Wc err hc
    have hi := h.checkAsyncResult hc
    split_ifs at h1
    · simp only [Option.some.injEq, Prod.mk.injEq] at h1; exact h1.1 ▸ hi
    · split at h1 <;> simp only [Option.some.injEq, Prod.mk.injEq] at h1
      · exact h1.1 ▸ hi.sysSeek _ _ _ _
      · exact h1.1 ▸ (hi.sysSeek _ _ _ _).setFile f _
    · simp only [Option.some.injEq, Prod.mk.injEq] at h1; exact h1.1 ▸ hi

theorem UringInv.writeSync {W W2 : World} {f : Nat} {data : Buf} {env : Env} {n : Int}
    {e : Option Error} (h : UringInv W) (h1 : writeSync W f data env = some (W2, n, e)) :
    UringInv W2 := by
  unfold Asyncfs.writeSync at h1
  split at h1
  · exact absurd h1 (by simp)
  · rename_i Wc nc err hc
    simp only [Option.some.injEq, Prod.mk.injEq] at h1
    obtain ⟨rfl, -⟩ := h1
    split_ifs at hc
    · exact h.checkAsyncSeek hc
    · simp at hc
  · rename_i Wc nc hc
    have hi : UringInv Wc := by
      split_ifs at hc
      · exact h.checkAsyncSeek hc
      · simp only [Option.some.injEq, Prod.mk.injEq] at hc; exact hc.1 ▸ h
    split_ifs at h1
    · simp only [Option.some.injEq, Prod.mk.injEq] at h1; exact h1.1 ▸ hi
    · simp only [Option.some.injEq, Prod.mk.injEq] at h1; exact h1.1 ▸ hi.sysRW _ _
    · simp only [Option.some.injEq, Prod.mk.injEq] at h1
      exact h1.1 ▸ (hi.sysRW _ _).setFile f _
    · split at h1 <;> simp only [Option.some.injEq, Prod.mk.injEq] at h1
      · exact h1.1 ▸ hi.sysRW _ _
      · exact h1.1 ▸ (hi.sysRW _ _).setFile f _

theorem UringInv.readSync {W W2 : World} {f : Nat} {data : Buf} {env : Env} {n : Int}
    {e : Option Error} (h : UringInv W) (h1 : readSync W f data env = some (W2, n, e)) :
    UringInv W2 := by
  unfold Asyncfs.readSync at h1
  split at h1
  · exact absurd h1 (by simp)
  · rename_i Wc nc err hc
    simp only [Option.some.injEq, Prod.mk.injEq] at h1
    obtain ⟨rfl, -⟩ := h1
    split_ifs at hc
    · exact h.checkAsyncSeek hc
    · simp at hc
  · rename_i Wc nc hc
    have hi : UringInv Wc := by
      split_ifs at hc
      · exact h.checkAsyncSeek hc
      · simp only [Option.some.injEq, Prod.mk.injEq] at hc; exact hc.1 ▸ h
    split_ifs at h1
    · simp only [Option.some.injEq, Prod.mk.injEq] at h1; exact h1.1 ▸ hi
    · simp only [Option.some.injEq, Prod.mk.injEq] at h1; exact h1.1 ▸ hi.sysRW _ _
    · simp only [Option.some.injEq, Prod.mk.injEq] at h1
      exact h1.1 ▸ (hi.sysRW _ _).setFile f _
    · split at h1 <;> simp only [Option.some.injEq, Prod.mk.injEq] at h1
      · exact h1.1 ▸ hi.sysRW _ _
      · exact h1.1 ▸ (hi.sysRW _ _).setFile f _

theorem UringInv.Write {W W2 : World} {f : Nat} {data : Buf} {env : Env} {n : Int}
    {e : Option Error} (h : UringInv W) (hptr : env.ptr ≠ 0)
    (h1 : Write W f data env = some (W2, n, e)) : UringInv W2 := by
  unfold Asyncfs.Write at h1
  split_ifs at h1
  · split at h1
    · exact absurd h1 (by simp)
    · rename_i Wc err hc
      simp only [Option.some.injEq, Prod.mk.injEq] at h1
      exact h1.1 ▸ h.checkAsyncResult hc
    · rename_i Wc hc
      exact (h.checkAsyncResult hc).writeAsync hptr h1
  · exact h.writeSync h1
  · simp only [Option.some.injEq, Prod.mk.injEq] at h1; exact h1.1 ▸ h

theorem UringInv.Read {W W2 : World} {f : Nat} {data : Buf} {env : Env} {n : Int}
    {e : Option Error} (h : UringInv W) (hptr : env.ptr ≠ 0)
    (h1 : Read W f data env = some (W2, n, e)) : UringInv W2 := by
  unfold Asyncfs.Read at h1
  split_ifs at h1
  · split at h1
    · exact absurd h1 (by simp)
    · rename_i Wc err hc
      simp only [Option.some.injEq, Prod.mk.injEq] at h1
      exact h1.1 ▸ h.checkAsyncResult hc
    · rename_i Wc hc
      exact (h.checkAsyncResult hc).readAsync hptr h1
  · exact h.readSync h1
  · simp only [Option.some.injEq, Prod.mk.injEq] at h1; exact h1.1 ▸ h

theorem UringInv.LastOp {W W2 : World} {f : Nat} {env : Env} {r : Int × Bool × Option Error}
    (h : UringInv W) (h1 : LastOp W f env = some (W2, r)) : UringInv W2 := by
  unfold Asyncfs.LastOp at h1
  split_ifs at h1
  · simp only [Option.some.injEq, Prod.mk.injEq] at h1; exact h1.1 ▸ h
  · split at h1
    · exact absurd h1 (by simp)
    · rename_i Wc err hc
      split_ifs at h1 <;> simp only [Option.some.injEq, Prod.mk.injEq] at h1 <;>
        exact h1.1 ▸ h.checkAsyncResult hc
    · rename_i Wc hc
      simp only at h1
      split_ifs at h1 <;> simp only [Option.some.injEq, Prod.mk.injEq] at h1 <;>
        exact h1.1 ▸ h.checkAsyncResult hc

theorem UringInv.Pos {W W2 : World} {f : Nat} {env : Env} {p : Int}
    (h : UringInv W) (h1 : Pos W f env = some (W2, p)) : UringInv W2 := by
  unfold Asyncfs.Pos at h1
  split_ifs at h1
  · simp only [Option.some.injEq, Prod.mk.injEq] at h1; exact h1.1 ▸ h
  · split at h1
    · exact absurd h1 (by simp)
    · rename_i Wc err hc
      simp only [Option.some.injEq, Prod.mk.injEq] at h1
      exact h1.1 ▸ h.checkAsyncResult hc

theorem UringInv.Stat {W W2 : World} {f : Nat} {env : Env} {e : Option Error}
    (h : UringInv W) (h1 : Stat W f env = some (W2, e)) : UringInv W2 := by
  unfold Asyncfs.Stat at h1
  split at h1
  · exact absurd h1 (by simp)
  · rename_i Wc err hc
    simp only [Option.some.injEq, Prod.mk.injEq] at h1
    exact h1.1 ▸ h.checkAsyncResult hc
  · rename_i Wc hc
    split_ifs at h1 <;> simp only [Option.some.injEq, Prod.mk.injEq] at h1 <;>
      exact h1.1 ▸ h.checkAsyncResult hc

theorem UringInv.Seek {W W2 : World} {f : Nat} {pos whence : Int} {env : Env} {n : Int}
    {e : Option Error} (h : UringInv W) (h1 : Seek W f pos whence env = some (W2, n, e)) :
    UringInv W2 := by
  unfold Asyncfs.Seek at h1
  by_cases hm : (W.files f).mode = ModeSync
  · simp only [hm, if_true] at h1
    split at h1 <;> simp only [Option.some.injEq, Prod.mk.injEq] at h1
    · exact h1.1 ▸ h.sysSeek _ _ _ _
    · exact h1.1 ▸ (h.sysSeek _ _ _ _).setFile f _
  · simp only [hm, if_false] at h1
    split at h1
    · exact absurd h1 (by simp)
    · rename_i Wc err hc
      simp only [Option.some.injEq, Prod.mk.injEq] at h1
      exact h1.1 ▸ h.checkAsyncResult hc
    · rename_i Wc hc
      have hi := h.checkAsyncResult hc
      by_cases hcmp : (!(Wc.files f).lastAsyncOpState.complete) = true
      · simp only [hcmp, if_true, Option.some.injEq, Prod.mk.injEq] at h1
        exact h1.1 ▸ hi
      · simp only [hcmp, Bool.false_eq_true, if_false] at h1
        by_cases hw : whence = 0 ∨ whence = 1 ∨ whence = 2
        · simp only [hw, if_true] at h1
          cases hse : env.seekErr with
          | some err =>
            simp only [hse, Option.some.injEq, Prod.mk.injEq] at h1
            exact h1.1 ▸ hi.sysSeek _ _ _ _
          | none =>
            simp only [hse, Option.some.injEq, Prod.mk.injEq] at h1
            exact h1.1 ▸ (hi.sysSeek _ _ _ _).setFile f _
        · simp only [hw, if_false] at h1
          cases hse : env.seekErr with
          | some err =>
            simp only [hse, Option.some.injEq, Prod.mk.injEq] at h1
            exact h1.1 ▸ hi.sysSeek _ _ _ _
          | none =>
            simp only [hse, Option.some.injEq, Prod.mk.injEq] at h1
            exact h1.1 ▸ hi.sysSeek _ _ _ _

theorem UringInv.kernelTake {W W1 : World} (h : UringInv W) (h1 : kernelTake W = some W1) :
    UringInv W1 := by
  obtain ⟨r, hr, hs, hc⟩ := h.ring
  unfold Asyncfs.kernelTake at h1
  simp only [hr] at h1
  split_ifs at h1 with h0
  split at h1
  · exact absurd h1 (by simp)
  · split at h1
    · exact absurd h1 (by simp)
    · simp only [Option.some.injEq] at h1
      subst h1
      refine ⟨h.mode, h.szlo, h.szhi, h.le, _, rfl, hs, ?_⟩
      show W.c.currentCnt = _
      rw [hc]
      simp only [List.length_append, List.length_singleton, sub32, add32] at h0 ⊢
      push_cast
      omega

theorem UringInv.kernelPost {W W1 : World} {i : Nat} {res : Int} (h : UringInv W)
    (h1 : kernelPost W i res = some W1) : UringInv W1 := by
  obtain ⟨r, hr, hs, hc⟩ := h.ring
  unfold Asyncfs.kernelPost at h1
  simp only [hr] at h1
  split at h1
  · exact absurd h1 (by simp)
  · rename_i ud hud
    simp only [Option.some.injEq] at h1
    subst h1
    have hi : i < W.k.uringInflight.length := by
      by_contra hcon
      rw [List.getElem?_eq_none (not_lt.mp hcon)] at hud
      exact absurd hud (by simp)
    have hle := h.le
    have hhi := h.szhi
    refine ⟨h.mode, h.szlo, h.szhi, h.le, _, rfl, hs, ?_⟩
    show W.c.currentCnt = _
    rw [hc] at hle ⊢
    simp only [List.length_eraseIdx, hi, if_true, sub32, add32] at hle ⊢
    omega

theorem UringInv.step {W W1 : World} {a : Action} (h : UringInv W) (ha : a.allocOk)
    (h1 : step W a = some W1) : UringInv W1 := by
  cases a with
  | write f data env =>
    simp only [Asyncfs.step, Option.map_eq_some'] at h1
    obtain ⟨⟨W2, n, e⟩, h2, rfl⟩ := h1
    exact h.Write ha h2
  | read f data env =>
    simp only [Asyncfs.step, Option.map_eq_some'] at h1
    obtain ⟨⟨W2, n, e⟩, h2, rfl⟩ := h1
    exact h.Read ha h2
  | writeSync f data env =>
    simp only [Asyncfs.step, Option.map_eq_some'] at h1
    obtain ⟨⟨W2, n, e⟩, h2, rfl⟩ := h1
    exact h.writeSync h2
  | readSync f data env =>
    simp only [Asyncfs.step, Option.map_eq_some'] at h1
    obtain ⟨⟨W2, n, e⟩, h2, rfl⟩ := h1
    exact h.readSync h2
  | seek f pos whence env =>
    simp only [Asyncfs.step, Option.map_eq_some'] at h1
    obtain ⟨⟨W2, n, e⟩, h2, rfl⟩ := h1
    exact h.Seek h2
  | lastOp f env =>
    simp only [Asyncfs.step, Option.map_eq_some'] at h1
    obtain ⟨⟨W2, r⟩, h2, rfl⟩ := h1
    exact h.LastOp h2
  | pos f env =>
    simp only [Asyncfs.step, Option.map_eq_some'] at h1
    obtain ⟨⟨W2, r⟩, h2, rfl⟩ := h1
    exact h.Pos h2
  | stat f env =>
    simp only [Asyncfs.step, Option.map_eq_some'] at h1
    obtain ⟨⟨W2, r⟩, h2, rfl⟩ := h1
    exact h.Stat h2
  | submitWrite f data env =>
    simp only [Asyncfs.step, Option.map_eq_some'] at h1
    obtain ⟨⟨W2, n, e⟩, h2, rfl⟩ := h1
    exact h.writeAsync ha h2
  | submitRead f data env =>
    simp only [Asyncfs.step, Option.map_eq_some'] at h1
    obtain ⟨⟨W2, n, e⟩, h2, rfl⟩ := h1
    exact h.readAsync ha h2
  | harvest => exact h.fillStatesIoUring h1
  | take => exact h.kernelTake h1
  | post i res => exact h.kernelPost h1

theorem UringInv.run {acts : List Action} {W W1 : World} (h : UringInv W)
    (ha : ∀ a ∈ acts, a.allocOk) (h1 : run W acts = some W1) : UringInv W1 := by
  induction acts generalizing W with
  | nil =>
    simp only [Asyncfs.run, Option.some.injEq] at h1
    exact h1 ▸ h
  | cons a rest ih =>
    unfold Asyncfs.run at h1
    split at h1
    · exact absurd h1 (by simp)
    · rename_i W2 h2
      exact ih (h.step (ha a (List.mem_cons_self _ _)) h2)
        (fun b hb => ha b (List.mem_cons_of_mem _ hb)) h1

theorem UringInv.nonneg {W : World} (h : UringInv W) : 0 ≤ W.c.currentCnt := by
  obtain ⟨r, -, -, hc⟩ := h.ring
  rw [hc]
  omega

theorem writeAsync_busy {W : World} (hm : W.c.asyncMode = asyncIoUring)
    (hc : W.c.sz ≤ W.c.currentCnt) (f : Nat) (data : Buf) (env : Env) :
    writeAsync W f data env = some (W, 0, some Error.ErrCtxBusy) ∧
    readAsync W f data env = some (W, 0, some Error.ErrCtxBusy) := by
  have hb : busy W.c = true := by
    unfold busy
    simp [hm, hc]
  constructor
  · unfold writeAsync; simp only [hb, if_true]
  · unfold readAsync; simp only [hb, if_true]

/-- C8. On the io_uring backend, start from a freshly set up context (counter 0, queue depth
`sz` with `0 <= sz < 2^32`, empty rings) and run any sequence of public calls, submissions,
harvests and kernel moves in which every allocated record has a non-nil address.  In the
state reached the in-flight counter lies in `[0, sz]`, and a submission `writeAsync` or
`readAsync` attempted while the counter equals `sz` returns `(0, ErrCtxBusy)` and leaves the
whole state, the counter included, unchanged; so do `Write` and `Read` on an async-mode file
that has no outstanding operation and no failed result (for which no harvest runs first). -/
theorem C8_inflight_counter_bounded (W0 : World) (acts : List Action) (W : World)
    (hinit : UringInit W0) (halloc : ∀ a ∈ acts, a.allocOk) (hrun : run W0 acts = some W) :
    0 ≤ W.c.currentCnt ∧ W.c.currentCnt ≤ W.c.sz ∧
    (W.c.currentCnt = W.c.sz → ∀ f data env,
      writeAsync W f data env = some (W, 0, some Error.ErrCtxBusy) ∧
      readAsync W f data env = some (W, 0, some Error.ErrCtxBusy) ∧
      ((W.files f).mode = ModeAsync →
        ((W.files f).lastAsyncOpState.lastOp = OpUnknown ∨
          ((W.files f).lastAsyncOpState.complete = true ∧
            0 ≤ (W.files f).lastAsyncOpState.result)) →
        Write W f data env = some (W, 0, some Error.ErrCtxBusy) ∧
        Read W f data env = some (W, 0, some Error.ErrCtxBusy))) := by
  have h := hinit.inv.run halloc hrun
  refine ⟨h.nonneg, h.le, fun hc f data env => ?_⟩
  obtain ⟨hw, hr⟩ := writeAsync_busy h.mode (le_of_eq hc.symm) f data env
  refine ⟨hw, hr, fun hmode hidle => ?_⟩
  have hg := checkAsyncResult_idle_ok env hidle
  constructor
  · simp only [Write, hmode, hg, if_true, hw]
  · simp only [Read, hmode, hg, if_true, hr]

/-- Witness for C8: after two accepted writes on a context of depth 2 the counter is 2, and a
third submission is refused with `ErrCtxBusy` without any change. -/
theorem C8_inflight_counter_bounded_witness :
    fullQueueW.c.currentCnt = 2 ∧ fullQueueW.c.sz = 2 ∧
    writeAsync fullQueueW 2 alignedBuf { ptr := 3000 } =
      some (fullQueueW, 0, some Error.ErrCtxBusy) :=
  ⟨rfl, rfl,
    ((C8_inflight_counter_bounded uringWorld fullQueueRun fullQueueW
      ⟨rfl, rfl, by decide, by decide, rfl, _, rfl, rfl, rfl, rfl⟩
      (by
        intro a ha
        simp only [fullQueueRun, List.mem_cons, List.mem_singleton, List.not_mem_nil,
          or_false] at ha
        rcases ha with rfl | rfl <;> simp [Action.allocOk])
      rfl).2.2 rfl 2 alignedBuf { ptr := 3000 }).1⟩

/-! ## C9: the alignment check of Linux AIO -/

theorem uint64_of_pos {a : Int} (h0 : 0 < a) (h1 : a < 9223372036854775808) :
    uint64 a = a.toNat := by
  unfold uint64
  rw [Int.emod_eq_of_lt (le_of_lt h0) (by omega)]

theorem addr_mod_ne_zero_iff {a : Int} (h0 : 0 < a) (p : Nat) :
    p % a.toNat ≠ 0 ↔ ¬ a ∣ (p : Int) := by
  have ha : (a.toNat : Int) = a := Int.toNat_of_nonneg (le_of_lt h0)
  rw [Ne, ← Nat.dvd_iff_mod_eq_zero, ← Int.ofNat_dvd, ha]

theorem asyncRWAio_unaligned (W : World) (f op : Nat) (data : Buf) (env : Env)
    (hne : 0 < data.Len) (hpos : 0 < W.c.align) (hint : W.c.align < 9223372036854775808)
    (h : ¬ W.c.align ∣ data.Len ∨ ¬ W.c.align ∣ (data.Data : Int)) :
    asyncRWAio W f op data env = some (W, 0, some Error.ErrUnalignedData) := by
  have h0 : ¬ data.Len = 0 := by omega
  have ha : ¬ W.c.align = 0 := by omega
  have hu : uint64 W.c.align = W.c.align.toNat := uint64_of_pos hpos hint
  have hu0 : ¬ uint64 W.c.align = 0 := by rw [hu]; omega
  unfold asyncRWAio
  simp only
  rw [if_neg h0, if_neg ha]
  by_cases hl : Int.tmod data.Len W.c.align ≠ 0
  · rw [if_pos hl]
  · have hd : W.c.align ∣ data.Len := Int.dvd_iff_tmod_eq_zero.mpr (not_not.mp hl)
    have hp : data.Data % uint64 W.c.align ≠ 0 := by
      rw [hu, addr_mod_ne_zero_iff hpos]
      rcases h with h | h
      · exact absurd hd h
      · exact h
    rw [if_neg hl, if_neg hu0, if_pos hp]

theorem asyncRWAio_aligned (W : World) (f op : Nat) (data : Buf) (env : Env)
    (hne : 0 < data.Len) (hpos : 0 < W.c.align) (hint : W.c.align < 9223372036854775808)
    (hd : W.c.align ∣ data.Len) (hp : W.c.align ∣ (data.Data : Int)) :
    ∃ W2 e, asyncRWAio W f op data env = some (W2, 0, e) ∧
      e ≠ some Error.ErrUnalignedData := by
  have h0 : ¬ data.Len = 0 := by omega
  have ha : ¬ W.c.align = 0 := by omega
  have hu : uint64 W.c.align = W.c.align.toNat := uint64_of_pos hpos hint
  have hu0 : ¬ uint64 W.c.align = 0 := by rw [hu]; omega
  have hl : ¬ Int.tmod data.Len W.c.align ≠ 0 :=
    not_not.mpr (Int.dvd_iff_tmod_eq_zero.mp hd)
  have hq : ¬ data.Data % uint64 W.c.align ≠ 0 := by
    rw [hu, addr_mod_ne_zero_iff hpos]; exact not_not.mpr hp
  unfold asyncRWAio
  simp only
  rw [if_neg h0, if_neg ha, if_neg hl, if_neg hu0, if_neg hq]
  split_ifs
  · exact ⟨_, _, rfl, by simp⟩
  · exact ⟨_, _, rfl, by simp⟩
  · exact ⟨_, _, rfl, by simp⟩

/-- C9. With a positive context alignment (a Go `int`) and a non-empty buffer, `asyncRWAio`
returns `(0, ErrUnalignedData)` exactly when the buffer length or the buffer start address is
not a multiple of the alignment.  In that case the whole state is the one before the call (no
control block is registered or handed to the kernel); otherwise the call returns with an
error value different from `ErrUnalignedData`. -/
theorem C9_aio_unaligned_data (W : World) (f op : Nat) (data : Buf) (env : Env)
    (hne : 0 < data.Len) (hpos : 0 < W.c.align) (hint : W.c.align < 9223372036854775808) :
    ((¬ W.c.align ∣ data.Len ∨ ¬ W.c.align ∣ (data.Data : Int)) →
      asyncRWAio W f op data env = some (W, 0, some Error.ErrUnalignedData)) ∧
    (¬ (¬ W.c.align ∣ data.Len ∨ ¬ W.c.align ∣ (data.Data : Int)) →
      ∃ W2 e, asyncRWAio W f op data env = some (W2, 0, e) ∧
        e ≠ some Error.ErrUnalignedData) := by
  constructor
  · exact asyncRWAio_unaligned W f op data env hne hpos hint
  · intro h
    have hd : W.c.align ∣ data.Len := by
      by_contra hc; exact h (Or.inl hc)
    have hp : W.c.align ∣ (data.Data : Int) := by
      by_contra hc; exact h (Or.inr hc)
    exact asyncRWAio_aligned W f op data env hne hpos hint hd hp

/-- Witness for C9: with alignment 512 a 4095-byte buffer is refused and nothing changes. -/
theorem C9_aio_unaligned_data_witness :
    asyncRWAio aioWorld 0 iocbCmdPwrite oddBuf { ptr := 1000 } =
      some (aioWorld, 0, some Error.ErrUnalignedData) :=
  (C9_aio_unaligned_data aioWorld 0 iocbCmdPwrite oddBuf { ptr := 1000 }
    (by decide) (by decide) (by decide)).1 (Or.inl (by decide))

/-! ## C10: aligned allocation -/

theorem testBit_two_pow_sub_two_pow (k i : Nat) (hk : k ≤ 64) :
    (2 ^ 64 - 2 ^ k).testBit i = (decide (i < 64) && !decide (i < k)) := by
  have h2 : 2 ^ k - 1 < 2 ^ 64 := by
    have : 2 ^ k ≤ 2 ^ 64 := Nat.pow_le_pow_right (by decide) hk
    have : 0 < 2 ^ k := Nat.two_pow_pos _
    omega
  have h := Nat.testBit_two_pow_sub_succ h2 i
  have hp : 0 < 2 ^ k := Nat.two_pow_pos _
  have e : 2 ^ 64 - (2 ^ k - 1 + 1) = 2 ^ 64 - 2 ^ k := by omega
  rw [e] at h
  rw [h, Nat.testBit_two_pow_sub_one]

theorem and_mask_eq (y k : Nat) (hy : y < 2 ^ 64) (hk : k ≤ 64) :
    y &&& (2 ^ 64 - 2 ^ k) = 2 ^ k * (y / 2 ^ k) := by
  apply Nat.eq_of_testBit_eq
  intro i
  rw [Nat.testBit_and, testBit_two_pow_sub_two_pow k i hk, Nat.testBit_mul_pow_two]
  by_cases hik : i < k
  · have : ¬ i ≥ k := by omega
    simp [hik, this]
  · have hge : i ≥ k := by omega
    by_cases hi : i < 64
    · simp only [hi, hik, hge, decide_True, decide_False, Bool.not_false, Bool.and_self,
        Bool.and_true, Bool.true_and]
      rw [← Nat.shiftRight_eq_div_pow, Nat.testBit_shiftRight]
      congr 1
      omega
    · have hy2 : y < 2 ^ i := lt_of_lt_of_le hy (Nat.pow_le_pow_right (by decide) (by omega))
      have hq : y / 2 ^ k < 2 ^ (i - k) := by
        rw [Nat.div_lt_iff_lt_mul (Nat.two_pow_pos _), ← Nat.pow_add]
        have : i - k + k = i := by omega
        rw [this]; exact hy2
      simp [hi, Nat.testBit_lt_two_pow hy2, Nat.testBit_lt_two_pow hq]

theorem round_up_props (base P : Nat) (hP : 0 < P) :
    P ∣ P * ((base + (P - 1)) / P) ∧ base ≤ P * ((base + (P - 1)) / P) ∧
    P * ((base + (P - 1)) / P) ≤ base + (P - 1) ∧
    ∀ m, P ∣ m → base ≤ m → P * ((base + (P - 1)) / P) ≤ m := by
  have hdm := Nat.div_add_mod (base + (P - 1)) P
  have hlt := Nat.mod_lt (base + (P - 1)) hP
  refine ⟨Dvd.intro _ rfl, by omega, by omega, ?_⟩
  rintro m ⟨q, rfl⟩ hb
  apply Nat.mul_le_mul_left
  by_contra hc
  have h1 : q + 1 ≤ (base + (P - 1)) / P := by omega
  have h2 := Nat.mul_le_mul_left P h1
  rw [Nat.mul_add, Nat.mul_one] at h2
  omega

theorem mapLookup_mapInsert {α : Type} (m : List (Nat × α)) (k : Nat) (v : α) :
    mapLookup (mapInsert m k v) k = some v := by
  simp [mapInsert, mapLookup]

/-- The value `allocBuf` computes in Linux-AIO mode without a pool hook, for an alignment
`P = 2^k`: the start is `P * ((base + (P - 1)) / P)`. -/
theorem allocBuf_aio_value (W : World) (sz : Int) (a : Alloc) (k : Nat)
    (m : List (Nat × slice))
    (hmode : W.c.asyncMode = asyncAio) (hhook : W.c.bufPoller = none)
    (hmap : W.c.alignedBuffers = some m) (hsz : 1 ≤ sz)
    (hal : W.c.align = ((2 ^ k : Nat) : Int)) (hk : k < 63)
    (hfit : (a.base : Int) + (sz + W.c.align - 1) ≤ 18446744073709551616) :
    allocBuf W sz a =
      some ({ W with c := { W.c with alignedBuffers := some (mapInsert m
                (2 ^ k * ((a.base + (2 ^ k - 1)) / 2 ^ k))
                { b := a.base, len := sz + W.c.align - 1, cap := sz + W.c.align - 1 }) } },
            { Data := 2 ^ k * ((a.base + (2 ^ k - 1)) / 2 ^ k), Len := sz, Cap := sz }) := by
  have hP : 0 < 2 ^ k := Nat.two_pow_pos k
  have hPlt : 2 ^ k < 2 ^ 63 := Nat.pow_lt_pow_right (by decide) hk
  have hPlt2 : (2 : Nat) ^ 63 = 9223372036854775808 := by norm_num
  generalize hPdef : 2 ^ k = P at *
  have hm : ¬ W.c.asyncMode = asyncIoUring := by rw [hmode]; decide
  have hfull : ¬ sz + W.c.align - 1 < 0 := by omega
  have hlen : ¬ sz + W.c.align - 1 ≤ 0 := by omega
  have hlen2 : ¬ sz + W.c.align - 1 - (W.c.align - 1) ≤ 0 := by omega
  have e1 : uint64 (W.c.align - 1) = P - 1 := by
    unfold uint64; omega
  have e2 : (uint64 W.c.align + 18446744073709551615) % 18446744073709551616 = P - 1 := by
    unfold uint64; omega
  have e3 : not64 (P - 1) = 2 ^ 64 - 2 ^ k := by
    unfold not64
    rw [hPdef]
    omega
  have e4 : (a.base + (P - 1)) % 18446744073709551616 = a.base + (P - 1) := by
    apply Nat.mod_eq_of_lt; omega
  have e5 : (a.base + (P - 1)) &&& (2 ^ 64 - 2 ^ k) = P * ((a.base + (P - 1)) / P) := by
    rw [and_mask_eq _ k (by omega) (by omega), hPdef]
  have e6 : sz + W.c.align - 1 - (W.c.align - 1) = sz := by omega
  unfold allocBuf alloc
  simp only [hhook, hmap]
  rw [if_neg hm, if_neg hfull]
  simp only
  rw [if_neg hlen, if_neg hlen2, e1, e2, e3, e4, e5, e6]

/-- C10. In Linux-AIO mode (`asyncMode = asyncAio`, the table `alignedBuffers` made by
`initAio`) with no pool hook, for `sz >= 1`, an alignment `2^k` (a Go `int`) and an allocation
of `sz + align - 1` bytes at `base` that lies in the 64-bit address space, `AllocBuf(sz)`
returns a buffer of length `sz` whose start is a multiple of the alignment, is not below
`base` and is the smallest such address; its capacity ends inside the allocation; the table
`alignedBuffers` holds the original allocation `(base, sz + align - 1, sz + align - 1)` under
the aligned start; and when `sz` is a multiple of the alignment, `asyncRWAio` does not refuse
the buffer with `ErrUnalignedData`. -/
theorem C10_allocBuf_aligned (W : World) (sz : Int) (a : Alloc) (k : Nat)
    (m : List (Nat × slice))
    (hmode : W.c.asyncMode = asyncAio) (hhook : W.c.bufPoller = none)
    (hmap : W.c.alignedBuffers = some m) (hsz : 1 ≤ sz)
    (hal : W.c.align = ((2 ^ k : Nat) : Int)) (hk : k < 63)
    (hfit : (a.base : Int) + (sz + W.c.align - 1) ≤ 18446744073709551616) :
    ∃ W2 buf, AllocBuf W sz a = some (W2, buf) ∧
      buf.Len = sz ∧
      W.c.align ∣ (buf.Data : Int) ∧
      a.base ≤ buf.Data ∧
      (∀ p : Nat, W.c.align ∣ (p : Int) → a.base ≤ p → buf.Data ≤ p) ∧
      (buf.Data : Int) + buf.Cap ≤ (a.base : Int) + (sz + W.c.align - 1) ∧
      W2.c.alignedBuffers.bind (fun t => mapLookup t buf.Data) =
        some { b := a.base, len := sz + W.c.align - 1, cap := sz + W.c.align - 1 } ∧
      (W.c.align ∣ sz → ∀ f op env, ∃ W3 e,
        asyncRWAio W2 f op buf env = some (W3, 0, e) ∧ e ≠ some Error.ErrUnalignedData) := by
  have hv := allocBuf_aio_value W sz a k m hmode hhook hmap hsz hal hk hfit
  have hP : 0 < 2 ^ k := Nat.two_pow_pos k
  have hPlt : 2 ^ k < 2 ^ 63 := Nat.pow_lt_pow_right (by decide) hk
  have hPlt2 : (2 : Nat) ^ 63 = 9223372036854775808 := by norm_num
  obtain ⟨r1, r2, r3, r4⟩ := round_up_props a.base (2 ^ k) hP
  have hdvd : W.c.align ∣ ((2 ^ k * ((a.base + (2 ^ k - 1)) / 2 ^ k) : Nat) : Int) := by
    rw [hal]; exact Int.ofNat_dvd.mpr r1
  refine ⟨_, _, hv, rfl, hdvd, r2, ?_, ?_, ?_, ?_⟩
  · intro p hp hb
    rw [hal] at hp
    exact r4 p (Int.ofNat_dvd.mp hp) hb
  · show ((2 ^ k * ((a.base + (2 ^ k - 1)) / 2 ^ k) : Nat) : Int) + sz ≤ _
    rw [hal]
    have : ((2 ^ k * ((a.base + (2 ^ k - 1)) / 2 ^ k) : Nat) : Int) ≤
        ((a.base + (2 ^ k - 1) : Nat) : Int) := Int.ofNat_le.mpr r3
    omega
  · show (some _ : Option (List (Nat × slice))).bind _ = _
    rw [Option.some_bind, mapLookup_mapInsert]
  · intro hds f op env
    apply asyncRWAio_aligned
    · show 0 < sz
      omega
    · show 0 < W.c.align
      rw [hal]; omega
    · show W.c.align < _
      rw [hal]; omega
    · exact hds
    · exact hdvd

/-- Witness for C10: `AllocBuf(4096)` in `aioWorld` (alignment 512 = 2^9) with the
allocation placed at address 1000 returns a buffer at 1024. -/
theorem C10_allocBuf_aligned_witness :
    ∃ W2, AllocBuf aioWorld 4096 { base := 1000 } =
      some (W2, { Data := 1024, Len := 4096, Cap := 4096 }) := by
  obtain ⟨W2, buf, h, -⟩ := C10_allocBuf_aligned aioWorld 4096 { base := 1000 } 9 []
    rfl rfl rfl (by decide) (by decide) (by decide) (by decide)
  have hb : buf = { Data := 1024, Len := 4096, Cap := 4096 } := by
    have h2 : AllocBuf aioWorld 4096 { base := 1000 } =
        some (((AllocBuf aioWorld 4096 { base := 1000 }).map Prod.fst).getD aioWorld,
          { Data := 1024, Len := 4096, Cap := 4096 }) := rfl
    rw [h2] at h
    simp only [Option.some.injEq, Prod.mk.injEq] at h
    exact h.2.symm
  exact ⟨W2, hb ▸ h⟩

/-! ## C11: allocation through the pool hook -/

/-- C11 fails on the code.  In Linux-AIO mode the hook is asked for `sz + align - 1` bytes but
its answer is compared with `sz`: a hook that returns exactly the 1023 bytes asked for makes
`AllocBuf(512)` panic (`make([]uint8, 512 - 1023)`), and a hook that returns 512 bytes is taken
as it is, so after the alignment shift the buffer returned has length 1.  In io_uring mode a
hook that returns 1024 bytes makes `AllocBuf(512)` panic in the same way. -/
theorem C11_pool_hook_length :
    AllocBuf aioHooked 512 {} = none ∧
    (AllocBuf aioFixedHooked 512 {}).map (fun r => r.2.Len) = some 1 ∧
    AllocBuf uringLongHooked 512 {} = none := by
  refine ⟨rfl, rfl, rfl⟩

/-! ## C12: releasing an aligned buffer -/

theorem zeroLoop_apply (d n : Nat) (mem : Nat → Nat) (i : Nat) :
    zeroLoop d n mem i = if d ≤ i ∧ i < d + n then 0 else mem i := by
  induction n with
  | zero =>
    have : ¬ (d ≤ i ∧ i < d) := by omega
    simp [zeroLoop, this]
  | succ n ih =>
    unfold zeroLoop
    by_cases h : i = d + n
    · subst h
      have : d ≤ d + n ∧ d + n < d + (n + 1) := by omega
      simp [this]
    · rw [Function.update_noteq h, ih]
      by_cases h2 : d ≤ i ∧ i < d + n
      · have : d ≤ i ∧ i < d + (n + 1) := by omega
        simp [h2, this]
      · have : ¬ (d ≤ i ∧ i < d + (n + 1)) := by omega
        simp [h2, this]

theorem mapDelete_fresh {α : Type} (m : List (Nat × α)) (k : Nat)
    (h : mapLookup m k = none) : mapDelete m k = m := by
  induction m with
  | nil => rfl
  | cons kv rest ih =>
    obtain ⟨k1, v⟩ := kv
    unfold mapLookup at h
    by_cases hk : k1 = k
    · simp [hk] at h
    · rw [if_neg hk] at h
      unfold mapDelete at ih ⊢
      rw [List.filter_cons_of_pos (by simpa using hk), ih h]

theorem mapDelete_mapInsert_fresh {α : Type} (m : List (Nat × α)) (k : Nat) (v : α)
    (h : mapLookup m k = none) : mapDelete (mapInsert m k v) k = m := by
  unfold mapInsert
  have : mapDelete ((k, v) :: mapDelete m k) k = mapDelete (mapDelete m k) k := by
    unfold mapDelete
    rw [List.filter_cons_of_neg (by simp)]
  rw [this, mapDelete_fresh m k h, mapDelete_fresh m k h]

theorem releaseBuf_registered (W : World) (b : Buf) (m : List (Nat × slice)) (orig : slice)
    (hm : W.c.alignedBuffers = some m) (hlen : 0 < b.Len)
    (hl : mapLookup m b.Data = some orig) (hcap : 0 ≤ orig.cap) :
    releaseBuf W b = some
      { W with
        c := { W.c with alignedBuffers := some (mapDelete m b.Data) }
        mem := zeroLoop orig.b orig.len.toNat W.mem
        released :=
          if W.c.bufReleaser then { Data := orig.b, Len := 0, Cap := orig.cap } :: W.released
          else W.released } := by
  unfold releaseBuf
  rw [hm]
  dsimp only
  rw [if_neg (by omega), hl]
  dsimp only
  rw [if_neg (by omega)]
  by_cases hr : W.c.bufReleaser = true
  · rw [if_pos hr, if_pos hr]
  · rw [if_neg hr, if_neg hr]

/-- C12. In Linux-AIO mode, let `AllocBuf` return the buffer `b` (a slice: its length is
within its capacity), its aligned start not being a key of the aligned-buffer table before the
call.  Then `ReleaseBuf(b)` returns, every byte of the original, un-shifted allocation is zero
afterwards and no other byte changes, the aligned-buffer table is the one before the
`AllocBuf` call, and the releaser hook, if installed, receives one slice: length 0, based at
the original allocation, with its capacity. -/
theorem C12_release_undoes_alloc (W W1 : World) (sz : Int) (a : Alloc) (b : Buf)
    (hmode : W.c.asyncMode = asyncAio)
    (halloc : AllocBuf W sz a = some (W1, b))
    (hfresh : ∀ m, W.c.alignedBuffers = some m → mapLookup m b.Data = none)
    (hslice : b.Len ≤ b.Cap) :
    ∃ orig W2, alloc W.c sz (sz + W.c.align - 1) a = some orig ∧
      ReleaseBuf W1 b = some W2 ∧
      (∀ i, orig.Data ≤ i → i < orig.Data + orig.Len.toNat → W2.mem i = 0) ∧
      (∀ i, ¬ (orig.Data ≤ i ∧ i < orig.Data + orig.Len.toNat) → W2.mem i = W1.mem i) ∧
      W2.c.alignedBuffers = W.c.alignedBuffers ∧
      W2.released =
        (if W.c.bufReleaser then [{ Data := orig.Data, Len := 0, Cap := orig.Cap }] else [])
          ++ W1.released := by
  have hne : ¬ W.c.asyncMode = asyncIoUring := by rw [hmode]; decide
  unfold AllocBuf allocBuf at halloc
  rw [if_neg hne] at halloc
  cases horig : alloc W.c sz (sz + W.c.align - 1) a with
  | none => rw [horig] at halloc; simp at halloc
  | some orig =>
    rw [horig] at halloc
    dsimp only at halloc
    by_cases h1 : orig.Len ≤ 0
    · rw [if_pos h1] at halloc; simp at halloc
    rw [if_neg h1] at halloc
    by_cases h2 : orig.Len - (W.c.align - 1) ≤ 0
    · rw [if_pos h2] at halloc; simp at halloc
    rw [if_neg h2] at halloc
    cases hm : W.c.alignedBuffers with
    | none => rw [hm] at halloc; simp at halloc
    | some m =>
      rw [hm] at halloc
      simp only [Option.some.injEq, Prod.mk.injEq] at halloc
      obtain ⟨hW1, hb⟩ := halloc
      subst hW1
      have hfr := hfresh m hm
      subst hb
      dsimp only at hfr hslice
      generalize (orig.Data + uint64 (W.c.align - 1)) % 18446744073709551616 &&&
        not64 ((uint64 W.c.align + 18446744073709551615) % 18446744073709551616) = d at hfr ⊢
      have hrel := releaseBuf_registered
        { W with c := { W.c with alignedBuffers := some (mapInsert m d
            { b := orig.Data, len := orig.Len, cap := orig.Cap }) } }
        { Data := d, Len := orig.Len - (W.c.align - 1), Cap := orig.Cap - (W.c.align - 1) }
        (mapInsert m d { b := orig.Data, len := orig.Len, cap := orig.Cap })
        { b := orig.Data, len := orig.Len, cap := orig.Cap }
        rfl (by dsimp only; omega) (mapLookup_mapInsert m _ _) (by dsimp only; omega)
      refine ⟨orig, _, rfl, hrel, ?_, ?_, ?_, ?_⟩
      · intro i hi1 hi2
        dsimp only
        rw [zeroLoop_apply, if_pos ⟨hi1, hi2⟩]
      · intro i hi
        dsimp only
        rw [zeroLoop_apply, if_neg hi]
      · dsimp only
        rw [mapDelete_mapInsert_fresh m _ _ hfr]
      · dsimp only
        by_cases hr : W.c.bufReleaser = true
        · simp [hr]
        · simp [hr]

/-- Witness for C12: `AllocBuf(512)` in `aioWorld` with the array at address 4097, then
`ReleaseBuf`. -/
theorem C12_release_undoes_alloc_witness :
    ∃ orig W2, alloc aioWorld.c 512 (512 + aioWorld.c.align - 1) { base := 4097 } = some orig ∧
      ReleaseBuf allocRun.1 allocRun.2 = some W2 ∧
      (∀ i, orig.Data ≤ i → i < orig.Data + orig.Len.toNat → W2.mem i = 0) ∧
      (∀ i, ¬ (orig.Data ≤ i ∧ i < orig.Data + orig.Len.toNat) → W2.mem i = allocRun.1.mem i) ∧
      W2.c.alignedBuffers = aioWorld.c.alignedBuffers ∧
      W2.released =
        (if aioWorld.c.bufReleaser then [{ Data := orig.Data, Len := 0, Cap := orig.Cap }] else [])
          ++ allocRun.1.released :=
  C12_release_undoes_alloc aioWorld allocRun.1 512 { base := 4097 } allocRun.2 rfl rfl
    (fun m hm => by
      have : m = [] := by
        have h : aioWorld.c.alignedBuffers = some [] := rfl
        rw [h] at hm; exact (Option.some.inj hm).symm
      subst this; rfl)
    (by decide)

/-! ## C13: `Seek` on an idle async-mode file -/

/-- C13 as stated fails when the last operation completed with a negative result.  In the run
`seekAfterFailure` the file is in async mode and complete (nothing is outstanding) and the
operating system would seek without error, yet `Seek(100, 0)` returns `(0, async error: -5)`,
issues no seek and leaves the position and `lastOp` as they were. -/
theorem C13_counterexample :
    seekAfterFailure.map (fun r =>
      (r.1.mode, r.1.lastAsyncOpState.complete, r.1.lastAsyncOpState.lastOp, r.1.pos,
        r.2.1.lastAsyncOpState.lastOp, r.2.1.pos, r.2.2.1, r.2.2.2)) =
      some (ModeAsync, true, OpWrite, -5, OpWrite, -5,
        (0, some (Error.asyncError (-5))), []) := by
  rfl

/-- C13 (amended). For an async-mode file that is complete (nothing is outstanding).
(1) When its last operation, if any, left a non-negative result, the operating-system seek
succeeds and returns `n`, and `whence` is one of 0, 1, 2: `Seek(offset, whence)` issues that
one seek, sets the logical position to `offset` (whence 0), to the old position plus `offset`
(whence 1) or to `n` (whence 2), returns the new position with no error and resets `lastOp`
to `OpUnknown`; the rest of the file record and every other file are unchanged.
(2) When its last operation completed with a negative result, `Seek` returns
`(0, async error: result)`, the error of `checkAsyncResult`, and the state after the call is
the state before it: no seek is issued, and the position and `lastOp` are kept. -/
theorem C13_seek_idle_async (W : World) (f : Nat) (pos whence : Int) (env : Env)
    (hmode : (W.files f).mode = ModeAsync)
    (hcomplete : (W.files f).lastAsyncOpState.complete = true) :
    (((W.files f).lastAsyncOpState.lastOp = OpUnknown ∨
        0 ≤ (W.files f).lastAsyncOpState.result) →
      env.seekErr = none →
      (whence = 0 ∨ whence = 1 ∨ whence = 2) →
      ∃ W2, Seek W f pos whence env =
          some (W2, (if whence = 0 then pos else if whence = 1 then (W.files f).pos + pos
                     else env.seekN), none) ∧
        W2.files f =
          { W.files f with
            pos := if whence = 0 then pos else if whence = 1 then (W.files f).pos + pos
                   else env.seekN
            lastAsyncOpState := { (W.files f).lastAsyncOpState with lastOp := OpUnknown } } ∧
        (∀ g, g ≠ f → W2.files g = W.files g) ∧
        W2.c = W.c ∧
        W2.k.seeks = ((W.files f).fd, pos, whence) :: W.k.seeks) ∧
    ((W.files f).lastAsyncOpState.lastOp ≠ OpUnknown →
      (W.files f).lastAsyncOpState.result < 0 →
      Seek W f pos whence env =
        some (W, 0, some (Error.asyncError (W.files f).lastAsyncOpState.result))) := by
  have hne : ¬ (W.files f).mode = ModeSync := by rw [hmode]; decide
  constructor
  · intro hres hseek hwhence
    have hcr : checkAsyncResult W f env = some (W, none) :=
      checkAsyncResult_idle_ok env (hres.imp id fun h => ⟨hcomplete, h⟩)
    have hS : Seek W f pos whence env =
        some (setFile (sysSeek W (W.files f).fd pos whence env) f
          { seekPos (W.files f) pos whence env.seekN with
            lastAsyncOpState :=
              { (seekPos (W.files f) pos whence env.seekN).lastAsyncOpState with
                lastOp := OpUnknown } },
          (seekPos (W.files f) pos whence env.seekN).pos, none) := by
      unfold Seek
      rw [if_neg hne, hcr]
      dsimp only
      rw [hcomplete, hseek]
      simp only [Bool.not_true, Bool.false_eq_true, if_false, if_pos hwhence]
    have hP : seekPos (W.files f) pos whence env.seekN =
        { W.files f with
          pos := if whence = 0 then pos else if whence = 1 then (W.files f).pos + pos
                 else env.seekN } := by
      unfold seekPos
      rcases hwhence with h | h | h <;> subst h <;> simp
    rw [hP] at hS
    refine ⟨_, hS, ?_, ?_, rfl, ?_⟩
    · unfold setFile
      simp only [Function.update_same]
    · intro g hg
      unfold setFile
      simp only [Function.update_noteq hg]
      rfl
    · unfold setFile sysSeek
      rfl
  · intro hop hneg
    unfold Seek
    rw [if_neg hne, checkAsyncResult_failed env hmode hop hcomplete hneg]

/-- Witness for C13 (amended): `Seek(100, 1)` on the idle file 0 of `aioWorld`, and
`Seek(100, 0)` on file 0 of `aioFailedW`, whose write completed with -5. -/
theorem C13_seek_idle_async_witness :
    (∃ W2, Seek aioWorld 0 100 1 { seekN := 100 } = some (W2, 100, none) ∧
      W2.files 0 = { aioWorld.files 0 with pos := 100 } ∧
      (∀ g, g ≠ 0 → W2.files g = aioWorld.files g) ∧
      W2.c = aioWorld.c ∧
      W2.k.seeks = [(3, 100, 1)]) ∧
    Seek aioFailedW 0 100 0 { seekN := 100 } =
      some (aioFailedW, 0, some (Error.asyncError (-5))) :=
  ⟨(C13_seek_idle_async aioWorld 0 100 1 { seekN := 100 } rfl rfl).1 (Or.inl rfl) rfl
      (Or.inr (Or.inl rfl)),
    (C13_seek_idle_async aioFailedW 0 100 0 { seekN := 100 } rfl rfl).2 (by decide)
      (by decide)⟩

/-! ## C14: `Stat` -/

/-- C14 as stated fails when the last operation completed with a negative result: in the run
`statAfterFailure` the operation is complete, yet `Stat` returns `async error: -5` and not the
result of the operating system's stat call. -/
theorem C14_counterexample :
    statAfterFailure = some (true, some (Error.asyncError (-5))) := by
  decide

/-- C14 (amended). For an async-mode file.  (1) Complete, with no operation started or a
non-negative result: `Stat` returns what the operating system's stat call returns and changes
nothing.  (2) Complete with a negative result `r`: `Stat` returns `async error: r`.  (3) Not
complete and `lastOp` reset to `OpUnknown`: `Stat` returns `ErrNotCompleted` without
harvesting.  (4) An operation outstanding: `Stat` runs one harvest; it returns the harvest's
error if there is one, `ErrNotCompleted` if the file is still not complete, `async error: r`
if the harvest completed the operation with a negative result `r`, and otherwise what the
stat call returns. -/
theorem C14_stat_async_file (W : World) (f : Nat) (env : Env)
    (hmode : (W.files f).mode = ModeAsync) :
    ((W.files f).lastAsyncOpState.complete = true →
      ((W.files f).lastAsyncOpState.lastOp = OpUnknown ∨
        0 ≤ (W.files f).lastAsyncOpState.result) →
      Stat W f env = some (W, env.statErr)) ∧
    ((W.files f).lastAsyncOpState.complete = true →
      (W.files f).lastAsyncOpState.lastOp ≠ OpUnknown →
      (W.files f).lastAsyncOpState.result < 0 →
      Stat W f env = some (W, some (Error.asyncError (W.files f).lastAsyncOpState.result))) ∧
    ((W.files f).lastAsyncOpState.complete = false →
      (W.files f).lastAsyncOpState.lastOp = OpUnknown →
      Stat W f env = some (W, some Error.ErrNotCompleted)) ∧
    ((W.files f).lastAsyncOpState.complete = false →
      (W.files f).lastAsyncOpState.lastOp ≠ OpUnknown →
      ∀ W1 he, fillOpState W env = some (W1, he) →
        Stat W f env = some (W1,
          match he with
          | some err => some err
          | none =>
            if (W1.files f).lastAsyncOpState.complete = false then some Error.ErrNotCompleted
            else if (W1.files f).lastAsyncOpState.result < 0 then
              some (Error.asyncError (W1.files f).lastAsyncOpState.result)
            else env.statErr)) := by
  have hne : ¬ (W.files f).mode = ModeSync := by rw [hmode]; decide
  refine ⟨?_, ?_, ?_, ?_⟩
  · intro hc hr
    have hcr : checkAsyncResult W f env = some (W, none) :=
      checkAsyncResult_idle_ok env (hr.imp id fun h => ⟨hc, h⟩)
    unfold Stat
    rw [hcr]
    simp [hc]
  · intro hc hop hr
    unfold Stat checkAsyncResult
    simp [hne, hop, hc, hr]
  · intro hc hop
    unfold Stat checkAsyncResult
    simp [hne, hop, hc]
  · intro hc hop W1 he hf
    unfold Stat checkAsyncResult
    rw [if_neg hne, if_neg hop, hc]
    simp only [Bool.not_false, if_true, hf]
    cases he with
    | some err => rfl
    | none =>
      dsimp only
      by_cases h1 : (W1.files f).lastAsyncOpState.complete = false
      · simp [h1]
      · have h1t : (W1.files f).lastAsyncOpState.complete = true := by simpa using h1
        by_cases h2 : (W1.files f).lastAsyncOpState.result < 0
        · simp [h1t, h2]
        · simp [h1t, h2]

/-- Witness for C14 (amended): the idle file 0 of `aioWorld`. -/
theorem C14_stat_async_file_witness : Stat aioWorld 0 {} = some (aioWorld, none) :=
  (C14_stat_async_file aioWorld 0 {} rfl).1 rfl (Or.inl rfl)

/-! ## C15: the file record `Open` returns -/

/-- C15 fails on the code for a sync-mode file.  `Open` with `ModeSync` succeeds and returns a
file with `lastOp = OpUnknown` and position 0 but `complete = false`: only the `ModeAsync`
case of `open` assigns `complete = true` (the same call with `ModeAsync` returns
`complete = true`).  The first `Stat` on the new sync-mode file is then refused with
`ErrNotCompleted`. -/
theorem C15_open_sync_not_complete :
    (Open aioWorld 578 ModeSync { ptr := 7, openFd := 5 }).2 = (some 7, none) ∧
    (openedSync.files 7).mode = ModeSync ∧
    (openedSync.files 7).lastAsyncOpState.lastOp = OpUnknown ∧
    (openedSync.files 7).pos = 0 ∧
    (openedSync.files 7).lastAsyncOpState.complete = false ∧
    Stat openedSync 7 {} = some (openedSync, some Error.ErrNotCompleted) ∧
    (openedAsync.files 7).lastAsyncOpState.complete = true ∧
    Stat openedAsync 7 {} = some (openedAsync, none) := by
  refine ⟨rfl, rfl, rfl, rfl, rfl, rfl, rfl, rfl⟩

/-! ## C16: `Open` with an unknown mode -/

/-- C16. For every open-mode value other than `ModeSync` (1) and `ModeAsync` (2), `Open`
returns no file and the error `unknown type`, and leaves the world as it was: in particular
the kernel has received no call. -/
theorem C16_open_unknown_mode (W : World) (flag fType : Nat) (env : Env)
    (hs : fType ≠ ModeSync) (ha : fType ≠ ModeAsync) :
    Open W flag fType env = (W, none, some (Error.unknownType fType)) ∧
    (Open W flag fType env).1.k.trace = W.k.trace := by
  unfold Open fileOpen
  rw [if_neg ha, if_neg hs]
  exact ⟨rfl, rfl⟩

/-- Witness for C16: open mode 3. -/
theorem C16_open_unknown_mode_witness :
    Open aioWorld 578 3 {} = (aioWorld, none, some (Error.unknownType 3)) ∧
    (Open aioWorld 578 3 {}).1.k.trace = aioWorld.k.trace :=
  C16_open_unknown_mode aioWorld 578 3 {} (by decide) (by decide)

/-! ## C17: the Linux AIO harvest -/

theorem mapLookup_mapDelete {α : Type} (m : List (Nat × α)) (k k1 : Nat) :
    mapLookup (mapDelete m k) k1 = if k1 = k then none else mapLookup m k1 := by
  induction m with
  | nil => simp [mapDelete, mapLookup]
  | cons kv rest ih =>
    obtain ⟨k0, v⟩ := kv
    unfold mapDelete at ih ⊢
    by_cases h0 : k0 = k
    · subst h0
      rw [List.filter_cons_of_neg (by simp), ih]
      by_cases h1 : k1 = k0
      · simp [h1]
      · have : ¬ k0 = k1 := fun h => h1 h.symm
        simp [h1, mapLookup, this]
    · rw [List.filter_cons_of_pos (by simpa using h0)]
      unfold mapLookup
      by_cases h2 : k0 = k1
      · subst h2; simp [h0]
      · rw [if_neg h2, if_neg h2]; exact ih

theorem applyAioEvent_of_none {W : World} {e : aioEvent}
    (h : mapLookup W.c.operationsFd e.obj = none) : applyAioEvent W e = W := by
  unfold applyAioEvent
  rw [h]

theorem applyAioEvent_of_some {W : World} {e : aioEvent} {fd : Nat}
    (h : mapLookup W.c.operationsFd e.obj = some fd) :
    ((applyAioEvent W e).files fd).lastAsyncOpState.result = e.res ∧
    ((applyAioEvent W e).files fd).pos = (W.aiocbs e.obj).aioOffset + e.res ∧
    ((applyAioEvent W e).files fd).lastAsyncOpState.complete = true ∧
    (∀ g, g ≠ fd → (applyAioEvent W e).files g = W.files g) ∧
    (applyAioEvent W e).c.operationsFd = mapDelete W.c.operationsFd e.obj := by
  unfold applyAioEvent
  rw [h]
  refine ⟨?_, ?_, ?_, ?_, rfl⟩
  · simp
  · simp
  · simp
  · intro g hg
    simp [Function.update_noteq hg]

theorem applyAioEvent_frame (W : World) (e : aioEvent) :
    (applyAioEvent W e).aiocbs = W.aiocbs ∧ (applyAioEvent W e).c.sz = W.c.sz := by
  unfold applyAioEvent
  split <;> exact ⟨rfl, rfl⟩

theorem foldl_applyAioEvent_frame (evs : List aioEvent) (W : World) :
    (evs.foldl applyAioEvent W).aiocbs = W.aiocbs ∧
    (evs.foldl applyAioEvent W).c.sz = W.c.sz := by
  induction evs generalizing W with
  | nil => exact ⟨rfl, rfl⟩
  | cons e rest ih =>
    rw [List.foldl_cons]
    exact ⟨(ih _).1.trans (applyAioEvent_frame W e).1, (ih _).2.trans (applyAioEvent_frame W e).2⟩

theorem applyAioEvent_withKernel (W : World) (k : Kernel) (e : aioEvent) :
    applyAioEvent (withKernel W k) e = withKernel (applyAioEvent W e) k := by
  unfold applyAioEvent withKernel
  dsimp only
  split <;> rfl

theorem foldl_applyAioEvent_withKernel (evs : List aioEvent) (W : World) (k : Kernel) :
    evs.foldl applyAioEvent (withKernel W k) = withKernel (evs.foldl applyAioEvent W) k := by
  induction evs generalizing W with
  | nil => rfl
  | cons e rest ih => rw [List.foldl_cons, List.foldl_cons, applyAioEvent_withKernel, ih]

theorem filterMap_sublist_of_le {α β : Type} (f g : α → Option β) (l : List α)
    (h : ∀ x, g x = f x ∨ g x = none) : (l.filterMap g).Sublist (l.filterMap f) := by
  induction l with
  | nil => exact List.Sublist.refl _
  | cons x rest ih =>
    rcases h x with hx | hx
    · cases hfx : f x with
      | none => rw [List.filterMap_cons_none (hx.trans hfx), List.filterMap_cons_none hfx]; exact ih
      | some b =>
        rw [List.filterMap_cons_some (hx.trans hfx), List.filterMap_cons_some hfx]
        exact ih.cons₂ b
    · rw [List.filterMap_cons_none hx]
      cases hfx : f x with
      | none => rw [List.filterMap_cons_none hfx]; exact ih
      | some b => rw [List.filterMap_cons_some hfx]; exact ih.cons b

theorem applyAioEvent_lookup (W : World) (e : aioEvent) (k : Nat) :
    (mapLookup (applyAioEvent W e).c.operationsFd k =
      if k = e.obj then none else mapLookup W.c.operationsFd k) ∨
    (mapLookup W.c.operationsFd e.obj = none ∧ applyAioEvent W e = W) := by
  cases h : mapLookup W.c.operationsFd e.obj with
  | none => exact Or.inr ⟨rfl, applyAioEvent_of_none h⟩
  | some fd =>
    left
    rw [(applyAioEvent_of_some h).2.2.2.2, mapLookup_mapDelete]

theorem applyAioEvent_lookup_le (W : World) (e : aioEvent) (k : Nat) :
    mapLookup (applyAioEvent W e).c.operationsFd k = mapLookup W.c.operationsFd k ∨
    mapLookup (applyAioEvent W e).c.operationsFd k = none := by
  rcases applyAioEvent_lookup W e k with h | ⟨-, h⟩
  · by_cases hk : k = e.obj
    · right; rw [h, if_pos hk]
    · left; rw [h, if_neg hk]
  · left; rw [h]

theorem foldl_applyAioEvent_absent (evs : List aioEvent) (W : World) (k : Nat)
    (h : mapLookup W.c.operationsFd k = none) :
    mapLookup (evs.foldl applyAioEvent W).c.operationsFd k = none := by
  induction evs generalizing W with
  | nil => exact h
  | cons e rest ih =>
    rw [List.foldl_cons]
    apply ih
    rcases applyAioEvent_lookup_le W e k with h1 | h1
    · rw [h1, h]
    · exact h1

theorem foldl_applyAioEvent_other_key (evs : List aioEvent) (W : World) (k : Nat)
    (h : ∀ e ∈ evs, e.obj ≠ k) :
    mapLookup (evs.foldl applyAioEvent W).c.operationsFd k = mapLookup W.c.operationsFd k := by
  induction evs generalizing W with
  | nil => rfl
  | cons e rest ih =>
    rw [List.foldl_cons, ih _ (fun e1 he1 => h e1 (List.mem_cons_of_mem _ he1))]
    have hk : ¬ k = e.obj := fun hk => h e (List.mem_cons_self _ _) hk.symm
    rcases applyAioEvent_lookup W e k with h1 | ⟨-, h1⟩
    · rw [h1, if_neg hk]
    · rw [h1]

theorem foldl_applyAioEvent_other_file (evs : List aioEvent) (W : World) (g : Nat)
    (h : ∀ e ∈ evs, mapLookup W.c.operationsFd e.obj ≠ some g) :
    (evs.foldl applyAioEvent W).files g = W.files g := by
  induction evs generalizing W with
  | nil => rfl
  | cons e rest ih =>
    rw [List.foldl_cons]
    have hrest : ∀ e1 ∈ rest, mapLookup (applyAioEvent W e).c.operationsFd e1.obj ≠ some g := by
      intro e1 he1 hc
      rcases applyAioEvent_lookup_le W e e1.obj with h1 | h1
      · exact h e1 (List.mem_cons_of_mem _ he1) (h1 ▸ hc)
      · rw [h1] at hc; exact absurd hc (by simp)
    rw [ih _ hrest]
    cases hl : mapLookup W.c.operationsFd e.obj with
    | none => rw [applyAioEvent_of_none hl]
    | some fd =>
      have hne : g ≠ fd := by
        intro hg
        exact h e (List.mem_cons_self _ _) (hg ▸ hl)
      exact (applyAioEvent_of_some hl).2.2.2.1 g hne

theorem foldl_applyAioEvent_owner (evs : List aioEvent) (W : World)
    (hone : (evs.filterMap fun e => mapLookup W.c.operationsFd e.obj).Nodup)
    (e : aioEvent) (he : e ∈ evs) (fd : Nat)
    (hfd : mapLookup W.c.operationsFd e.obj = some fd) :
    ((evs.foldl applyAioEvent W).files fd).lastAsyncOpState.result = e.res ∧
    ((evs.foldl applyAioEvent W).files fd).pos = (W.aiocbs e.obj).aioOffset + e.res ∧
    ((evs.foldl applyAioEvent W).files fd).lastAsyncOpState.complete = true ∧
    mapLookup (evs.foldl applyAioEvent W).c.operationsFd e.obj = none := by
  induction evs generalizing W with
  | nil => exact absurd he (List.not_mem_nil _)
  | cons e0 rest ih =>
    rw [List.foldl_cons]
    have hsub : (rest.filterMap fun e1 =>
        mapLookup (applyAioEvent W e0).c.operationsFd e1.obj).Sublist
        (rest.filterMap fun e1 => mapLookup W.c.operationsFd e1.obj) :=
      filterMap_sublist_of_le _ _ rest (fun x => applyAioEvent_lookup_le W e0 x.obj)
    cases hl0 : mapLookup W.c.operationsFd e0.obj with
    | none =>
      rw [List.filterMap_cons] at hone
      simp only [hl0] at hone
      have hW : applyAioEvent W e0 = W := applyAioEvent_of_none hl0
      rcases List.mem_cons.mp he with h0 | hmem
      · subst h0; rw [hl0] at hfd; exact absurd hfd (by simp)
      · rw [hW]; exact ih W hone hmem hfd
    | some fd0 =>
      rw [List.filterMap_cons] at hone
      simp only [hl0, List.nodup_cons] at hone
      obtain ⟨hnot, hnd⟩ := hone
      have hstep := applyAioEvent_of_some hl0
      by_cases hobj : e.obj = e0.obj
      · -- the event is the head, or repeats its key
        have hfd0 : fd0 = fd := by
          rw [hobj, hl0] at hfd; exact Option.some.inj hfd
        subst hfd0
        have hrest : ∀ e1 ∈ rest,
            mapLookup (applyAioEvent W e0).c.operationsFd e1.obj ≠ some fd0 := by
          intro e1 he1 hc
          apply hnot
          rw [List.mem_filterMap]
          refine ⟨e1, he1, ?_⟩
          rcases applyAioEvent_lookup_le W e0 e1.obj with h1 | h1
          · exact h1 ▸ hc
          · rw [h1] at hc; exact absurd hc (by simp)
        rcases List.mem_cons.mp he with h0 | hmem
        · subst h0
          rw [foldl_applyAioEvent_other_file rest _ fd0 hrest]
          refine ⟨hstep.1, hstep.2.1, hstep.2.2.1, ?_⟩
          apply foldl_applyAioEvent_absent
          rw [hstep.2.2.2.2, mapLookup_mapDelete, if_pos rfl]
        · exfalso
          apply hnot
          rw [List.mem_filterMap]
          exact ⟨e, hmem, hfd⟩
      · have hmem : e ∈ rest := by
          rcases List.mem_cons.mp he with h0 | hmem
          · exact absurd (congrArg aioEvent.obj h0) hobj
          · exact hmem
        have hfd1 : mapLookup (applyAioEvent W e0).c.operationsFd e.obj = some fd := by
          rw [hstep.2.2.2.2, mapLookup_mapDelete, if_neg hobj]; exact hfd
        have := ih (applyAioEvent W e0) (hnd.sublist hsub) hmem hfd1
        rw [(applyAioEvent_frame W e0).1] at this
        exact this

theorem aioBatch_congr {c1 c2 : ctx} (h : c1.sz = c2.sz) : aioBatch c1 = aioBatch c2 := by
  unfold aioBatch; rw [h]

theorem fillStatesAio_delivered (gs : List GetEvents) (W : World) (hsz : 0 < W.c.sz) :
    ∃ k err, fillStatesAio W gs =
      some (withKernel ((aioDelivered (aioBatch W.c).toNat gs).foldl applyAioEvent W) k, err) := by
  have hb : ∀ W1 : World, 0 < W1.c.sz → ¬ aioBatch W1.c ≤ 0 := by
    intro W1 h
    unfold aioBatch
    split_ifs <;> omega
  induction gs generalizing W with
  | nil =>
    refine ⟨W.k, none, ?_⟩
    unfold fillStatesAio
    rw [if_neg (hb W hsz)]
    rfl
  | cons g gs ih =>
    unfold fillStatesAio aioDelivered
    rw [if_neg (hb W hsz)]
    by_cases he : g.e1 ≠ 0
    · rw [if_pos he, if_pos he]
      exact ⟨W.k, _, rfl⟩
    · rw [if_neg he, if_neg he]
      dsimp only
      by_cases h0 : 0 < (g.events.take (aioBatch W.c).toNat).length
      · rw [if_pos h0]
        by_cases h1 : (aioBatch W.c).toNat ≤ (g.events.take (aioBatch W.c).toNat).length
        · rw [if_pos h1, if_pos ⟨h0, h1⟩]
          have hW1 : sysIoGetevents W (g.events.take (aioBatch W.c).toNat) =
              withKernel W (sysIoGetevents W (g.events.take (aioBatch W.c).toNat)).k := rfl
          rw [hW1, foldl_applyAioEvent_withKernel]
          have hsz2 : (withKernel ((g.events.take (aioBatch W.c).toNat).foldl applyAioEvent W)
              (sysIoGetevents W (g.events.take (aioBatch W.c).toNat)).k).c.sz = W.c.sz :=
            (foldl_applyAioEvent_frame _ W).2
          obtain ⟨k, err, hk⟩ := ih _ (hsz2 ▸ hsz)
          have hbatch : aioBatch (withKernel ((g.events.take (aioBatch W.c).toNat).foldl
              applyAioEvent W) (sysIoGetevents W (g.events.take (aioBatch W.c).toNat)).k).c =
              aioBatch W.c := aioBatch_congr hsz2
          rw [hbatch] at hk
          refine ⟨k, err, ?_⟩
          rw [hk, foldl_applyAioEvent_withKernel, List.foldl_append]
          rfl
        · rw [if_neg h1, if_neg (fun h => h1 h.2)]
          have hW1 : sysIoGetevents W (g.events.take (aioBatch W.c).toNat) =
              withKernel W (sysIoGetevents W (g.events.take (aioBatch W.c).toNat)).k := rfl
          rw [hW1, foldl_applyAioEvent_withKernel]
          exact ⟨_, _, rfl⟩
      · rw [if_neg h0, if_neg (fun h => h0 h.1)]
        have hnil : g.events.take (aioBatch W.c).toNat = [] := by
          apply List.eq_nil_of_length_eq_zero; omega
        rw [hnil]
        exact ⟨_, _, rfl⟩

theorem harvestedBy_eq_filter {α : Type} (key : α → Nat) (fd : Nat) (t : List (Nat × Nat))
    (xs : List α) (hnd : (xs.map key).Nodup) :
    harvestedBy key fd t xs = xs.filter (fun x => decide (mapLookup t (key x) = some fd)) := by
  induction xs generalizing t with
  | nil => rfl
  | cons x xs ih =>
    rw [List.map_cons, List.nodup_cons] at hnd
    obtain ⟨hx, hnd⟩ := hnd
    have hcongr : xs.filter (fun y => decide (mapLookup (mapDelete t (key x)) (key y) = some fd)) =
        xs.filter (fun y => decide (mapLookup t (key y) = some fd)) := by
      apply List.filter_congr
      intro y hy
      have hne : ¬ key y = key x := fun h => hx (h ▸ List.mem_map_of_mem key hy)
      rw [mapLookup_mapDelete, if_neg hne]
    unfold harvestedBy
    cases hl : mapLookup t (key x) with
    | none =>
      dsimp only
      rw [ih t hnd, List.filter_cons_of_neg (by simp [hl])]
    | some g =>
      dsimp only
      by_cases hg : g = fd
      · rw [if_pos hg, ih _ hnd, hcongr, List.filter_cons_of_pos (by simp [hl, hg])]
      · rw [if_neg hg, ih _ hnd, hcongr, List.filter_cons_of_neg (by simp [hl, hg])]

theorem foldl_applyAioEvent_harvestedBy (evs : List aioEvent) (W : World) (fd : Nat) :
    (harvestedBy aioEvent.obj fd W.c.operationsFd evs = [] →
      (evs.foldl applyAioEvent W).files fd = W.files fd) ∧
    (∀ e, (harvestedBy aioEvent.obj fd W.c.operationsFd evs).getLast? = some e →
      ((evs.foldl applyAioEvent W).files fd).lastAsyncOpState.result = e.res ∧
      ((evs.foldl applyAioEvent W).files fd).pos = (W.aiocbs e.obj).aioOffset + e.res ∧
      ((evs.foldl applyAioEvent W).files fd).lastAsyncOpState.complete = true) := by
  induction evs generalizing W with
  | nil =>
    refine ⟨fun _ => rfl, ?_⟩
    intro e he
    simp [harvestedBy] at he
  | cons e0 rest ih =>
    rw [List.foldl_cons]
    unfold harvestedBy
    cases hl : mapLookup W.c.operationsFd e0.obj with
    | none =>
      dsimp only
      rw [applyAioEvent_of_none hl]
      exact ih W
    | some g =>
      dsimp only
      have hstep := applyAioEvent_of_some hl
      have hih := ih (applyAioEvent W e0)
      rw [hstep.2.2.2.2, (applyAioEvent_frame W e0).1] at hih
      by_cases hg : g = fd
      · subst hg
        rw [if_pos rfl]
        obtain ⟨h2, h3⟩ := hih
        refine ⟨fun h => absurd h (by simp), ?_⟩
        intro e he
        cases hrest : harvestedBy aioEvent.obj g (mapDelete W.c.operationsFd e0.obj) rest with
        | nil =>
          rw [hrest] at he
          simp only [List.getLast?_singleton, Option.some.injEq] at he
          subst he
          rw [h2 hrest]
          exact ⟨hstep.1, hstep.2.1, hstep.2.2.1⟩
        | cons y ys =>
          rw [hrest] at he h3
          rw [List.getLast?_cons_cons] at he
          exact h3 e he
      · rw [if_neg hg]
        have hfile : (applyAioEvent W e0).files fd = W.files fd :=
          hstep.2.2.2.1 fd (fun h => hg h.symm)
        rw [hfile] at hih
        exact hih

theorem foldl_applyAioEvent_lookup (evs : List aioEvent) (W : World) (k : Nat) :
    mapLookup (evs.foldl applyAioEvent W).c.operationsFd k =
      if k ∈ evs.map aioEvent.obj then none else mapLookup W.c.operationsFd k := by
  by_cases hk : k ∈ evs.map aioEvent.obj
  · rw [if_pos hk]
    induction evs generalizing W with
    | nil => simp at hk
    | cons e0 rest ih =>
      rw [List.foldl_cons]
      by_cases h0 : k = e0.obj
      · apply foldl_applyAioEvent_absent
        rcases applyAioEvent_lookup W e0 k with h1 | ⟨h1, h2⟩
        · rw [h1, if_pos h0]
        · rw [h2, h0]; exact h1
      · apply ih
        rw [List.map_cons, List.mem_cons] at hk
        exact hk.resolve_left h0
  · rw [if_neg hk]
    apply foldl_applyAioEvent_other_key
    intro e he hc
    exact hk (hc ▸ List.mem_map_of_mem aioEvent.obj he)

theorem foldl_applyAioEvent_complete (evs : List aioEvent) (W : World) (fd : Nat)
    (h : (W.files fd).lastAsyncOpState.complete = true) :
    ((evs.foldl applyAioEvent W).files fd).lastAsyncOpState.complete = true := by
  induction evs generalizing W with
  | nil => exact h
  | cons e0 rest ih =>
    rw [List.foldl_cons]
    apply ih
    cases hl : mapLookup W.c.operationsFd e0.obj with
    | none => rw [applyAioEvent_of_none hl]; exact h
    | some g =>
      by_cases hg : fd = g
      · subst hg; exact (applyAioEvent_of_some hl).2.2.1
      · rw [(applyAioEvent_of_some hl).2.2.2.1 fd hg]; exact h

theorem foldl_applyAioEvent_completes (evs : List aioEvent) (W : World) (e : aioEvent)
    (he : e ∈ evs) (fd : Nat) (hfd : mapLookup W.c.operationsFd e.obj = some fd) :
    ((evs.foldl applyAioEvent W).files fd).lastAsyncOpState.complete = true := by
  induction evs generalizing W with
  | nil => exact absurd he (List.not_mem_nil _)
  | cons e0 rest ih =>
    rw [List.foldl_cons]
    cases hl : mapLookup W.c.operationsFd e0.obj with
    | none =>
      rw [applyAioEvent_of_none hl]
      rcases List.mem_cons.mp he with h0 | hmem
      · subst h0; rw [hl] at hfd; exact absurd hfd (by simp)
      · exact ih W hmem hfd
    | some g =>
      have hstep := applyAioEvent_of_some hl
      by_cases hobj : e.obj = e0.obj
      · have hgfd : g = fd := by
          rw [hobj, hl] at hfd; exact Option.some.inj hfd
        subst hgfd
        exact foldl_applyAioEvent_complete rest _ g hstep.2.2.1
      · have hmem : e ∈ rest := by
          rcases List.mem_cons.mp he with h0 | hmem
          · exact absurd (congrArg aioEvent.obj h0) hobj
          · exact hmem
        apply ih _ hmem
        rw [hstep.2.2.2.2, mapLookup_mapDelete, if_neg hobj]; exact hfd

/-- C17. Linux AIO harvest, for a context of positive depth.  `fillStatesAio` returns, and the
events handed over by `io_getevents` during the call are applied in order: the files and the
context after the call are those after the round of the last event.  For every event
whose control block is a key of the operations table (and was not named by an earlier event of
the call), the round of the loop for that event sets the owning file's result to the event's
`res`, its position to the control block's offset plus `res` and its complete flag to true,
and removes the key; after the call the complete flag of the owning file is true and the key
is absent.  After the call the result and the position of a file are those set by the last
event applied to it (`harvestedBy`: the events whose key is in the table with this file as
owner; when the keys of the events are pairwise distinct these are exactly the events whose
key the table maps to the file), so they are the event's own for every event when no two
events of the call belong to one file.  A file with no event in the call is left as it was,
and so is every table entry whose key no event names: after the call a key is in the table
exactly when it was before and no event names it. -/
theorem C17_aio_harvest (W : World) (gs : List GetEvents) (hsz : 0 < W.c.sz) :
    ∃ W1 err, fillStatesAio W gs = some (W1, err) ∧
      W1.files = ((aioDelivered (aioBatch W.c).toNat gs).foldl applyAioEvent W).files ∧
      W1.c = ((aioDelivered (aioBatch W.c).toNat gs).foldl applyAioEvent W).c ∧
      (∀ pre e post, aioDelivered (aioBatch W.c).toNat gs = pre ++ e :: post → ∀ fd,
        mapLookup W.c.operationsFd e.obj = some fd → e.obj ∉ pre.map aioEvent.obj →
          ((applyAioEvent (pre.foldl applyAioEvent W) e).files fd).lastAsyncOpState.result =
            e.res ∧
          ((applyAioEvent (pre.foldl applyAioEvent W) e).files fd).pos =
            (W.aiocbs e.obj).aioOffset + e.res ∧
          ((applyAioEvent (pre.foldl applyAioEvent W) e).files fd).lastAsyncOpState.complete =
            true ∧
          mapLookup (applyAioEvent (pre.foldl applyAioEvent W) e).c.operationsFd e.obj = none) ∧
      (∀ e ∈ aioDelivered (aioBatch W.c).toNat gs, ∀ fd,
        mapLookup W.c.operationsFd e.obj = some fd →
          (W1.files fd).lastAsyncOpState.complete = true ∧
          mapLookup W1.c.operationsFd e.obj = none) ∧
      (∀ fd,
        (∀ e, (harvestedBy aioEvent.obj fd W.c.operationsFd
            (aioDelivered (aioBatch W.c).toNat gs)).getLast? = some e →
          (W1.files fd).lastAsyncOpState.result = e.res ∧
          (W1.files fd).pos = (W.aiocbs e.obj).aioOffset + e.res ∧
          (W1.files fd).lastAsyncOpState.complete = true) ∧
        (harvestedBy aioEvent.obj fd W.c.operationsFd
            (aioDelivered (aioBatch W.c).toNat gs) = [] →
          W1.files fd = W.files fd)) ∧
      (((aioDelivered (aioBatch W.c).toNat gs).map aioEvent.obj).Nodup → ∀ fd,
        harvestedBy aioEvent.obj fd W.c.operationsFd (aioDelivered (aioBatch W.c).toNat gs) =
          (aioDelivered (aioBatch W.c).toNat gs).filter
            (fun e => decide (mapLookup W.c.operationsFd e.obj = some fd))) ∧
      (((aioDelivered (aioBatch W.c).toNat gs).filterMap
          fun e => mapLookup W.c.operationsFd e.obj).Nodup →
        ∀ e ∈ aioDelivered (aioBatch W.c).toNat gs, ∀ fd,
          mapLookup W.c.operationsFd e.obj = some fd →
            (W1.files fd).lastAsyncOpState.result = e.res ∧
            (W1.files fd).pos = (W.aiocbs e.obj).aioOffset + e.res) ∧
      (∀ g, (∀ e ∈ aioDelivered (aioBatch W.c).toNat gs,
          mapLookup W.c.operationsFd e.obj ≠ some g) → W1.files g = W.files g) ∧
      (∀ k, mapLookup W1.c.operationsFd k =
        if k ∈ (aioDelivered (aioBatch W.c).toNat gs).map aioEvent.obj then none
        else mapLookup W.c.operationsFd k) := by
  obtain ⟨k, err, hk⟩ := fillStatesAio_delivered gs W hsz
  refine ⟨_, err, hk, rfl, rfl, ?_, ?_, ?_, ?_, ?_, ?_, ?_⟩
  · intro pre e post _ fd hfd hpre
    have hl : mapLookup (pre.foldl applyAioEvent W).c.operationsFd e.obj = some fd := by
      rw [foldl_applyAioEvent_lookup, if_neg hpre]; exact hfd
    have hstep := applyAioEvent_of_some hl
    rw [(foldl_applyAioEvent_frame pre W).1] at hstep
    refine ⟨hstep.1, hstep.2.1, hstep.2.2.1, ?_⟩
    rw [hstep.2.2.2.2, mapLookup_mapDelete, if_pos rfl]
  · intro e he fd hfd
    refine ⟨foldl_applyAioEvent_completes _ W e he fd hfd, ?_⟩
    show mapLookup ((aioDelivered (aioBatch W.c).toNat gs).foldl applyAioEvent W).c.operationsFd
      e.obj = none
    rw [foldl_applyAioEvent_lookup, if_pos (List.mem_map_of_mem aioEvent.obj he)]
  · intro fd
    obtain ⟨h1, h2⟩ := foldl_applyAioEvent_harvestedBy (aioDelivered (aioBatch W.c).toNat gs) W fd
    exact ⟨h2, h1⟩
  · intro hnd fd
    exact harvestedBy_eq_filter _ fd _ _ hnd
  · intro hone e he fd hfd
    have h := foldl_applyAioEvent_owner _ W hone e he fd hfd
    exact ⟨h.1, h.2.1⟩
  · intro g hg
    exact foldl_applyAioEvent_other_file _ W g hg
  · intro k1
    exact foldl_applyAioEvent_lookup _ W k1

/-- Witness for C17.  In `aioPendingW` the write of file 0 (control block 1000)
completes with 512 bytes; file 1 and the absent key 2000 are untouched.  In `aioTwoPendingW`
both writes of file 0 complete in one call, each with 512 bytes: the result is 512, the
position 4096 + 512 (the values of the later event), and both keys are removed. -/
theorem C17_aio_harvest_witness :
    (∃ W1 err, fillStatesAio aioPendingW doneEnv.getevents = some (W1, err) ∧
      (W1.files 0).lastAsyncOpState.result = 512 ∧
      (W1.files 0).pos = 512 ∧
      (W1.files 0).lastAsyncOpState.complete = true ∧
      mapLookup W1.c.operationsFd 1000 = none ∧
      W1.files 1 = aioPendingW.files 1) ∧
    (∃ W1 err, fillStatesAio aioTwoPendingW
        [{ events := [{ data := 512, obj := 1000, res := 512 },
                      { data := 512, obj := 2000, res := 512 }] }] = some (W1, err) ∧
      (W1.files 0).lastAsyncOpState.result = 512 ∧
      (W1.files 0).pos = 4608 ∧
      (W1.files 0).lastAsyncOpState.complete = true ∧
      mapLookup W1.c.operationsFd 1000 = none ∧
      mapLookup W1.c.operationsFd 2000 = none) := by
  constructor
  · obtain ⟨W1, err, h, -, -, -, h1, h2, -, -, h5, -⟩ :=
      C17_aio_harvest aioPendingW doneEnv.getevents (by decide)
    have he := (h2 0).1 { data := 512, obj := 1000, res := 512 } rfl
    exact ⟨W1, err, h, he.1, he.2.1.trans rfl, he.2.2,
      (h1 { data := 512, obj := 1000, res := 512 } (by decide) 0 rfl).2, h5 1 (by decide)⟩
  · obtain ⟨W1, err, h, -, -, -, h1, h2, -, -, -, -⟩ :=
      C17_aio_harvest aioTwoPendingW
        [{ events := [{ data := 512, obj := 1000, res := 512 },
                      { data := 512, obj := 2000, res := 512 }] }] (by decide)
    have he := (h2 0).1 { data := 512, obj := 2000, res := 512 } rfl
    exact ⟨W1, err, h, he.1, he.2.1.trans rfl, he.2.2,
      (h1 { data := 512, obj := 1000, res := 512 } (by decide) 0 rfl).2,
      (h1 { data := 512, obj := 2000, res := 512 } (by decide) 0 rfl).2⟩

/-! ## C18: the io_uring harvest -/

theorem applyCqe_of_none {W : World} {q : cqe}
    (h : mapLookup W.c.operationsFd q.userData = none) : applyCqe W q = W := by
  unfold applyCqe
  rw [h]

theorem applyCqe_of_some {W : World} {q : cqe} {fd : Nat}
    (h : mapLookup W.c.operationsFd q.userData = some fd) :
    ((applyCqe W q).files fd).lastAsyncOpState.result = q.res ∧
    ((applyCqe W q).files fd).pos = (W.files fd).pos + q.res ∧
    ((applyCqe W q).files fd).lastAsyncOpState.complete = true ∧
    (∀ g, g ≠ fd → (applyCqe W q).files g = W.files g) ∧
    (applyCqe W q).c.operationsFd = mapDelete W.c.operationsFd q.userData := by
  unfold applyCqe
  rw [h]
  refine ⟨?_, ?_, ?_, ?_, rfl⟩
  · simp
  · simp
  · simp
  · intro g hg
    simp [Function.update_noteq hg]

theorem applyCqe_frame (W : World) (q : cqe) :
    (applyCqe W q).c.r = W.c.r ∧ (applyCqe W q).c.currentCnt = W.c.currentCnt := by
  unfold applyCqe
  split <;> exact ⟨rfl, rfl⟩

theorem foldl_applyCqe_frame (qs : List cqe) (W : World) :
    (qs.foldl applyCqe W).c.r = W.c.r ∧
    (qs.foldl applyCqe W).c.currentCnt = W.c.currentCnt := by
  induction qs generalizing W with
  | nil => exact ⟨rfl, rfl⟩
  | cons q rest ih =>
    rw [List.foldl_cons]
    exact ⟨(ih _).1.trans (applyCqe_frame W q).1, (ih _).2.trans (applyCqe_frame W q).2⟩

theorem applyCqe_lookup (W : World) (q : cqe) (k : Nat) :
    (mapLookup (applyCqe W q).c.operationsFd k =
      if k = q.userData then none else mapLookup W.c.operationsFd k) ∨
    (mapLookup W.c.operationsFd q.userData = none ∧ applyCqe W q = W) := by
  cases h : mapLookup W.c.operationsFd q.userData with
  | none => exact Or.inr ⟨rfl, applyCqe_of_none h⟩
  | some fd =>
    left
    rw [(applyCqe_of_some h).2.2.2.2, mapLookup_mapDelete]

theorem applyCqe_lookup_le (W : World) (q : cqe) (k : Nat) :
    mapLookup (applyCqe W q).c.operationsFd k = mapLookup W.c.operationsFd k ∨
    mapLookup (applyCqe W q).c.operationsFd k = none := by
  rcases applyCqe_lookup W q k with h | ⟨-, h⟩
  · by_cases hk : k = q.userData
    · right; rw [h, if_pos hk]
    · left; rw [h, if_neg hk]
  · left; rw [h]

theorem foldl_applyCqe_absent (qs : List cqe) (W : World) (k : Nat)
    (h : mapLookup W.c.operationsFd k = none) :
    mapLookup (qs.foldl applyCqe W).c.operationsFd k = none := by
  induction qs generalizing W with
  | nil => exact h
  | cons q rest ih =>
    rw [List.foldl_cons]
    apply ih
    rcases applyCqe_lookup_le W q k with h1 | h1
    · rw [h1, h]
    · exact h1

theorem foldl_applyCqe_other_key (qs : List cqe) (W : World) (k : Nat)
    (h : ∀ q ∈ qs, q.userData ≠ k) :
    mapLookup (qs.foldl applyCqe W).c.operationsFd k = mapLookup W.c.operationsFd k := by
  induction qs generalizing W with
  | nil => rfl
  | cons q rest ih =>
    rw [List.foldl_cons, ih _ (fun q1 hq1 => h q1 (List.mem_cons_of_mem _ hq1))]
    have hk : ¬ k = q.userData := fun hk => h q (List.mem_cons_self _ _) hk.symm
    rcases applyCqe_lookup W q k with h1 | ⟨-, h1⟩
    · rw [h1, if_neg hk]
    · rw [h1]

theorem foldl_applyCqe_other_file (qs : List cqe) (W : World) (g : Nat)
    (h : ∀ q ∈ qs, mapLookup W.c.operationsFd q.userData ≠ some g) :
    (qs.foldl applyCqe W).files g = W.files g := by
  induction qs generalizing W with
  | nil => rfl
  | cons q rest ih =>
    rw [List.foldl_cons]
    have hrest : ∀ q1 ∈ rest, mapLookup (applyCqe W q).c.operationsFd q1.userData ≠ some g := by
      intro q1 hq1 hc
      rcases applyCqe_lookup_le W q q1.userData with h1 | h1
      · exact h q1 (List.mem_cons_of_mem _ hq1) (h1 ▸ hc)
      · rw [h1] at hc; exact absurd hc (by simp)
    rw [ih _ hrest]
    cases hl : mapLookup W.c.operationsFd q.userData with
    | none => rw [applyCqe_of_none hl]
    | some fd =>
      have hne : g ≠ fd := by
        intro hg
        exact h q (List.mem_cons_self _ _) (hg ▸ hl)
      exact (applyCqe_of_some hl).2.2.2.1 g hne

theorem foldl_applyCqe_owner (qs : List cqe) (W : World)
    (hone : (qs.filterMap fun q => mapLookup W.c.operationsFd q.userData).Nodup)
    (q : cqe) (hq : q ∈ qs) (fd : Nat)
    (hfd : mapLookup W.c.operationsFd q.userData = some fd) :
    ((qs.foldl applyCqe W).files fd).lastAsyncOpState.result = q.res ∧
    ((qs.foldl applyCqe W).files fd).pos = (W.files fd).pos + q.res ∧
    ((qs.foldl applyCqe W).files fd).lastAsyncOpState.complete = true ∧
    mapLookup (qs.foldl applyCqe W).c.operationsFd q.userData = none := by
  induction qs generalizing W with
  | nil => exact absurd hq (List.not_mem_nil _)
  | cons q0 rest ih =>
    rw [List.foldl_cons]
    have hsub : (rest.filterMap fun q1 =>
        mapLookup (applyCqe W q0).c.operationsFd q1.userData).Sublist
        (rest.filterMap fun q1 => mapLookup W.c.operationsFd q1.userData) :=
      filterMap_sublist_of_le _ _ rest (fun x => applyCqe_lookup_le W q0 x.userData)
    cases hl0 : mapLookup W.c.operationsFd q0.userData with
    | none =>
      rw [List.filterMap_cons] at hone
      simp only [hl0] at hone
      have hW : applyCqe W q0 = W := applyCqe_of_none hl0
      rcases List.mem_cons.mp hq with h0 | hmem
      · subst h0; rw [hl0] at hfd; exact absurd hfd (by simp)
      · rw [hW]; exact ih W hone hmem hfd
    | some fd0 =>
      rw [List.filterMap_cons] at hone
      simp only [hl0, List.nodup_cons] at hone
      obtain ⟨hnot, hnd⟩ := hone
      have hstep := applyCqe_of_some hl0
      by_cases hobj : q.userData = q0.userData
      · have hfd0 : fd0 = fd := by
          rw [hobj, hl0] at hfd; exact Option.some.inj hfd
        subst hfd0
        have hrest : ∀ q1 ∈ rest,
            mapLookup (applyCqe W q0).c.operationsFd q1.userData ≠ some fd0 := by
          intro q1 hq1 hc
          apply hnot
          rw [List.mem_filterMap]
          refine ⟨q1, hq1, ?_⟩
          rcases applyCqe_lookup_le W q0 q1.userData with h1 | h1
          · exact h1 ▸ hc
          · rw [h1] at hc; exact absurd hc (by simp)
        rcases List.mem_cons.mp hq with h0 | hmem
        · subst h0
          rw [foldl_applyCqe_other_file rest _ fd0 hrest]
          refine ⟨hstep.1, hstep.2.1, hstep.2.2.1, ?_⟩
          apply foldl_applyCqe_absent
          rw [hstep.2.2.2.2, mapLookup_mapDelete, if_pos rfl]
        · exfalso
          apply hnot
          rw [List.mem_filterMap]
          exact ⟨q, hmem, hfd⟩
      · have hmem : q ∈ rest := by
          rcases List.mem_cons.mp hq with h0 | hmem
          · exact absurd (congrArg cqe.userData h0) hobj
          · exact hmem
        have hfd1 : mapLookup (applyCqe W q0).c.operationsFd q.userData = some fd := by
          rw [hstep.2.2.2.2, mapLookup_mapDelete, if_neg hobj]; exact hfd
        have hne : fd ≠ fd0 := by
          intro hc
          apply hnot
          rw [List.mem_filterMap]
          exact ⟨q, hmem, hc ▸ hfd⟩
        have := ih (applyCqe W q0) (hnd.sublist hsub) hmem hfd1
        rw [hstep.2.2.2.1 fd hne] at this
        exact this

theorem cqLoop_eq_foldl (cq : cQueue) (n : Nat) (W : World) (head : Nat)
    (hn : sub32 cq.ktail head = n) (hlen : (cqEntries cq n head).length = n) :
    cqLoop cq n W head = some ((cqEntries cq n head).foldl applyCqe W) := by
  induction n generalizing W head with
  | zero => rfl
  | succ n ih =>
    unfold cqLoop
    rw [if_neg (by omega)]
    unfold cqEntries at hlen ⊢
    cases hq : cq.cqes[head &&& cq.kringMask]? with
    | none => rw [hq] at hlen; simp at hlen
    | some q =>
      rw [hq] at hlen
      dsimp only
      rw [List.foldl_cons]
      apply ih
      · unfold sub32 add32 at *; omega
      · simpa using hlen

theorem foldl_applyCqe_harvestedBy (qs : List cqe) (W : World) (fd : Nat) :
    ((qs.foldl applyCqe W).files fd).pos =
      (W.files fd).pos + ((harvestedBy cqe.userData fd W.c.operationsFd qs).map cqe.res).sum ∧
    (harvestedBy cqe.userData fd W.c.operationsFd qs = [] →
      (qs.foldl applyCqe W).files fd = W.files fd) ∧
    (∀ q, (harvestedBy cqe.userData fd W.c.operationsFd qs).getLast? = some q →
      ((qs.foldl applyCqe W).files fd).lastAsyncOpState.result = q.res ∧
      ((qs.foldl applyCqe W).files fd).lastAsyncOpState.complete = true) := by
  induction qs generalizing W with
  | nil =>
    refine ⟨by simp [harvestedBy], fun _ => rfl, ?_⟩
    intro q hq
    simp [harvestedBy] at hq
  | cons q0 rest ih =>
    rw [List.foldl_cons]
    unfold harvestedBy
    cases hl : mapLookup W.c.operationsFd q0.userData with
    | none =>
      dsimp only
      rw [applyCqe_of_none hl]
      exact ih W
    | some g =>
      dsimp only
      have hstep := applyCqe_of_some hl
      have hih := ih (applyCqe W q0)
      rw [hstep.2.2.2.2] at hih
      by_cases hg : g = fd
      · subst hg
        rw [if_pos rfl]
        obtain ⟨h1, h2, h3⟩ := hih
        refine ⟨?_, fun h => absurd h (by simp), ?_⟩
        · rw [h1, hstep.2.1, List.map_cons, List.sum_cons]; ring
        · intro q hq
          cases hrest : harvestedBy cqe.userData g (mapDelete W.c.operationsFd q0.userData) rest with
          | nil =>
            rw [hrest] at hq
            simp only [List.getLast?_singleton, Option.some.injEq] at hq
            subst hq
            rw [h2 hrest]
            exact ⟨hstep.1, hstep.2.2.1⟩
          | cons y ys =>
            rw [hrest] at hq h3
            rw [List.getLast?_cons_cons] at hq
            exact h3 q hq
      · rw [if_neg hg]
        have hfile : (applyCqe W q0).files fd = W.files fd :=
          hstep.2.2.2.1 fd (fun h => hg h.symm)
        rw [hfile] at hih
        exact hih

theorem foldl_applyCqe_lookup (qs : List cqe) (W : World) (k : Nat) :
    mapLookup (qs.foldl applyCqe W).c.operationsFd k =
      if k ∈ qs.map cqe.userData then none else mapLookup W.c.operationsFd k := by
  by_cases hk : k ∈ qs.map cqe.userData
  · rw [if_pos hk]
    induction qs generalizing W with
    | nil => simp at hk
    | cons q0 rest ih =>
      rw [List.foldl_cons]
      by_cases h0 : k = q0.userData
      · apply foldl_applyCqe_absent
        rcases applyCqe_lookup W q0 k with h1 | ⟨h1, h2⟩
        · rw [h1, if_pos h0]
        · rw [h2, h0]; exact h1
      · apply ih
        rw [List.map_cons, List.mem_cons] at hk
        exact hk.resolve_left h0
  · rw [if_neg hk]
    apply foldl_applyCqe_other_key
    intro q hq hc
    exact hk (hc ▸ List.mem_map_of_mem cqe.userData hq)

theorem foldl_applyCqe_complete (qs : List cqe) (W : World) (fd : Nat)
    (h : (W.files fd).lastAsyncOpState.complete = true) :
    ((qs.foldl applyCqe W).files fd).lastAsyncOpState.complete = true := by
  induction qs generalizing W with
  | nil => exact h
  | cons q0 rest ih =>
    rw [List.foldl_cons]
    apply ih
    cases hl : mapLookup W.c.operationsFd q0.userData with
    | none => rw [applyCqe_of_none hl]; exact h
    | some g =>
      by_cases hg : fd = g
      · subst hg; exact (applyCqe_of_some hl).2.2.1
      · rw [(applyCqe_of_some hl).2.2.2.1 fd hg]; exact h

theorem foldl_applyCqe_completes (qs : List cqe) (W : World) (q : cqe) (hq : q ∈ qs) (fd : Nat)
    (hfd : mapLookup W.c.operationsFd q.userData = some fd) :
    ((qs.foldl applyCqe W).files fd).lastAsyncOpState.complete = true := by
  induction qs generalizing W with
  | nil => exact absurd hq (List.not_mem_nil _)
  | cons q0 rest ih =>
    rw [List.foldl_cons]
    cases hl : mapLookup W.c.operationsFd q0.userData with
    | none =>
      rw [applyCqe_of_none hl]
      rcases List.mem_cons.mp hq with h0 | hmem
      · subst h0; rw [hl] at hfd; exact absurd hfd (by simp)
      · exact ih W hmem hfd
    | some g =>
      have hstep := applyCqe_of_some hl
      by_cases hobj : q.userData = q0.userData
      · have hgfd : g = fd := by
          rw [hobj, hl] at hfd; exact Option.some.inj hfd
        subst hgfd
        exact foldl_applyCqe_complete rest _ g hstep.2.2.1
      · have hmem : q ∈ rest := by
          rcases List.mem_cons.mp hq with h0 | hmem
          · exact absurd (congrArg cqe.userData h0) hobj
          · exact hmem
        apply ih _ hmem
        rw [hstep.2.2.2.2, mapLookup_mapDelete, if_neg hobj]; exact hfd

/-- C18. io_uring harvest.  Let `k = ktail - khead` completion entries be available, all of
them inside the completion array.  `fillStatesIoUring` returns, advances the shared completion
head by exactly `k` and decreases the in-flight counter by exactly `k`; the entries are
applied in order, the files and the operations table after the call being those after the
round of the last entry.  For every entry whose key is in the operations table (and was not carried
by an earlier entry), the round of the loop for that entry adds `res` to the position of the
owning file, records `res` as its result, sets `complete` and removes the key; after the call
the owning file is complete and the key is absent.  After the call the position of a file is
its position before plus the sum of the `res` of the entries applied to it (`harvestedBy`: the
available entries whose key is in the table with this file as owner; when the keys of the
available entries are pairwise distinct these are exactly the entries whose key the table
maps to the file), and its result is the `res` of the last of them; when the available
entries belong to pairwise distinct files, each entry's own `res` is what was added to the
position of its file and is its result.  A file to which no entry is applied is left as it
was; after the call a key is in the table exactly when it was before and no available entry
carries it.  With `k = 0` the world is unchanged. -/
theorem C18_uring_harvest (W : World) (r : ring)
    (hr : W.c.r = some r)
    (hhead : r.cq.khead < 4294967296)
    (hin : (availableCqes r.cq).length = sub32 r.cq.ktail r.cq.khead) :
    ∃ W1, fillStatesIoUring W = some W1 ∧
      W1.c.r = some { r with cq := { r.cq with
        khead := add32 r.cq.khead (sub32 r.cq.ktail r.cq.khead) } } ∧
      W1.c.currentCnt = W.c.currentCnt - (sub32 r.cq.ktail r.cq.khead : Nat) ∧
      W1.files = ((availableCqes r.cq).foldl applyCqe W).files ∧
      W1.c.operationsFd = ((availableCqes r.cq).foldl applyCqe W).c.operationsFd ∧
      (∀ pre q post, availableCqes r.cq = pre ++ q :: post → ∀ fd,
        mapLookup W.c.operationsFd q.userData = some fd → q.userData ∉ pre.map cqe.userData →
          ((applyCqe (pre.foldl applyCqe W) q).files fd).pos =
            ((pre.foldl applyCqe W).files fd).pos + q.res ∧
          ((applyCqe (pre.foldl applyCqe W) q).files fd).lastAsyncOpState.result = q.res ∧
          ((applyCqe (pre.foldl applyCqe W) q).files fd).lastAsyncOpState.complete = true ∧
          mapLookup (applyCqe (pre.foldl applyCqe W) q).c.operationsFd q.userData = none) ∧
      (∀ fd,
        (W1.files fd).pos = (W.files fd).pos +
          ((harvestedBy cqe.userData fd W.c.operationsFd (availableCqes r.cq)).map cqe.res).sum ∧
        (∀ q, (harvestedBy cqe.userData fd W.c.operationsFd (availableCqes r.cq)).getLast? =
            some q →
          (W1.files fd).lastAsyncOpState.result = q.res ∧
          (W1.files fd).lastAsyncOpState.complete = true) ∧
        (harvestedBy cqe.userData fd W.c.operationsFd (availableCqes r.cq) = [] →
          W1.files fd = W.files fd)) ∧
      (((availableCqes r.cq).map cqe.userData).Nodup → ∀ fd,
        harvestedBy cqe.userData fd W.c.operationsFd (availableCqes r.cq) =
          (availableCqes r.cq).filter
            (fun q => decide (mapLookup W.c.operationsFd q.userData = some fd))) ∧
      (((availableCqes r.cq).filterMap
          fun q => mapLookup W.c.operationsFd q.userData).Nodup →
        ∀ q ∈ availableCqes r.cq, ∀ fd, mapLookup W.c.operationsFd q.userData = some fd →
          (W1.files fd).pos = (W.files fd).pos + q.res ∧
          (W1.files fd).lastAsyncOpState.result = q.res) ∧
      (∀ q ∈ availableCqes r.cq, ∀ fd, mapLookup W.c.operationsFd q.userData = some fd →
        (W1.files fd).lastAsyncOpState.complete = true ∧
        mapLookup W1.c.operationsFd q.userData = none) ∧
      (∀ g, (∀ q ∈ availableCqes r.cq, mapLookup W.c.operationsFd q.userData ≠ some g) →
        W1.files g = W.files g) ∧
      (∀ key, mapLookup W1.c.operationsFd key =
        if key ∈ (availableCqes r.cq).map cqe.userData then none
        else mapLookup W.c.operationsFd key) ∧
      (sub32 r.cq.ktail r.cq.khead = 0 → W1 = W) := by
  have hloop := cqLoop_eq_foldl r.cq (sub32 r.cq.ktail r.cq.khead) W r.cq.khead rfl hin
  have hF : fillStatesIoUring W = some
      { (availableCqes r.cq).foldl applyCqe W with
        c := { ((availableCqes r.cq).foldl applyCqe W).c with
          r := some { r with cq := { r.cq with
            khead := add32 r.cq.khead (sub32 r.cq.ktail r.cq.khead) } }
          currentCnt := ((availableCqes r.cq).foldl applyCqe W).c.currentCnt -
            (sub32 r.cq.ktail r.cq.khead : Nat) } } := by
    unfold fillStatesIoUring
    rw [hr]
    dsimp only
    rw [hloop]
    rfl
  refine ⟨_, hF, rfl, ?_, ?_, ?_, ?_, ?_, ?_, ?_, ?_, ?_, ?_, ?_⟩
  · show ((availableCqes r.cq).foldl applyCqe W).c.currentCnt - _ = _
    rw [(foldl_applyCqe_frame _ W).2]
  · rfl
  · rfl
  · intro pre q post _ fd hfd hpre
    have hl : mapLookup (pre.foldl applyCqe W).c.operationsFd q.userData = some fd := by
      rw [foldl_applyCqe_lookup, if_neg hpre]; exact hfd
    have hstep := applyCqe_of_some hl
    refine ⟨hstep.2.1, hstep.1, hstep.2.2.1, ?_⟩
    rw [hstep.2.2.2.2, mapLookup_mapDelete, if_pos rfl]
  · intro fd
    obtain ⟨h1, h2, h3⟩ := foldl_applyCqe_harvestedBy (availableCqes r.cq) W fd
    exact ⟨h1, h3, h2⟩
  · intro hnd fd
    exact harvestedBy_eq_filter _ fd _ _ hnd
  · intro hone q hq fd hfd
    have h := foldl_applyCqe_owner _ W hone q hq fd hfd
    exact ⟨h.2.1, h.1⟩
  · intro q hq fd hfd
    refine ⟨foldl_applyCqe_completes _ W q hq fd hfd, ?_⟩
    show mapLookup ((availableCqes r.cq).foldl applyCqe W).c.operationsFd q.userData = none
    rw [foldl_applyCqe_lookup, if_pos (List.mem_map_of_mem cqe.userData hq)]
  · intro g hg
    exact foldl_applyCqe_other_file _ W g hg
  · intro key
    exact foldl_applyCqe_lookup _ W key
  · intro h0
    have hnil : availableCqes r.cq = [] := by
      apply List.eq_nil_of_length_eq_zero; rw [hin, h0]
    rw [hnil, h0]
    have hadd : add32 r.cq.khead 0 = r.cq.khead := by unfold add32; omega
    rw [hadd]
    simp only [List.foldl_nil, Nat.cast_zero, sub_zero]
    have hr2 : some { r with cq := { r.cq with khead := r.cq.khead } } = W.c.r := hr.symm
    rw [hr2]

/-- Witness for C18.  In `uringTwoFilesW` one completion entry is available, the one of file 1
(key 2000) with 512 bytes; file 0 stays outstanding and the counter goes from 2 to 1.  In
`uringOneFileTwiceW` two entries of file 0 are available (512 and 4096 bytes): the position
goes from 0 to 4608, the result is 4096, both keys are removed and the counter goes from 2
to 0. -/
theorem C18_uring_harvest_witness :
    (∃ W1, fillStatesIoUring uringTwoFilesW = some W1 ∧
      (W1.files 1).pos = 512 ∧
      (W1.files 1).lastAsyncOpState.result = 512 ∧
      (W1.files 1).lastAsyncOpState.complete = true ∧
      mapLookup W1.c.operationsFd 2000 = none ∧
      W1.files 0 = uringTwoFilesW.files 0 ∧
      mapLookup W1.c.operationsFd 1000 = some 0 ∧
      W1.c.currentCnt = 1) ∧
    (∃ W1, fillStatesIoUring uringOneFileTwiceW = some W1 ∧
      (W1.files 0).pos = 4608 ∧
      (W1.files 0).lastAsyncOpState.result = 4096 ∧
      (W1.files 0).lastAsyncOpState.complete = true ∧
      mapLookup W1.c.operationsFd 1000 = none ∧
      mapLookup W1.c.operationsFd 2000 = none ∧
      W1.c.currentCnt = 0) := by
  constructor
  · obtain ⟨W1, h, -, hcnt, -, -, -, hfile, -, -, -, hother, hkey, -⟩ :=
      C18_uring_harvest uringTwoFilesW (uringTwoFilesW.c.r.getD {}) rfl (by decide) rfl
    obtain ⟨hp, hres, -⟩ := hfile 1
    have hq := hres { userData := 2000, res := 512 } rfl
    exact ⟨W1, h, hp.trans rfl, hq.1, hq.2, (hkey 2000).trans rfl, hother 0 (by decide),
      (hkey 1000).trans rfl, hcnt⟩
  · obtain ⟨W1, h, -, hcnt, -, -, -, hfile, -, -, -, -, hkey, -⟩ :=
      C18_uring_harvest uringOneFileTwiceW (uringOneFileTwiceW.c.r.getD {}) rfl (by decide) rfl
    obtain ⟨hp, hres, -⟩ := hfile 0
    have hq := hres { userData := 2000, res := 4096 } rfl
    exact ⟨W1, h, hp.trans rfl, hq.1, hq.2, (hkey 1000).trans rfl, (hkey 2000).trans rfl, hcnt⟩

/-! ## C19: the size check of `setup` -/

theorem testBit_top (x k : Nat) (h1 : 2 ^ k ≤ x) (h2 : x < 2 ^ (k + 1)) :
    x.testBit k = true := by
  rw [Nat.testBit_to_div_mod]
  have hpos : 0 < 2 ^ k := Nat.two_pow_pos k
  have hdiv : x / 2 ^ k = 1 := by
    apply Nat.div_eq_of_lt_le
    · simpa using h1
    · rw [pow_succ] at h2
      omega
  rw [hdiv]
  rfl

theorem and_pred_eq_zero_iff (n : Nat) (hn : 0 < n) :
    n &&& (n - 1) = 0 ↔ ∃ k, n = 2 ^ k := by
  constructor
  · intro h
    by_contra hne
    push_neg at hne
    have hk1 : 2 ^ Nat.log2 n ≤ n := Nat.log2_self_le (by omega)
    have hk2 : n < 2 ^ (Nat.log2 n + 1) := Nat.lt_log2_self
    have hgt : 2 ^ Nat.log2 n < n := lt_of_le_of_ne hk1 (fun h => hne _ h.symm)
    have hb1 : n.testBit (Nat.log2 n) = true := testBit_top n _ hk1 hk2
    have hb2 : (n - 1).testBit (Nat.log2 n) = true :=
      testBit_top (n - 1) _ (by omega) (by omega)
    have hb : (n &&& (n - 1)).testBit (Nat.log2 n) = true := by
      rw [Nat.testBit_and, hb1, hb2]; rfl
    rw [h] at hb
    simp at hb
  · rintro ⟨k, rfl⟩
    rw [Nat.and_pow_two_sub_one_eq_mod]
    exact Nat.mod_self _

/-- C19 as stated fails in two ways.  (a) The entry count 0 passes the size check of `setup`
(`entries != 0 && ...`): the `io_uring_setup` call is issued and, here, its errno 22 is what
`setup` and `initIoUring` return.  (b) When the system-call numbers are -1, `initIoUring`
returns `ErrNotSupported` for the entry count 3 without reaching the size check. -/
theorem C19_counterexample :
    (setup bootWorld 0 {} 0 { setupErr := 22 }).2.2 = some (Error.Errno 22) ∧
    (setup bootWorld 0 {} 0 { setupErr := 22 }).1.k.trace = [Syscall.ioUringSetup 0] ∧
    (initIoUring bootWorld 0 { setupErr := 22 }).2 = some (Error.Errno 22) ∧
    (initIoUring bootWorld 0 { setupErr := 22 }).1.k.trace = [Syscall.ioUringSetup 0] ∧
    initIoUring noUringWorld 3 {} = (noUringWorld, some Error.ErrNotSupported) := by
  refine ⟨rfl, rfl, rfl, rfl, rfl⟩

theorem sub32_one (n : Nat) (h0 : n ≠ 0) (hlt : n < 4294967296) : sub32 n 1 = n - 1 := by
  unfold sub32; omega

theorem sysCall_trace_ext {W1 : World} {t : List Syscall} (call : Syscall)
    (h : ∃ pre, W1.k.trace = pre ++ t) : ∃ pre, (sysCall W1 call).k.trace = pre ++ t := by
  obtain ⟨pre, h⟩ := h
  exact ⟨call :: pre, by simp [sysCall, h]⟩

theorem unmap_trace_ext {W1 : World} {t : List Syscall} (sq : sQueue) (cq : cQueue)
    (h : ∃ pre, W1.k.trace = pre ++ t) : ∃ pre, (unmap W1 sq cq).k.trace = pre ++ t := by
  unfold unmap
  dsimp only
  split_ifs
  · exact sysCall_trace_ext _ (sysCall_trace_ext _ h)
  · exact sysCall_trace_ext _ h

theorem setup_issues_setup (W : World) (entries : Nat) (r : ring) (flags : Nat) (se : SetupEnv)
    (hok : ¬ (entries ≠ 0 ∧ entries &&& sub32 entries 1 ≠ 0))
    (hsys : ¬ (W.ioUringSetupSys ≤ 0 ∨ W.ioUringEnterSys ≤ 0)) :
    ∃ pre, (setup W entries r flags se).1.k.trace =
      pre ++ Syscall.ioUringSetup entries :: W.k.trace := by
  have h0 : ∃ pre, (sysCall W (Syscall.ioUringSetup entries)).k.trace =
      pre ++ Syscall.ioUringSetup entries :: W.k.trace := ⟨[], rfl⟩
  unfold setup
  rw [if_neg hok, if_neg hsys]
  dsimp only
  split_ifs <;>
    repeat (first | exact h0 | apply unmap_trace_ext | apply sysCall_trace_ext)

/-- C19 (amended). For a `uint32` entry count.  (1) When it is nonzero and not a power of
two, `setup` returns `errBadSize` and leaves the world and the ring as they were (no system
call is issued), and so does `initIoUring` for every `sz` that converts to that count,
provided neither system-call number is -1.  (2) When the count is 0 or a power of two it
passes the size check: `setup` does not return `errBadSize`; it goes on to the support check,
returning `ErrNotSupported` with nothing issued when a system-call number is not positive,
and otherwise issues `io_uring_setup` with that count as its first system call, whose errno,
if any, is what `setup` returns (`ErrNotSupported` for `ENOSYS`).  (3) When a system-call
number is -1, `initIoUring` returns `ErrNotSupported` for every `sz`, before the size check,
and leaves the world as it was. -/
theorem C19_setup_bad_size (W : World) (entries : Nat) (r : ring) (flags : Nat) (se : SetupEnv)
    (hlt : entries < 4294967296) :
    ((entries ≠ 0 ∧ ∀ k, entries ≠ 2 ^ k) →
      setup W entries r flags se = (W, r, some Error.errBadSize) ∧
      ∀ sz : Int, uint32 sz = entries → W.ioUringSetupSys ≠ -1 → W.ioUringEnterSys ≠ -1 →
        initIoUring W sz se = (W, some Error.errBadSize)) ∧
    ((entries = 0 ∨ ∃ k, entries = 2 ^ k) →
      (setup W entries r flags se).2.2 ≠ some Error.errBadSize ∧
      ((W.ioUringSetupSys ≤ 0 ∨ W.ioUringEnterSys ≤ 0) →
        setup W entries r flags se = (W, r, some Error.ErrNotSupported)) ∧
      (0 < W.ioUringSetupSys → 0 < W.ioUringEnterSys →
        (∃ pre, (setup W entries r flags se).1.k.trace =
          pre ++ Syscall.ioUringSetup entries :: W.k.trace) ∧
        (se.setupErr ≠ 0 →
          setup W entries r flags se =
            (sysCall W (Syscall.ioUringSetup entries), r,
              some (if se.setupErr = ENOSYS then Error.ErrNotSupported
                    else Error.Errno se.setupErr))))) ∧
    ((W.ioUringSetupSys = -1 ∨ W.ioUringEnterSys = -1) →
      ∀ sz : Int, initIoUring W sz se = (W, some Error.ErrNotSupported)) := by
  refine ⟨?_, ?_, ?_⟩
  · rintro ⟨h0, hpow⟩
    have hbad : entries ≠ 0 ∧ entries &&& sub32 entries 1 ≠ 0 := by
      refine ⟨h0, ?_⟩
      rw [sub32_one entries h0 hlt]
      intro hz
      obtain ⟨k, hk⟩ := (and_pred_eq_zero_iff entries (by omega)).mp hz
      exact hpow k hk
    have hsetup : ∀ (r1 : ring) (fl : Nat),
        setup W entries r1 fl se = (W, r1, some Error.errBadSize) := by
      intro r1 fl
      unfold setup
      rw [if_pos hbad]
    refine ⟨hsetup r flags, ?_⟩
    intro sz hsz h1 h2
    unfold initIoUring
    rw [if_neg (by simp [h1, h2]), hsz, hsetup]
  · intro h
    have hok : ¬ (entries ≠ 0 ∧ entries &&& sub32 entries 1 ≠ 0) := by
      rintro ⟨h0, hz⟩
      rcases h with h | h
      · exact h0 h
      · rw [sub32_one entries h0 hlt] at hz
        exact hz ((and_pred_eq_zero_iff entries (by omega)).mpr h)
    refine ⟨?_, ?_, ?_⟩
    · unfold setup
      rw [if_neg hok]
      dsimp only
      split_ifs <;> simp
    · intro hsys
      unfold setup
      rw [if_neg hok, if_pos hsys]
    · intro h1 h2
      have hsys : ¬ (W.ioUringSetupSys ≤ 0 ∨ W.ioUringEnterSys ≤ 0) := by
        rintro (h | h) <;> omega
      refine ⟨setup_issues_setup W entries r flags se hok hsys, ?_⟩
      intro herr
      unfold setup
      rw [if_neg hok, if_neg hsys]
      dsimp only
      rw [if_pos herr]
      split_ifs <;> rfl
  · intro hsys sz
    unfold initIoUring
    rw [if_pos hsys]

/-- Witness for C19 (amended): the entry count 6 on a kernel with io_uring; the entry count 0
there, `io_uring_setup` failing with errno 22; the entry count 3 on a kernel whose
system-call numbers are -1. -/
theorem C19_setup_bad_size_witness :
    (setup bootWorld 6 {} 0 {} = (bootWorld, {}, some Error.errBadSize) ∧
      initIoUring bootWorld 6 {} = (bootWorld, some Error.errBadSize)) ∧
    setup bootWorld 0 {} 0 { setupErr := 22 } =
      (sysCall bootWorld (Syscall.ioUringSetup 0), {}, some (Error.Errno 22)) ∧
    initIoUring noUringWorld 3 {} = (noUringWorld, some Error.ErrNotSupported) :=
  have h := (C19_setup_bad_size bootWorld 6 {} 0 {} (by decide)).1
    ⟨by decide, fun k hk => by
      have h4 : ¬ k < 3 → (2:Nat) ^ 3 ≤ 2 ^ k := fun hk3 =>
        Nat.pow_le_pow_right (by decide) (by omega)
      by_cases hk3 : k < 3
      · interval_cases k <;> simp at hk
      · have := h4 hk3; omega⟩
  have h0 := ((C19_setup_bad_size bootWorld 0 {} 0 { setupErr := 22 } (by decide)).2.1
    (Or.inl rfl)).2.2 (by decide) (by decide)
  ⟨⟨h.1, h.2 6 rfl (by decide) (by decide)⟩, h0.2 (by decide),
    (C19_setup_bad_size noUringWorld 0 {} 0 {} (by decide)).2.2 (Or.inl rfl) 3⟩

/-! ## C20: `checkAsyncSeek` and the synchronous read after an asynchronous one -/

theorem checkAsyncResult_idle_result (W : World) (f : Nat) (env : Env)
    (hidle : (W.files f).lastAsyncOpState.lastOp = OpUnknown ∨
      (W.files f).lastAsyncOpState.complete = true) :
    ∃ e, checkAsyncResult W f env = some (W, e) ∧ e ≠ some Error.ErrNotCompleted := by
  unfold checkAsyncResult
  by_cases hm : (W.files f).mode = ModeSync
  · rw [if_pos hm]; exact ⟨none, rfl, by simp⟩
  rw [if_neg hm]
  by_cases h0 : (W.files f).lastAsyncOpState.lastOp = OpUnknown
  · rw [if_pos h0]; exact ⟨none, rfl, by simp⟩
  rw [if_neg h0]
  have hc : (W.files f).lastAsyncOpState.complete = true := hidle.resolve_left h0
  rw [hc]
  simp only [Bool.not_true, Bool.false_eq_true, if_false]
  by_cases hr : (W.files f).lastAsyncOpState.result < 0
  · rw [if_pos hr]; exact ⟨_, rfl, by simp⟩
  · rw [if_neg hr]; exact ⟨none, rfl, by simp⟩

theorem checkAsyncSeek_idle (W : World) (f : Nat) (env : Env)
    (hidle : (W.files f).lastAsyncOpState.lastOp = OpUnknown ∨
      (W.files f).lastAsyncOpState.complete = true) :
    checkAsyncSeek W f env =
      if (W.files f).lastSyncSeek then
        match env.seekErr with
        | some e => some (sysSeek W (W.files f).fd (W.files f).pos 0 env, (0 : Int), some e)
        | none =>
          some (setFile (sysSeek W (W.files f).fd (W.files f).pos 0 env) f
            { W.files f with lastSyncSeek := false }, (0 : Int), none)
      else some (W, (0 : Int), none) := by
  obtain ⟨e, he, hne⟩ := checkAsyncResult_idle_result W f env hidle
  unfold checkAsyncSeek
  rw [he]
  dsimp only
  rw [if_neg hne]

/-- C20. For an async-mode file with no outstanding operation, `checkAsyncSeek` returns and
never changes the logical position.  When `lastSyncSeek` is clear it issues no seek and
changes nothing.  When `lastSyncSeek` is set it issues one seek to the absolute logical
position; if that seek succeeds the flag is cleared (nothing else in the file record changes)
and the kernel offset of the descriptor is the logical position; if it fails the error is
returned and the file record, flag included, stays as it was.  Consequently, when the last
operation is complete and `lastSyncSeek` is set (the state after a completed async read),
a `ReadSync` that reads `m > 0` bytes (seek and read succeeding) reads at the logical position
and advances the position by `m`. -/
theorem C20_checkAsyncSeek (W : World) (f : Nat) (env : Env)
    (hmode : (W.files f).mode = ModeAsync)
    (hidle : (W.files f).lastAsyncOpState.lastOp = OpUnknown ∨
      (W.files f).lastAsyncOpState.complete = true) :
    (∃ W1 err, checkAsyncSeek W f env = some (W1, 0, err) ∧
      (W1.files f).pos = (W.files f).pos ∧
      ((W.files f).lastSyncSeek = false → W1 = W ∧ err = none) ∧
      ((W.files f).lastSyncSeek = true →
        W1.k.seeks = ((W.files f).fd, (W.files f).pos, 0) :: W.k.seeks ∧
        err = env.seekErr ∧
        (env.seekErr = none →
          W1.files f = { W.files f with lastSyncSeek := false } ∧
          W1.k.cursor (W.files f).fd = (W.files f).pos) ∧
        (env.seekErr ≠ none → W1.files f = W.files f))) ∧
    (∀ data : Buf, (W.files f).lastSyncSeek = true → env.seekErr = none →
      0 < data.Len → env.rawErr = 0 → env.osErr = none →
      0 < (if W.c.newThread data.Len then env.osN else env.rawN) →
      ∃ W2, ReadSync W f data env =
          some (W2, (if W.c.newThread data.Len then env.osN else env.rawN), none) ∧
        W2.k.syncIO = ((W.files f).fd, (W.files f).pos,
          (if W.c.newThread data.Len then env.osN else env.rawN)) :: W.k.syncIO ∧
        (W2.files f).pos = (W.files f).pos +
          (if W.c.newThread data.Len then env.osN else env.rawN)) := by
  have hcs := checkAsyncSeek_idle W f env hidle
  constructor
  · by_cases hl : (W.files f).lastSyncSeek = true
    · rw [if_pos hl] at hcs
      cases hse : env.seekErr with
      | some e =>
        rw [hse] at hcs
        refine ⟨_, _, hcs, rfl, fun h => ?_, fun _ => ⟨rfl, rfl, fun h => ?_, fun _ => rfl⟩⟩
        · rw [hl] at h; exact absurd h (by simp)
        · exact absurd h (by simp)
      | none =>
        rw [hse] at hcs
        refine ⟨_, _, hcs, ?_, fun h => ?_, fun _ => ⟨rfl, rfl, fun _ => ⟨?_, ?_⟩, fun h => ?_⟩⟩
        · simp [setFile]
        · rw [hl] at h; exact absurd h (by simp)
        · simp [setFile]
        · simp [setFile, sysSeek, hse]
        · exact absurd rfl h
    · rw [if_neg hl] at hcs
      refine ⟨W, none, hcs, rfl, fun _ => ⟨rfl, rfl⟩, fun h => absurd h hl⟩
  · intro data hl hse hlen hraw hos hm
    rw [if_pos hl, hse] at hcs
    unfold ReadSync readSync
    rw [if_pos hmode, hcs]
    dsimp only
    by_cases hnt : W.c.newThread data.Len = true
    · have hnt2 : (setFile (sysSeek W (W.files f).fd (W.files f).pos 0 env) f
          { W.files f with lastSyncSeek := false }).c.newThread data.Len = true := hnt
      rw [hnt2]
      simp only [Bool.not_true, Bool.false_eq_true, if_false, hos, hnt, if_true]
      refine ⟨_, rfl, ?_, ?_⟩
      · simp [setFile, sysRW, sysSeek, hse]
      · simp [setFile]
    · have hntf : W.c.newThread data.Len = false := by simpa using hnt
      have hnt2 : (setFile (sysSeek W (W.files f).fd (W.files f).pos 0 env) f
          { W.files f with lastSyncSeek := false }).c.newThread data.Len = false := hntf
      rw [hntf] at hm
      simp only [Bool.false_eq_true, if_false] at hm
      rw [hnt2]
      simp only [Bool.not_false, if_true, hraw, hntf]
      rw [if_neg (show ¬ data.Len ≤ 0 by omega)]
      simp only [ne_eq, not_true_eq_false, if_false, Bool.false_eq_true]
      rw [if_neg (show ¬ (env.rawN = 0 ∧ data.Len > 0) by omega)]
      refine ⟨_, rfl, ?_, ?_⟩
      · simp [setFile, sysRW, sysSeek, hse]
      · simp [setFile]

/-- Witness for C20: file 0 after an async read of 512 bytes from offset 0 has completed
(`asyncReadDoneW`, position 512, `lastSyncSeek` set): `ReadSync` seeks to 512, reads 512 bytes
at offset 512 and leaves the position at 1024. -/
theorem C20_checkAsyncSeek_witness :
    (asyncReadDoneW.files 0).pos = 512 ∧
    ∃ W2, ReadSync asyncReadDoneW 0 alignedBuf { rawN := 512 } = some (W2, 512, none) ∧
      W2.k.syncIO = [(3, 512, 512)] ∧ (W2.files 0).pos = 1024 :=
  ⟨rfl, (C20_checkAsyncSeek asyncReadDoneW 0 { rawN := 512 } rfl (Or.inr rfl)).2 alignedBuf
    rfl rfl (by decide) rfl rfl (by decide)⟩

/-! ## C21: `WriteSync` on an idle async-mode file -/

/-- C21 fails on the code for the raw-syscall path.  File 0 has completed an async write
(`lastOp = OpWrite`, nothing outstanding).  `WriteSync` of 512 bytes (raw `write`, all bytes
written) returns `(512, nil)` and moves the position from 512 to 1024 but leaves
`lastOp = OpWrite`; `WriteSync` of 4096 bytes (blocking path, all bytes written) returns
`(4096, nil)`, moves the position to 4608 and resets `lastOp` to `OpUnknown`. -/
theorem C21_writeSync_raw_keeps_lastOp :
    writeSyncAfterWrite alignedBuf { rawN := 512 } = some ((512, none), 512, 1024, OpWrite) ∧
    writeSyncAfterWrite bigBuf { osN := 4096 } = some ((4096, none), 512, 4608, OpUnknown) := by
  decide

/-! ## C22: the short write of the raw-syscall path -/

theorem applyAioEvent_newThread (W : World) (e : aioEvent) :
    (applyAioEvent W e).c.newThread = W.c.newThread := by
  unfold applyAioEvent
  split <;> rfl

theorem applyCqe_newThread (W : World) (q : cqe) :
    (applyCqe W q).c.newThread = W.c.newThread := by
  unfold applyCqe
  split <;> rfl

theorem foldl_applyAioEvent_newThread (evs : List aioEvent) (W : World) :
    (evs.foldl applyAioEvent W).c.newThread = W.c.newThread := by
  induction evs generalizing W with
  | nil => rfl
  | cons e es ih => exact (ih _).trans (applyAioEvent_newThread W e)

theorem fillStatesAio_newThread (gs : List GetEvents) (W W1 : World) (e : Option Error)
    (h : fillStatesAio W gs = some (W1, e)) : W1.c.newThread = W.c.newThread := by
  induction gs generalizing W with
  | nil =>
    unfold fillStatesAio at h
    split_ifs at h
    simp only [Option.some.injEq, Prod.mk.injEq] at h
    rw [← h.1]
  | cons g gs ih =>
    unfold fillStatesAio at h
    simp only at h
    split_ifs at h
    · simp only [Option.some.injEq, Prod.mk.injEq] at h
      rw [← h.1]
    · exact (ih _ h).trans (foldl_applyAioEvent_newThread _ _)
    · simp only [Option.some.injEq, Prod.mk.injEq] at h
      rw [← h.1]
      exact foldl_applyAioEvent_newThread _ _
    · simp only [Option.some.injEq, Prod.mk.injEq] at h
      rw [← h.1]; rfl

theorem cqLoop_newThread (cq : cQueue) (n : Nat) (W W1 : World) (head : Nat)
    (h : cqLoop cq n W head = some W1) : W1.c.newThread = W.c.newThread := by
  induction n generalizing W head with
  | zero =>
    unfold cqLoop at h
    simp only [Option.some.injEq] at h
    rw [← h]
  | succ n ih =>
    unfold cqLoop at h
    split_ifs at h
    · simp only [Option.some.injEq] at h
      rw [← h]
    · split at h
      · exact absurd h (by simp)
      · exact (ih _ _ h).trans (applyCqe_newThread W _)

theorem fillOpState_newThread {W W1 : World} {env : Env} {e : Option Error}
    (h : fillOpState W env = some (W1, e)) : W1.c.newThread = W.c.newThread := by
  unfold fillOpState at h
  split_ifs at h with hu ha
  · split at h
    · exact absurd h (by simp)
    · rename_i Wr hr
      simp only [Option.some.injEq, Prod.mk.injEq] at h
      obtain ⟨rfl, -⟩ := h
      unfold fillStatesIoUring at hr
      split at hr
      · exact absurd hr (by simp)
      · dsimp only at hr
        split at hr
        · exact absurd hr (by simp)
        · rename_i Wl hl
          simp only [Option.some.injEq] at hr
          subst hr
          exact cqLoop_newThread _ _ _ Wl _ hl
  · exact fillStatesAio_newThread _ _ _ _ h
  · simp only [Option.some.injEq, Prod.mk.injEq] at h
    rw [← h.1]

theorem checkAsyncResult_newThread {W W1 : World} {f : Nat} {env : Env} {e : Option Error}
    (h : checkAsyncResult W f env = some (W1, e)) : W1.c.newThread = W.c.newThread := by
  unfold checkAsyncResult at h
  split_ifs at h
  · simp only [Option.some.injEq, Prod.mk.injEq] at h; rw [← h.1]
  · simp only [Option.some.injEq, Prod.mk.injEq] at h; rw [← h.1]
  · split at h
    · exact absurd h (by simp)
    · rename_i W2 err hf
      simp only [Option.some.injEq, Prod.mk.injEq] at h
      rw [← h.1]; exact fillOpState_newThread hf
    · rename_i W2 hf
      split_ifs at h <;> simp only [Option.some.injEq, Prod.mk.injEq] at h <;>
        (rw [← h.1]; exact fillOpState_newThread hf)
  · simp only [Option.some.injEq, Prod.mk.injEq] at h; rw [← h.1]
  · simp only [Option.some.injEq, Prod.mk.injEq] at h; rw [← h.1]

theorem checkAsyncSeek_newThread {W W1 : World} {f : Nat} {env : Env} {n : Int}
    {e : Option Error}
    (h : checkAsyncSeek W f env = some (W1, n, e)) : W1.c.newThread = W.c.newThread := by
  unfold checkAsyncSeek at h
  split at h
  · exact absurd h (by simp)
  · rename_i W2 err hc
    have h2 := checkAsyncResult_newThread hc
    split_ifs at h
    · simp only [Option.some.injEq, Prod.mk.injEq] at h; rw [← h.1]; exact h2
    · dsimp only at h
      split at h <;> simp only [Option.some.injEq, Prod.mk.injEq] at h <;>
        (rw [← h.1]; exact h2)
    · simp only [Option.some.injEq, Prod.mk.injEq] at h; rw [← h.1]; exact h2

/-- C22 as stated fails for an async-mode file with an outstanding operation.  `writeSync`
starts with `checkAsyncSeek`, whose harvest applies the completion of the outstanding write
(512 bytes) and moves the position from 0 to 512; the write that follows is short (100 of 512
bytes, no error), the call returns `(100, ErrShortWrite)`, and the position after the call is
512, not the position 0 before it. -/
theorem C22_counterexample :
    shortWriteAfterHarvest =
      some ((0, (100, some Error.ErrShortWrite), 512),
        (0, (100, some Error.ErrShortWrite), 512)) := by
  rfl

/-- C22 (amended). On the raw-syscall path (`newThread(len)` false, non-empty buffer), when
the operating system reports no error and writes `nn < len(data)` bytes.  (1) For a file that
is not in async mode, `writeSync` returns `(nn, ErrShortWrite)` and every file record, so the
logical position, is the one before the call.  (2) For an async-mode file, when the
`checkAsyncSeek` step the call starts with returns an error, `writeSync` returns what that
step returned and the state it left, without writing; when it returns no error, `writeSync`
returns `(nn, ErrShortWrite)` and every file record, so the logical position, is the one the
`checkAsyncSeek` step left: the position is not advanced by `nn`.  (3) For an async-mode
file with no outstanding operation whose re-positioning seek, if one is due, succeeds, the
call returns `(nn, ErrShortWrite)` and the logical position is the one before the call. -/
theorem C22_short_write_keeps_position (W : World) (f : Nat) (data : Buf) (env : Env)
    (hpath : W.c.newThread data.Len = false) (hlen : 0 < data.Len)
    (hraw : env.rawErr = 0) (hshort : env.rawN < data.Len) :
    ((W.files f).mode ≠ ModeAsync →
      ∃ W1, writeSync W f data env = some (W1, env.rawN, some Error.ErrShortWrite) ∧
        W1.files = W.files) ∧
    ((W.files f).mode = ModeAsync →
      (∀ W0 n0 err, checkAsyncSeek W f env = some (W0, n0, some err) →
        writeSync W f data env = some (W0, n0, some err)) ∧
      (∀ W0 n0, checkAsyncSeek W f env = some (W0, n0, none) →
        ∃ W1, writeSync W f data env = some (W1, env.rawN, some Error.ErrShortWrite) ∧
          W1.files = W0.files ∧ (W1.files f).pos = (W0.files f).pos) ∧
      (((W.files f).lastAsyncOpState.lastOp = OpUnknown ∨
          (W.files f).lastAsyncOpState.complete = true) →
        ((W.files f).lastSyncSeek = true → env.seekErr = none) →
        ∃ W1, writeSync W f data env = some (W1, env.rawN, some Error.ErrShortWrite) ∧
          (W1.files f).pos = (W.files f).pos)) := by
  have key : ∀ (W0 : World) (n0 : Int),
      (if (W.files f).mode = ModeAsync then checkAsyncSeek W f env else some (W, 0, none)) =
        some (W0, n0, none) →
      W0.c.newThread data.Len = false →
      writeSync W f data env =
        some (sysRW W0 (W0.files f).fd env.rawN, env.rawN, some Error.ErrShortWrite) := by
    intro W0 n0 hpre h0
    unfold writeSync
    rw [hpre]
    dsimp only
    rw [h0]
    simp only [Bool.not_false, if_true, hraw, ne_eq, not_true_eq_false, if_false]
    rw [if_neg (show ¬ data.Len ≤ 0 by omega), if_pos (show ¬ env.rawN = data.Len by omega)]
  refine ⟨fun hm => ⟨_, key W 0 (by rw [if_neg hm]) hpath, rfl⟩, fun hm => ⟨?_, ?_, ?_⟩⟩
  · intro W0 n0 err hpre
    unfold writeSync
    rw [if_pos hm, hpre]
  · intro W0 n0 hpre
    have hnt : W0.c.newThread data.Len = false := by
      rw [checkAsyncSeek_newThread hpre]; exact hpath
    exact ⟨_, key W0 n0 (by rw [if_pos hm, hpre]) hnt, rfl, rfl⟩
  · intro hidle hseek
    have hcs := checkAsyncSeek_idle W f env hidle
    by_cases hl : (W.files f).lastSyncSeek = true
    · rw [if_pos hl, hseek hl] at hcs
      refine ⟨_, key (setFile (sysSeek W (W.files f).fd (W.files f).pos 0 env) f
        { W.files f with lastSyncSeek := false }) 0 (by rw [if_pos hm, hcs]) hpath, ?_⟩
      simp [sysRW, setFile]
    · rw [if_neg hl] at hcs
      exact ⟨_, key W 0 (by rw [if_pos hm, hcs]) hpath, rfl⟩

/-- Witness for C22 (amended): 100 of 512 bytes written on the idle file 0 of `aioWorld`
(position kept), and on file 0 of `aioPendingW` while the harvest of the call completes the
outstanding write (position as the harvest left it). -/
theorem C22_short_write_keeps_position_witness :
    (∃ W1, writeSync aioWorld 0 alignedBuf { rawN := 100 } =
        some (W1, 100, some Error.ErrShortWrite) ∧
      (W1.files 0).pos = (aioWorld.files 0).pos) ∧
    (∃ W1, writeSync aioPendingW 0 alignedBuf { doneEnv with rawN := 100 } =
        some (W1, 100, some Error.ErrShortWrite) ∧ (W1.files 0).pos = 512) :=
  ⟨((C22_short_write_keeps_position aioWorld 0 alignedBuf { rawN := 100 } rfl (by decide) rfl
      (by decide)).2 rfl).2.2 (Or.inl rfl) (fun h => absurd h (by decide)),
    by
      obtain ⟨W0, h0, hp⟩ : ∃ W0, checkAsyncSeek aioPendingW 0 { doneEnv with rawN := 100 } =
          some (W0, 0, none) ∧ (W0.files 0).pos = 512 := ⟨_, rfl, rfl⟩
      obtain ⟨W1, h1, -, h2⟩ := ((C22_short_write_keeps_position aioPendingW 0 alignedBuf
        { doneEnv with rawN := 100 } rfl (by decide) rfl (by decide)).2 rfl).2.1 W0 0 h0
      exact ⟨W1, h1, h2.trans hp⟩⟩

/-! ## C23: the alignment `Align` reports -/

theorem sysCall_c (W : World) (call : Syscall) : (sysCall W call).c = W.c := rfl

theorem unmap_c (W : World) (sq : sQueue) (cq : cQueue) : (unmap W sq cq).c = W.c := by
  unfold unmap
  dsimp only
  split_ifs <;> rfl

theorem setup_c (W : World) (entries : Nat) (r : ring) (flags : Nat) (se : SetupEnv) :
    (setup W entries r flags se).1.c = W.c := by
  unfold setup
  dsimp only
  split_ifs <;> first | rfl | (rw [unmap_c]; rfl)

theorem initIoUring_c (W : World) (sz : Int) (se : SetupEnv) :
    ((initIoUring W sz se).2 = none →
      (initIoUring W sz se).1.c.asyncMode = asyncIoUring ∧
      (initIoUring W sz se).1.c.align = W.c.align) ∧
    ((initIoUring W sz se).2 ≠ none → (initIoUring W sz se).1.c = W.c) := by
  unfold initIoUring
  by_cases h : W.ioUringSetupSys = -1 ∨ W.ioUringEnterSys = -1
  · rw [if_pos h]
    exact ⟨fun h1 => absurd h1 (by simp), fun _ => rfl⟩
  · rw [if_neg h]
    dsimp only
    cases hs : (setup W (uint32 sz) {} 0 se).2.2 with
    | some err =>
      refine ⟨fun h1 => absurd h1 (by simp), fun _ => ?_⟩
      exact setup_c W _ _ _ se
    | none =>
      refine ⟨fun _ => ⟨rfl, ?_⟩, fun h1 => absurd rfl h1⟩
      show (setup W (uint32 sz) {} 0 se).1.c.align = W.c.align
      rw [setup_c]

theorem initCtx_c (W : World) (sz : Int) (se : SetupEnv)
    (hok : (initCtx W sz se).2 = none) :
    ((initCtx W sz se).1.c.asyncMode = asyncAio ∧ (initCtx W sz se).1.c.align = 512) ∨
    ((initCtx W sz se).1.c.asyncMode = asyncIoUring ∧ (initCtx W sz se).1.c.align = W.c.align) := by
  have hu := initIoUring_c { W with c := { W.c with operationsFd := [] } } sz se
  dsimp only at hu
  unfold initCtx at hok ⊢
  dsimp only at hok ⊢
  split at hok
  · rename_i heq
    right
    exact hu.1 heq
  · rename_i e heq
    left
    unfold initAio at hok ⊢
    dsimp only at hok ⊢
    by_cases ha : se.aioErr ≠ 0
    · rw [if_pos ha] at hok; simp at hok
    · rw [if_neg ha]
      exact ⟨rfl, rfl⟩

theorem NewCtx_c (W : World) (sz sameThreadLim : Int) (bufPoller : Option (Int → Buf))
    (bufReleaser : Bool) (se : SetupEnv)
    (hok : (NewCtx W sz sameThreadLim bufPoller bufReleaser se).2 = none) :
    (initCtx { W with c := {} } sz se).2 = none ∧
    (NewCtx W sz sameThreadLim bufPoller bufReleaser se).1.c.asyncMode =
      (initCtx { W with c := {} } sz se).1.c.asyncMode ∧
    (NewCtx W sz sameThreadLim bufPoller bufReleaser se).1.c.align =
      (initCtx { W with c := {} } sz se).1.c.align := by
  unfold NewCtx at hok ⊢
  dsimp only at hok ⊢
  generalize initCtx { W with c := {} } sz se = res at hok ⊢
  obtain ⟨W1, e⟩ := res
  cases e with
  | some err => simp at hok
  | none => exact ⟨rfl, rfl, rfl⟩

/-- C23 as stated fails for every backend other than Linux AIO: no code assigns the
alignment there, so `Align()` returns the zero value 0, not 1.  On a Linux kernel with
io_uring `NewCtx` succeeds on the io_uring backend and `Align()` is 0; after `NewCtx` of the
BSD build and of the Windows build `Align()` is 0 as well. -/
theorem C23_counterexample :
    (NewCtx bootWorld 8 1024 none false {}).2 = none ∧
    (NewCtx bootWorld 8 1024 none false {}).1.c.asyncMode = asyncIoUring ∧
    Align (NewCtx bootWorld 8 1024 none false {}).1 = 0 ∧
    (Bsd.NewCtx 8 1024 none false).2 = none ∧
    Bsd.Align (Bsd.NewCtx 8 1024 none false).1 = 0 ∧
    (Win.NewCtx 8 1024 none false {}).2 = none ∧
    Win.Align (Win.NewCtx 8 1024 none false {}).1 = 0 := by
  refine ⟨rfl, rfl, rfl, rfl, rfl, rfl, rfl⟩

/-- C23 (amended). After a successful `NewCtx` of the Linux build the backend is Linux AIO
and `Align()` is 512, or the backend is io_uring and `Align()` is 0.  After `NewCtx` of the BSD
and Darwin build and of the Windows build (overlapped I/O) `Align()` is 0. -/
theorem C23_align_after_NewCtx (W : World) (sz sameThreadLim : Int)
    (bufPoller : Option (Int → Buf)) (bufReleaser : Bool) (se : SetupEnv)
    (hok : (NewCtx W sz sameThreadLim bufPoller bufReleaser se).2 = none) :
    (((NewCtx W sz sameThreadLim bufPoller bufReleaser se).1.c.asyncMode = asyncAio ∧
        Align (NewCtx W sz sameThreadLim bufPoller bufReleaser se).1 = 512) ∨
      ((NewCtx W sz sameThreadLim bufPoller bufReleaser se).1.c.asyncMode = asyncIoUring ∧
        Align (NewCtx W sz sameThreadLim bufPoller bufReleaser se).1 = 0)) ∧
    Bsd.Align (Bsd.NewCtx sz sameThreadLim bufPoller bufReleaser).1 = 0 ∧
    ∀ pe : Win.ProcEnv, Win.Align (Win.NewCtx sz sameThreadLim bufPoller bufReleaser pe).1 = 0 := by
  refine ⟨?_, rfl, ?_⟩
  · obtain ⟨h1, h2, h3⟩ := NewCtx_c W sz sameThreadLim bufPoller bufReleaser se hok
    unfold Align
    rw [h2, h3]
    exact initCtx_c _ sz se h1
  · intro pe
    unfold Win.NewCtx Win.initCtx Win.Align
    dsimp only
    cases pe.k32 <;> cases pe.ce <;> cases pe.wf <;> cases pe.rf <;> cases pe.gor <;> rfl

/-- Witness for C23 (amended): on a kernel without io_uring `NewCtx` falls back to Linux AIO
and `Align()` is 512. -/
theorem C23_align_after_NewCtx_witness :
    (NewCtx noUringWorld 8 1024 none false {}).1.c.asyncMode = asyncAio ∧
    Align (NewCtx noUringWorld 8 1024 none false {}).1 = 512 :=
  ((C23_align_after_NewCtx noUringWorld 8 1024 none false {} rfl).1).resolve_right
    (fun h => absurd h.1 (by decide))

/-! ## C24: `WriteSync` and `ReadSync` on Windows -/

/-- C24 fails on the code when the overlapped call completes synchronously.  On an idle
async-mode file at position 0, `WriteSync` and `ReadSync` of 512 bytes whose `WriteFile` or
`ReadFile` call returns nonzero with 512 bytes transferred return `(0, nil)`, not
`(512, nil)`; the position advances to 512.  When the call returns `ERROR_IO_PENDING` and the
blocking `GetOverlappedResult` reports 512 bytes they return `(512, nil)` and the position
advances to 512. -/
theorem C24_windows_sync_completion_returns_zero :
    Win.writeSyncRun { rwR1 := 1, rwN := 512 } = some ((0, none), 512) ∧
    Win.readSyncRun { rwR1 := 1, rwN := 512 } = some ((0, none), 512) ∧
    Win.writeSyncRun { rwR1 := 0, rwErr := 997, gor := [{ r1 := 1, n := 512 }] } =
      some ((512, none), 512) ∧
    Win.readSyncRun { rwR1 := 0, rwErr := 997, gor := [{ r1 := 1, n := 512 }] } =
      some ((512, none), 512) := by
  decide

/-! ## C25: `ErrNotSubmittedIoUring` -/

/-- C25 as stated fails for an opcode that is neither `ioringOpReadv` nor `ioringOpWritev`.
On the empty ring of `uringWorld` (2 entries), `asyncRWIoUring` with `ioringOpNop` returns
`ErrNotSubmittedIoUring` although `getSqe` did hand out an entry: the local SQE tail went
from 0 to 1 (counter and operations table are as before).  The next call, a write, then
publishes two entries: the shared submission tail becomes 2. -/
theorem C25_counterexample :
    nopThenWrite =
      some ((0, some Error.ErrNotSubmittedIoUring), (0, none), 0, some 1, 0, [], some 2) := by
  rfl

/-- C25 (amended). Let the ring exist, the buffer be non-empty, the record taken from the
pool be non-nil and the slot at the local SQE tail lie inside `sqes`.  (1) When the ring is
full at the SQE level (`sqeTail + 1 - khead > entries`, no SQE is produced),
`asyncRWIoUring` returns `ErrNotSubmittedIoUring` and the in-flight counter, the operations
table and the ring, local SQE tail included, are as before the call.  (2) When the opcode is
neither `ioringOpReadv` nor `ioringOpWritev` it returns `ErrNotSubmittedIoUring` and the
in-flight counter and the operations table are as before the call.  (3) In every other case
it does not return `ErrNotSubmittedIoUring`. -/
theorem C25_not_submitted (W : World) (f op : Nat) (data : Buf) (env : Env) (r : ring)
    (hr : W.c.r = some r) (hlen : 0 < data.Len) (hptr : env.ptr ≠ 0)
    (hslot : r.sq.sqeTail &&& r.sq.kringMask < r.sq.sqes.length) :
    (¬ sub32 (add32 r.sq.sqeTail 1) r.sq.khead ≤ r.sq.kringEntries →
      ∃ W1, asyncRWIoUring W f op data env = some (W1, 0, some Error.ErrNotSubmittedIoUring) ∧
        W1.c.currentCnt = W.c.currentCnt ∧ W1.c.operationsFd = W.c.operationsFd ∧
        W1.c.r = W.c.r) ∧
    ((op ≠ ioringOpReadv ∧ op ≠ ioringOpWritev) →
      ∃ W1, asyncRWIoUring W f op data env = some (W1, 0, some Error.ErrNotSubmittedIoUring) ∧
        W1.c.currentCnt = W.c.currentCnt ∧ W1.c.operationsFd = W.c.operationsFd) ∧
    (sub32 (add32 r.sq.sqeTail 1) r.sq.khead ≤ r.sq.kringEntries →
      (op = ioringOpReadv ∨ op = ioringOpWritev) →
      ∀ W1 n err, asyncRWIoUring W f op data env = some (W1, n, err) →
        err ≠ some Error.ErrNotSubmittedIoUring) := by
  have hl : ¬ data.Len ≤ 0 := by omega
  refine ⟨fun hfull => ?_, fun hop => ?_, fun hroom hop W1 n err h => ?_⟩
  · have hg : getSqe r = some (r, none) := by
      unfold getSqe
      dsimp only
      rw [if_neg hfull]
    unfold asyncRWIoUring
    rw [if_neg hl]
    simp only [hr, hg, Option.none_bind, rw_none, Bool.not_false, if_true]
    refine ⟨_, rfl, ?_, rfl, rfl⟩
    show W.c.currentCnt + 1 - 1 = W.c.currentCnt
    omega
  · have hrw : ∀ s, (rw op s (W.files f).fd env.ptr env.ptr 1 (W.files f).pos).1 = false := by
      intro s
      unfold rw
      rw [if_pos hop]
    unfold asyncRWIoUring
    rw [if_neg hl]
    simp only [hr]
    unfold getSqe
    dsimp only
    by_cases hroom : sub32 (add32 r.sq.sqeTail 1) r.sq.khead ≤ r.sq.kringEntries
    · rw [if_pos hroom, if_pos hslot]
      simp only [hrw, Bool.not_false, if_true]
      refine ⟨_, rfl, ?_, rfl⟩
      show W.c.currentCnt + 1 - 1 = W.c.currentCnt
      omega
    · rw [if_neg hroom]
      simp only [hrw, Bool.not_false, if_true]
      refine ⟨_, rfl, ?_, rfl⟩
      show W.c.currentCnt + 1 - 1 = W.c.currentCnt
      omega
  · have hg : getSqe r = some ({ r with sq := { r.sq with sqeTail := add32 r.sq.sqeTail 1 } },
        some (r.sq.sqeTail &&& r.sq.kringMask)) := by
      unfold getSqe
      dsimp only
      rw [if_pos hroom, if_pos hslot]
    obtain ⟨x, hx⟩ : ∃ x, r.sq.sqes[r.sq.sqeTail &&& r.sq.kringMask]? = some x :=
      ⟨_, List.getElem?_eq_getElem hslot⟩
    unfold asyncRWIoUring at h
    rw [if_neg hl] at h
    simp only [hr, hg, Option.some_bind, hx, (rw_ok op x _ env.ptr 1 _ hop hptr).1,
      Bool.not_true, Bool.false_eq_true, if_false] at h
    split at h
    · exact absurd h (by simp)
    · split_ifs at h <;> simp only [Option.some.injEq, Prod.mk.injEq] at h <;>
        (rw [← h.2.2]; simp)

/-- Witness for C25 (amended): the ring of `fullSqWorld` has both entries handed out. -/
theorem C25_not_submitted_witness :
    ∃ W1, asyncRWIoUring fullSqWorld 0 ioringOpWritev alignedBuf { ptr := 1000 } =
        some (W1, 0, some Error.ErrNotSubmittedIoUring) ∧
      W1.c.currentCnt = fullSqWorld.c.currentCnt ∧
      W1.c.operationsFd = fullSqWorld.c.operationsFd ∧
      W1.c.r = fullSqWorld.c.r :=
  (C25_not_submitted fullSqWorld 0 ioringOpWritev alignedBuf { ptr := 1000 }
    (fullSqWorld.c.r.getD {}) rfl (by decide) (by decide) (by decide)).1 (by decide)

/-! ## C26: `flushSq` -/

theorem add32_mod_pow (t i j : Nat) (hj : j ≤ 32) :
    add32 t i &&& (2 ^ j - 1) = (t + i) % 2 ^ j := by
  rw [Nat.and_pow_two_sub_one_eq_mod]
  unfold add32
  have hd : 2 ^ j ∣ 4294967296 := by
    have : (4294967296 : Nat) = 2 ^ 32 := by norm_num
    rw [this]
    exact Nat.pow_dvd_pow 2 hj
  exact Nat.mod_mod_of_dvd _ hd

theorem slot_ne (t i j : Nat) (hi : i + 1 < 2 ^ j + 1) (hi0 : 0 < i) :
    (t + i) % 2 ^ j ≠ t % 2 ^ j := by
  intro h
  have h1 : t + i ≡ t + 0 [MOD 2 ^ j] := by
    rw [Nat.add_zero]; exact h
  have h2 : i ≡ 0 [MOD 2 ^ j] := Nat.ModEq.add_left_cancel' t h1
  have h3 : 2 ^ j ∣ i := (Nat.modEq_zero_iff_dvd).mp h2
  have := Nat.le_of_dvd hi0 h3
  omega

theorem flushLoop_spec (j : Nat) (hj : j ≤ 32) (n : Nat) (sq : sQueue) (t : Nat)
    (hn : n ≤ 2 ^ j) (hlen : sq.array.length = 2 ^ j)
    (ht : t < 4294967296) (hh : sq.sqeHead < 4294967296) :
    ∃ arr, flushLoop (2 ^ j - 1) n sq t =
        some ({ sq with array := arr, sqeHead := add32 sq.sqeHead n }, add32 t n) ∧
      arr.length = 2 ^ j ∧
      (∀ i, i < n → arr[(t + i) % 2 ^ j]? = some ((sq.sqeHead + i) % 2 ^ j)) ∧
      (∀ s, (∀ i, i < n → (t + i) % 2 ^ j ≠ s) → arr[s]? = sq.array[s]?) := by
  induction n generalizing sq t with
  | zero =>
    refine ⟨sq.array, ?_, hlen, fun i hi => absurd hi (Nat.not_lt_zero i), fun s _ => rfl⟩
    unfold flushLoop
    have h1 : add32 sq.sqeHead 0 = sq.sqeHead := by unfold add32; omega
    have h2 : add32 t 0 = t := by unfold add32; omega
    rw [h1, h2]
  | succ n ih =>
    have hP : 0 < 2 ^ j := Nat.two_pow_pos j
    have hslot : t &&& (2 ^ j - 1) < sq.array.length := by
      rw [Nat.and_pow_two_sub_one_eq_mod, hlen]
      exact Nat.mod_lt _ hP
    have hset : (sq.array.set (t &&& (2 ^ j - 1)) (sq.sqeHead &&& (2 ^ j - 1))).length = 2 ^ j := by
      rw [List.length_set]; exact hlen
    obtain ⟨arr, hloop, harr, hpub, hoth⟩ := ih
      { sq with
        array := sq.array.set (t &&& (2 ^ j - 1)) (sq.sqeHead &&& (2 ^ j - 1))
        sqeHead := add32 sq.sqeHead 1 }
      (add32 t 1) (by omega) hset (Nat.mod_lt _ (by norm_num)) (Nat.mod_lt _ (by norm_num))
    dsimp only at hloop hpub hoth
    have hmodP : ∀ x i, (add32 x 1 + i) % 2 ^ j = (x + (i + 1)) % 2 ^ j := by
      intro x i
      have hd : 2 ^ j ∣ 4294967296 := by
        have : (4294967296 : Nat) = 2 ^ 32 := by norm_num
        rw [this]
        exact Nat.pow_dvd_pow 2 hj
      have h1 : (x + 1) % 4294967296 ≡ x + 1 [MOD 4294967296] := Nat.mod_modEq _ _
      have h2 := (Nat.ModEq.of_dvd hd h1).add_right i
      have e : x + 1 + i = x + (i + 1) := by omega
      rw [e] at h2
      exact h2
    refine ⟨arr, ?_, harr, ?_, ?_⟩
    · unfold flushLoop
      rw [if_pos hslot, hloop]
      have h1 : add32 (add32 sq.sqeHead 1) n = add32 sq.sqeHead (n + 1) := by
        unfold add32; omega
      have h2 : add32 (add32 t 1) n = add32 t (n + 1) := by unfold add32; omega
      rw [h1, h2]
    · intro i hi
      cases i with
      | zero =>
        have hne : ∀ i1, i1 < n → (add32 t 1 + i1) % 2 ^ j ≠ (t + 0) % 2 ^ j := by
          intro i1 hi1
          rw [hmodP, Nat.add_zero]
          exact slot_ne t (i1 + 1) j (by omega) (by omega)
        rw [hoth _ hne, Nat.add_zero, Nat.add_zero, ← Nat.and_pow_two_sub_one_eq_mod,
          ← Nat.and_pow_two_sub_one_eq_mod, List.getElem?_set_self hslot]
      | succ i1 =>
        have := hpub i1 (by omega)
        rw [hmodP, hmodP] at this
        exact this
    · intro s hs
      have hne : ∀ i1, i1 < n → (add32 t 1 + i1) % 2 ^ j ≠ s := by
        intro i1 hi1
        rw [hmodP]
        exact hs (i1 + 1) (by omega)
      rw [hoth s hne]
      have h0 := hs 0 (by omega)
      rw [Nat.add_zero, ← Nat.and_pow_two_sub_one_eq_mod] at h0
      exact List.getElem?_set_ne h0

/-- C26. For a submission ring whose entry count is a power of two, with
`mask = entries - 1`, an index array of `entries` slots and `k = sqeTail - sqeHead <= entries`
pending entries (the counters being `uint32` values, arithmetic modulo 2^32): `flushSq`
returns `ktail - khead` for the new shared tail; afterwards
`array[(ktail0 + i) & mask] = (sqeHead0 + i) & mask` for every `i < k`, every other slot of
the array is unchanged, the shared `ktail` is `ktail0 + k`, `sqeHead` equals `sqeTail`, and
nothing else in the ring changes; with `k = 0` the ring is unchanged. -/
theorem C26_flushSq_publishes (r : ring) (j : Nat) (hj : j ≤ 32)
    (hent : r.sq.kringEntries = 2 ^ j)
    (hmask : r.sq.kringMask = r.sq.kringEntries - 1)
    (hlen : r.sq.array.length = r.sq.kringEntries)
    (hk : sub32 r.sq.sqeTail r.sq.sqeHead ≤ r.sq.kringEntries)
    (htail : r.sq.ktail < 4294967296) (hhead : r.sq.sqeHead < 4294967296)
    (hstail : r.sq.sqeTail < 4294967296) :
    ∃ r1, flushSq r = some (r1, (sub32 r1.sq.ktail r1.sq.khead : Int)) ∧
      (∀ i, i < sub32 r.sq.sqeTail r.sq.sqeHead →
        r1.sq.array[add32 r.sq.ktail i &&& r.sq.kringMask]? =
          some (add32 r.sq.sqeHead i &&& r.sq.kringMask)) ∧
      (∀ s, (∀ i, i < sub32 r.sq.sqeTail r.sq.sqeHead →
          add32 r.sq.ktail i &&& r.sq.kringMask ≠ s) →
        r1.sq.array[s]? = r.sq.array[s]?) ∧
      r1.sq.ktail = add32 r.sq.ktail (sub32 r.sq.sqeTail r.sq.sqeHead) ∧
      r1.sq.sqeHead = r.sq.sqeTail ∧
      r1.sq.khead = r.sq.khead ∧ r1.sq.sqeTail = r.sq.sqeTail ∧ r1.sq.sqes = r.sq.sqes ∧
      r1.sq.kringMask = r.sq.kringMask ∧ r1.sq.kringEntries = r.sq.kringEntries ∧
      r1.cq = r.cq ∧
      (sub32 r.sq.sqeTail r.sq.sqeHead = 0 → r1 = r) := by
  have hm : r.sq.kringMask = 2 ^ j - 1 := by rw [hmask, hent]
  obtain ⟨arr, hloop, -, hpub, hoth⟩ := flushLoop_spec j hj (sub32 r.sq.sqeTail r.sq.sqeHead)
    r.sq r.sq.ktail (hent ▸ hk) (hlen.trans hent) htail hhead
  have hF : flushSq r = some
      ({ r with sq := { r.sq with
          array := arr
          sqeHead := add32 r.sq.sqeHead (sub32 r.sq.sqeTail r.sq.sqeHead)
          ktail := add32 r.sq.ktail (sub32 r.sq.sqeTail r.sq.sqeHead) } },
        (sub32 (add32 r.sq.ktail (sub32 r.sq.sqeTail r.sq.sqeHead)) r.sq.khead : Int)) := by
    unfold flushSq
    rw [hm, hloop]
  refine ⟨_, hF, ?_, ?_, rfl, ?_, rfl, rfl, rfl, rfl, rfl, rfl, ?_⟩
  · intro i hi
    rw [hm, add32_mod_pow _ _ _ hj, add32_mod_pow _ _ _ hj]
    exact hpub i hi
  · intro s hs
    apply hoth
    intro i hi
    have := hs i hi
    rw [hm, add32_mod_pow _ _ _ hj] at this
    exact this
  · show add32 r.sq.sqeHead (sub32 r.sq.sqeTail r.sq.sqeHead) = r.sq.sqeTail
    unfold add32 sub32
    omega
  · intro h0
    have harr : arr = r.sq.array := by
      apply List.ext_getElem?
      intro s
      exact hoth s (fun i hi => by rw [h0] at hi; exact absurd hi (Nat.not_lt_zero i))
    rw [h0, harr]
    have h1 : add32 r.sq.sqeHead 0 = r.sq.sqeHead := by unfold add32; omega
    have h2 : add32 r.sq.ktail 0 = r.sq.ktail := by unfold add32; omega
    rw [h1, h2]

/-- Witness for C26: the ring `twoPendingRing` (2 entries, both pending, shared tail 1):
`flushSq` writes the slots 1 and 0 of the index array, the shared tail becomes 3 and the value
returned is 2. -/
theorem C26_flushSq_publishes_witness :
    ∃ r1, flushSq twoPendingRing = some (r1, (sub32 r1.sq.ktail r1.sq.khead : Int)) ∧
      r1.sq.array[1]? = some 1 ∧ r1.sq.array[0]? = some 0 ∧
      r1.sq.ktail = 3 ∧ r1.sq.sqeHead = 3 ∧ r1.sq.khead = 1 := by
  obtain ⟨r1, h, h1, -, h3, h4, h5, -⟩ :=
    C26_flushSq_publishes twoPendingRing 1 (by decide) rfl rfl rfl (by decide) (by decide)
      (by decide) (by decide)
  exact ⟨r1, h, h1 0 (by decide), h1 1 (by decide), h3, h4, h5⟩

/-! ## C27: the function `rw` -/

/-- C27. `rw` returns true exactly when the opcode is `ioringOpReadv` or `ioringOpWritev`,
the entry is not nil and neither the buffer address nor the user-data pointer is nil.  When it
returns true the entry holds the given opcode, descriptor (as `int32`), offset (as `uint64`),
address, length and user data, with `flags`, `ioprio`, `sqeFlags` and the padding zero (these
are all the fields of an entry); a descriptor in the `int32` range and a non-negative offset
are stored as they are.  When it returns false the entry is unchanged. -/
theorem C27_rw_fills_entry (op : Nat) (ioSqe : Option sqe) (fd : Int) (addr userData len : Nat)
    (offset : Int) :
    ((rw op ioSqe fd addr userData len offset).1 = true ↔
      (op = ioringOpReadv ∨ op = ioringOpWritev) ∧ ioSqe ≠ none ∧ addr ≠ 0 ∧ userData ≠ 0) ∧
    ((rw op ioSqe fd addr userData len offset).1 = true →
      (rw op ioSqe fd addr userData len offset).2 = some
        { opcode := op, flags := 0, ioprio := 0, fd := int32 fd, off := uint64 offset,
          addr := addr, len := len, sqeFlags := 0, userData := userData, pad := [0, 0, 0] } ∧
      (-2147483648 ≤ fd → fd < 2147483648 → int32 fd = fd) ∧
      (0 ≤ offset → offset < 18446744073709551616 → (uint64 offset : Int) = offset)) ∧
    ((rw op ioSqe fd addr userData len offset).1 = false →
      (rw op ioSqe fd addr userData len offset).2 = ioSqe) := by
  have hconv : (-2147483648 ≤ fd → fd < 2147483648 → int32 fd = fd) ∧
      (0 ≤ offset → offset < 18446744073709551616 → (uint64 offset : Int) = offset) := by
    constructor
    · intro h1 h2; unfold int32; omega
    · intro h1 h2; unfold uint64; omega
  unfold rw
  by_cases hop : op ≠ ioringOpReadv ∧ op ≠ ioringOpWritev
  · rw [if_pos hop]
    refine ⟨⟨fun h => absurd h (by simp), fun h => ?_⟩, fun h => absurd h (by simp), fun _ => rfl⟩
    rcases h.1 with h1 | h1
    · exact absurd h1 hop.1
    · exact absurd h1 hop.2
  · rw [if_neg hop]
    have hop2 : op = ioringOpReadv ∨ op = ioringOpWritev := by
      by_contra hc
      push_neg at hc
      exact hop hc
    cases ioSqe with
    | none =>
      exact ⟨⟨fun h => absurd h (by simp), fun h => absurd rfl h.2.1⟩,
        fun h => absurd h (by simp), fun _ => rfl⟩
    | some s =>
      dsimp only
      by_cases hp : addr = 0 ∨ userData = 0
      · rw [if_pos hp]
        refine ⟨⟨fun h => absurd h (by simp), fun h => ?_⟩, fun h => absurd h (by simp),
          fun _ => rfl⟩
        rcases hp with h1 | h1
        · exact absurd h1 h.2.2.1
        · exact absurd h1 h.2.2.2
      · rw [if_neg hp]
        push_neg at hp
        exact ⟨⟨fun _ => ⟨hop2, by simp, hp.1, hp.2⟩, fun _ => rfl⟩, fun _ => ⟨rfl, hconv⟩,
          fun h => absurd h (by simp)⟩

/-! ## C28: the kernel offset and the logical position -/

/-- C28 fails on the code.  On the idle async-mode file 0 of `aioWorld` (kernel offset and
logical position 0, `lastSyncSeek` clear), `WriteSync` of 512 bytes of which the operating
system writes 100 returns `(100, ErrShortWrite)`; afterwards `lastSyncSeek` is clear, the
logical position is 0 and the kernel offset of the descriptor is 100. -/
theorem C28_cursor_differs_after_short_write :
    (aioWorld.files 0).mode = ModeAsync ∧
    (aioWorld.files 0).lastSyncSeek = false ∧
    aioWorld.k.cursor (aioWorld.files 0).fd = (aioWorld.files 0).pos ∧
    (WriteSync aioWorld 0 alignedBuf { rawN := 100 }).map Prod.snd =
      some (100, some Error.ErrShortWrite) ∧
    (shortWriteW.files 0).lastSyncSeek = false ∧
    (shortWriteW.files 0).pos = 0 ∧
    shortWriteW.k.cursor (shortWriteW.files 0).fd = 100 := by
  refine ⟨rfl, rfl, rfl, rfl, rfl, rfl, rfl⟩

/-! ## C29: an asynchronous operation on an empty buffer -/

/-- C29 fails on the code.  In Linux-AIO mode `Write` of an empty buffer returns `(0, nil)` and
leaves the file with `lastOp = OpWrite` and `complete = false`, although `asyncRWAio` returned
before registering or submitting anything: the operations table is empty and the kernel holds
no control block.  No harvest can complete the file: `LastOp` returns `(0, false, nil)` and a
further `Write` returns `ErrNotCompleted`. -/
theorem C29_empty_write_never_completes :
    (Write aioWorld 0 emptyBuf { ptr := 1000 }).map Prod.snd = some (0, none) ∧
    (emptyWriteW.files 0).lastAsyncOpState.lastOp = OpWrite ∧
    (emptyWriteW.files 0).lastAsyncOpState.complete = false ∧
    emptyWriteW.c.operationsFd = [] ∧
    emptyWriteW.k.aioInflight = [] ∧
    (LastOp emptyWriteW 0 {}).map Prod.snd = some (0, false, none) ∧
    (Write emptyWriteW 0 alignedBuf { ptr := 2000 }).map Prod.snd =
      some (0, some Error.ErrNotCompleted) := by
  refine ⟨rfl, rfl, rfl, rfl, rfl, rfl, rfl⟩

/-! ## C30: a failed submission on Linux AIO -/

/-- C30 fails on the code.  On the idle file 0 of `aioWorld` (empty operations table),
`asyncRWAio` of an aligned buffer whose `io_submit` fails with errno 11, or accepts 0 control
blocks, returns the error but leaves the key of the control block in the operations table;
the kernel holds nothing.  (`lastOp` and `complete` are unchanged, and so is the table when the
buffer is unaligned.) -/
theorem C30_failed_submit_keeps_key :
    aioWorld.c.operationsFd = [] ∧
    (asyncRWAio aioWorld 0 iocbCmdPwrite alignedBuf { ptr := 1000, submitErr := 11 }).map
        (fun r => (r.2, r.1.c.operationsFd, r.1.k.aioInflight,
          (r.1.files 0).lastAsyncOpState.lastOp, (r.1.files 0).lastAsyncOpState.complete)) =
      some ((0, some (Error.Errno 11)), [(1000, 0)], [], OpUnknown, true) ∧
    (asyncRWAio aioWorld 0 iocbCmdPwrite alignedBuf { ptr := 1000, submitN := 0 }).map
        (fun r => (r.2, r.1.c.operationsFd, r.1.k.aioInflight)) =
      some ((0, some Error.ErrNotSubmittedAio), [(1000, 0)], []) ∧
    (asyncRWAio aioWorld 0 iocbCmdPwrite oddBuf { ptr := 1000 }).map
        (fun r => (r.2, r.1.c.operationsFd)) =
      some ((0, some Error.ErrUnalignedData), []) := by
  refine ⟨rfl, rfl, rfl, rfl⟩

end Asyncfs
